import Mathlib

/-!
# deviceauth: inventory propagation commands (`cmd/commands.go`)

A shallow embedding of the propagation engine of `cmd/commands.go`.

* The two collaborators, the record store (`store.DataStore`) and the inventory
  client (`cinv.Client`), are arbitrary functions of the history of collaborator
  calls made so far, so that a theorem quantified over them covers every store
  and every failure pattern, including time-dependent ones.
* Every operation takes the history `h` of earlier events and returns the list of
  events it adds, in order, together with what it returned.
* The unbounded `for { ... }` loops take a fuel argument; running out of fuel is
  the outcome `Outcome.outOfFuel`, and the events emitted until then are kept.
* Go strings are Lean strings. The only order used is `<` on attribute names;
  Go compares strings byte-wise, which on UTF-8 text is the lexicographic order
  on code points, the order of `String` here (`String.lt_iff_toList_lt`).
-/

set_option autoImplicit false

namespace Deviceauth

/-! ## Data model -/

/-- A non-nil Go `error`, identified with its message. -/
abbrev Err := String

/-- The function `errors.Wrap(err, msg)` of `github.com/pkg/errors` on a non-nil `err`. -/
def wrap (err : Err) (msg : String) : Err := msg ++ ": " ++ err

/-- The type `cinv.Attribute`. -/
structure Attribute where
  Name : String
  Scope : String
  Value : String
  deriving DecidableEq, Repr

/-- The fields of `model.Device` read by the commands; `IdDataStruct` is a Go map,
given as the list of its entries in the order in which `range` enumerates them. -/
structure Device (V : Type) where
  Id : String
  IdDataStruct : List (String × V)
  deriving DecidableEq, Repr

/-- The value `*migrate.Version`. -/
structure Version where
  Major : Nat
  Minor : Nat
  Patch : Nat
  deriving DecidableEq, Repr

/-- A `context.Context` as the commands build it: the background context (`none`) or
the background context carrying the identity of a tenant. -/
abbrev Ctx := Option String

/-- One call of a collaborator operation together with its result. -/
inductive Event (V : Type) where
  | getTenantDbs (res : Except Err (List String))
  | getDevices (ctx : Ctx) (skip limit : Nat) (filter : Option String)
      (res : Except Err (List (Device V)))
  | storeMigrationVersion (ctx : Ctx) (version : Version) (res : Option Err)
  | setDeviceStatus (ctx : Ctx) (tenant : String) (ids : List String) (status : String)
      (res : Option Err)
  | setDeviceIdentity (ctx : Ctx) (tenant : String) (id : String) (idData : List (String × V))
      (res : Option Err)
  | patchDeviceV2 (id tenant source : String) (ts : Int) (attrs : List Attribute)
      (res : Option Err)

/-- The operations of `store.DataStore` used by the commands. The filter of `GetDevices`
is the `Status` field of `model.DeviceFilter` (`none` for the zero filter). -/
structure DataStore (V : Type) where
  GetTenantDbs : List (Event V) → Except Err (List String)
  GetDevices : List (Event V) → Ctx → Nat → Nat → Option String → Except Err (List (Device V))
  StoreMigrationVersion : List (Event V) → Ctx → Version → Option Err

/-- The operations of `cinv.Client` used by the commands. -/
structure Client (V : Type) where
  PatchDeviceV2 : List (Event V) → String → String → String → Int → List Attribute → Option Err
  SetDeviceStatus : List (Event V) → Ctx → String → List String → String → Option Err
  SetDeviceIdentity : List (Event V) → Ctx → String → String → List (String × V) → Option Err

/-- Library functions and constants of other packages that the commands use:
`mongo.DbName`, `mstore.DbNameForTenant`, `mstore.TenantFromDbName`,
`migrate.NewVersion` (a version pointer, possibly nil, and an error, possibly nil),
`utils.UnixMilis` (read off the history), `json.Marshal`, the `%v` formatting of a value
and `sort.Slice` on a slice of attributes. -/
structure Externals (V : Type) where
  DbName : String
  DbNameForTenant : String → String → String
  TenantFromDbName : String → String → String
  NewVersion : String → Option Version × Option Err
  NowUnixMilis : List (Event V) → Int
  jsonMarshal : V → Except Err String
  fmtValue : V → String
  sortSlice : (Attribute → Attribute → Bool) → List Attribute → List Attribute

/-- How a call ended: it returned `err` (`none` is Go's `nil`), or the fuel of a loop
ran out before it returned. -/
inductive Outcome where
  | done (err : Option Err)
  | outOfFuel
  deriving DecidableEq, Repr

/-- The constant `devicesBatchSize`. -/
def devicesBatchSize : Nat := 512

/-- Go's `uint` on a 64-bit platform holds values modulo `2 ^ 64`. -/
def uintMod : Nat := 2 ^ 64

/-- The context built at the top of the `try...ForDb` functions. -/
def mkCtx (tenant : String) : Ctx := if tenant ≠ "" then some tenant else none

variable {V : Type}

/-! ## Status propagation -/

/-- The sink step of one page of `updateDevicesStatus`: the `SetDeviceStatus` call, skipped
under dry-run. -/
def statusSinkStep (c : Client V) (ctx : Ctx) (tenant status : String) (dryRun : Bool)
    (h : List (Event V)) (devicesIds : List String) : List (Event V) × Option Err :=
  if !dryRun then
    let err := c.SetDeviceStatus h ctx tenant devicesIds status
    ([Event.setDeviceStatus ctx tenant devicesIds status err], err)
  else ([], none)

/-- The function `updateDevicesStatus`; the last argument is the loop variable `skip`. -/
def updateDevicesStatus (db : DataStore V) (c : Client V) (ctx : Ctx) (tenant status : String)
    (dryRun : Bool) : Nat → List (Event V) → Nat → List (Event V) × Outcome
  | 0, _, _ => ([], Outcome.outOfFuel)
  | fuel + 1, h, skip =>
    let res := db.GetDevices h ctx skip devicesBatchSize (some status)
    let e := Event.getDevices ctx skip devicesBatchSize (some status) res
    match res with
    | Except.error err => ([e], Outcome.done (some (wrap err "failed to get devices")))
    | Except.ok devices =>
      if devices.length < 1 then ([e], Outcome.done none)
      else
        let devicesIds := devices.map (fun d => d.Id)
        let s := statusSinkStep c ctx tenant status dryRun (h ++ [e]) devicesIds
        match s.2 with
        | some err => (e :: s.1, Outcome.done (some err))
        | none =>
          if devices.length < devicesBatchSize then (e :: s.1, Outcome.done none)
          else
            let r := updateDevicesStatus db c ctx tenant status dryRun fuel (h ++ e :: s.1)
              ((skip + devicesBatchSize) % uintMod)
            (e :: s.1 ++ r.1, r.2)

/-- The status enumeration swept by `tryPropagateStatusesInventoryForDb`. -/
def statuses : List String := ["accepted", "pending", "rejected", "preauthorized"]

/-- The `for _, status := range ...` loop of `tryPropagateStatusesInventoryForDb`; the last
argument is the variable `errReturned`. -/
def sweepStatuses (db : DataStore V) (c : Client V) (ctx : Ctx) (tenant : String) (dryRun : Bool)
    (fuel : Nat) : List String → List (Event V) → Option Err → List (Event V) × Option (Option Err)
  | [], _, errReturned => ([], some errReturned)
  | status :: rest, h, errReturned =>
    let r := updateDevicesStatus db c ctx tenant status dryRun fuel h 0
    match r.2 with
    | Outcome.outOfFuel => (r.1, none)
    | Outcome.done err =>
      let errReturned := if err ≠ none then err else errReturned
      let q := sweepStatuses db c ctx tenant dryRun fuel rest (h ++ r.1) errReturned
      (r.1 ++ q.1, q.2)

/-- The checkpoint step at the end of `tryPropagateStatusesInventoryForDb`. -/
def storeCheckpoint (x : Externals V) (db : DataStore V) (ctx : Ctx) (migrationVersion : String)
    (dryRun : Bool) (h : List (Event V)) (errReturned : Option Err) :
    List (Event V) × Option Err :=
  if migrationVersion ≠ "" ∧ !dryRun then
    if errReturned ≠ none then ([], errReturned)
    else
      match x.NewVersion migrationVersion with
      | (some version, none) =>
        ([Event.storeMigrationVersion ctx version (db.StoreMigrationVersion h ctx version)],
          errReturned)
      | (_, err) => ([], err)
  else ([], errReturned)

/-- The function `tryPropagateStatusesInventoryForDb`. -/
def tryPropagateStatusesInventoryForDb (x : Externals V) (db : DataStore V) (c : Client V)
    (dbname migrationVersion : String) (dryRun : Bool) (fuel : Nat) (h : List (Event V)) :
    List (Event V) × Outcome :=
  let tenant := x.TenantFromDbName dbname x.DbName
  let ctx := mkCtx tenant
  let r := sweepStatuses db c ctx tenant dryRun fuel statuses h none
  match r.2 with
  | none => (r.1, Outcome.outOfFuel)
  | some errReturned =>
    let s := storeCheckpoint x db ctx migrationVersion dryRun (h ++ r.1) errReturned
    (r.1 ++ s.1, Outcome.done s.2)

/-! ## Identity-data propagation -/

/-- The inner `for _, d := range devices` loop of `updateDevicesIdData`, which returns at the
first `SetDeviceIdentity` error. -/
def setDevicesIdentity (c : Client V) (ctx : Ctx) (tenant : String) :
    List (Device V) → List (Event V) → List (Event V) × Option Err
  | [], _ => ([], none)
  | d :: ds, h =>
    let err := c.SetDeviceIdentity h ctx tenant d.Id d.IdDataStruct
    let e := Event.setDeviceIdentity ctx tenant d.Id d.IdDataStruct err
    match err with
    | some err => ([e], some err)
    | none =>
      let r := setDevicesIdentity c ctx tenant ds (h ++ [e])
      (e :: r.1, r.2)

/-- The sink step of one page of `updateDevicesIdData`, skipped under dry-run. -/
def idDataSinkStep (c : Client V) (ctx : Ctx) (tenant : String) (dryRun : Bool)
    (h : List (Event V)) (devices : List (Device V)) : List (Event V) × Option Err :=
  if !dryRun then setDevicesIdentity c ctx tenant devices h else ([], none)

/-- The function `updateDevicesIdData`; the last argument is the loop variable `skip`. -/
def updateDevicesIdData (db : DataStore V) (c : Client V) (ctx : Ctx) (tenant : String)
    (dryRun : Bool) : Nat → List (Event V) → Nat → List (Event V) × Outcome
  | 0, _, _ => ([], Outcome.outOfFuel)
  | fuel + 1, h, skip =>
    let res := db.GetDevices h ctx skip devicesBatchSize none
    let e := Event.getDevices ctx skip devicesBatchSize none res
    match res with
    | Except.error err => ([e], Outcome.done (some (wrap err "failed to get devices")))
    | Except.ok devices =>
      if devices.length < 1 then ([e], Outcome.done none)
      else
        let s := idDataSinkStep c ctx tenant dryRun (h ++ [e]) devices
        match s.2 with
        | some err => (e :: s.1, Outcome.done (some err))
        | none =>
          if devices.length < devicesBatchSize then (e :: s.1, Outcome.done none)
          else
            let r := updateDevicesIdData db c ctx tenant dryRun fuel (h ++ e :: s.1)
              ((skip + devicesBatchSize) % uintMod)
            (e :: s.1 ++ r.1, r.2)

/-- The function `tryPropagateIdDataInventoryForDb`. -/
def tryPropagateIdDataInventoryForDb (x : Externals V) (db : DataStore V) (c : Client V)
    (dbname : String) (dryRun : Bool) (fuel : Nat) (h : List (Event V)) :
    List (Event V) × Outcome :=
  let tenant := x.TenantFromDbName dbname x.DbName
  updateDevicesIdData db c (mkCtx tenant) tenant dryRun fuel h 0

/-! ## Full-listing propagation -/

/-- The `for k, v := range id` loop of `idDataToInventoryAttrs`; the last argument is `out`. -/
def encodeAttrs (x : Externals V) : List (String × V) → List Attribute → Except Err (List Attribute)
  | [], out => Except.ok out
  | (k, v) :: rest, out =>
    match x.jsonMarshal v with
    | Except.error err =>
      Except.error (wrap err ("failed to encode attribute " ++ k ++ ", value: " ++ x.fmtValue v))
    | Except.ok venc =>
      encodeAttrs x rest (out ++ [{ Name := k, Scope := "identity", Value := venc }])

/-- The `less` function handed to `sort.Slice` by `idDataToInventoryAttrs`. -/
def lessByName (a b : Attribute) : Bool := decide (a.Name < b.Name)

/-- The function `idDataToInventoryAttrs`. -/
def idDataToInventoryAttrs (x : Externals V) (id : List (String × V)) :
    Except Err (List Attribute) :=
  match encodeAttrs x id [] with
  | Except.error err => Except.error err
  | Except.ok out => Except.ok (x.sortSlice lessByName out)

/-- The function `propagateSingleDevice`. -/
def propagateSingleDevice (x : Externals V) (c : Client V) (d : Device V) (tenant : String)
    (dryrun : Bool) (h : List (Event V)) : List (Event V) × Option Err :=
  match idDataToInventoryAttrs x d.IdDataStruct with
  | Except.error err => ([], some err)
  | Except.ok attrs =>
    if !dryrun then
      let ts := x.NowUnixMilis h
      let err := c.PatchDeviceV2 h d.Id tenant "deviceauth" ts attrs
      ([Event.patchDeviceV2 d.Id tenant "deviceauth" ts attrs err], err)
    else ([], none)

/-- The inner `for _, d := range devs` loop of `tryPropagateInventoryForDb`; the last
argument is the flag `errs`. -/
def propagateDevices (x : Externals V) (c : Client V) (tenant : String) (dryrun : Bool) :
    List (Device V) → List (Event V) → Bool → List (Event V) × Bool
  | [], _, errs => ([], errs)
  | d :: ds, h, errs =>
    let r := propagateSingleDevice x c d tenant dryrun h
    let errs := if r.2 ≠ none then true else errs
    let q := propagateDevices x c tenant dryrun ds (h ++ r.1) errs
    (r.1 ++ q.1, q.2)

/-- The paging loop of `tryPropagateInventoryForDb` with its variables `skip` and `errs`.
The Go `skip` is an `int` converted with `uint(skip)` at each call; it is kept here as
that converted value, modulo `2 ^ 64`. The result is the `GetDevices` error that ended
the loop or the final value of `errs`; `none` when the fuel ran out. -/
def inventoryLoop (x : Externals V) (db : DataStore V) (c : Client V) (ctx : Ctx)
    (tenant : String) (dryrun : Bool) :
    Nat → List (Event V) → Nat → Bool → List (Event V) × Option (Except Err Bool)
  | 0, _, _, _ => ([], none)
  | fuel + 1, h, skip, errs =>
    let limit := 100
    let res := db.GetDevices h ctx skip limit none
    let e := Event.getDevices ctx skip limit none res
    match res with
    | Except.error err => ([e], some (Except.error (wrap err "failed to get devices")))
    | Except.ok devs =>
      let p := propagateDevices x c tenant dryrun devs (h ++ [e]) errs
      if devs.length < limit then (e :: p.1, some (Except.ok p.2))
      else
        let r := inventoryLoop x db c ctx tenant dryrun fuel (h ++ e :: p.1)
          ((skip + limit) % uintMod) p.2
        (e :: p.1 ++ r.1, r.2)

/-- The function `tryPropagateInventoryForDb`: the value of `errs` only selects a log line. -/
def tryPropagateInventoryForDb (x : Externals V) (db : DataStore V) (c : Client V)
    (dbname : String) (dryrun : Bool) (fuel : Nat) (h : List (Event V)) :
    List (Event V) × Outcome :=
  let tenant := x.TenantFromDbName dbname x.DbName
  let r := inventoryLoop x db c (mkCtx tenant) tenant dryrun fuel h 0 false
  match r.2 with
  | none => (r.1, Outcome.outOfFuel)
  | some (Except.error err) => (r.1, Outcome.done (some err))
  | some (Except.ok _) => (r.1, Outcome.done none)

/-! ## Tenant selection and the entry points -/

/-- The function `selectDbs`. -/
def selectDbs (x : Externals V) (db : DataStore V) (tenant : String) (h : List (Event V)) :
    List (Event V) × Except Err (List String) :=
  if tenant ≠ "" then ([], Except.ok [x.DbNameForTenant tenant x.DbName])
  else
    let res := db.GetTenantDbs h
    let e := Event.getTenantDbs res
    match res with
    | Except.error err => ([e], Except.error (wrap err "failed to retrieve tenant DBs"))
    | Except.ok tdbs =>
      if tdbs.length = 0 then ([e], Except.ok [x.DbName]) else ([e], Except.ok tdbs)

/-- The `for _, d := range dbs` loop of `PropagateInventory`. -/
def propagateInventoryDbs (x : Externals V) (db : DataStore V) (c : Client V) (dryrun : Bool)
    (fuel : Nat) : List String → List (Event V) → List (Event V) × Outcome
  | [], _ => ([], Outcome.done none)
  | d :: ds, h =>
    let r := tryPropagateInventoryForDb x db c d dryrun fuel h
    match r.2 with
    | Outcome.outOfFuel => (r.1, Outcome.outOfFuel)
    | Outcome.done _ =>
      let q := propagateInventoryDbs x db c dryrun fuel ds (h ++ r.1)
      (r.1 ++ q.1, q.2)

/-- The function `PropagateInventory`. -/
def PropagateInventory (x : Externals V) (db : DataStore V) (c : Client V) (tenant : String)
    (dryrun : Bool) (fuel : Nat) (h : List (Event V)) : List (Event V) × Outcome :=
  let s := selectDbs x db tenant h
  match s.2 with
  | Except.error err => (s.1, Outcome.done (some (wrap err "aborting")))
  | Except.ok dbs =>
    let r := propagateInventoryDbs x db c dryrun fuel dbs (h ++ s.1)
    (s.1 ++ r.1, r.2)

/-- The `for _, d := range dbs` loop of `PropagateStatusesInventory`; the last argument is
the variable `errReturned`. -/
def propagateStatusesDbs (x : Externals V) (db : DataStore V) (c : Client V)
    (migrationVersion : String) (dryRun : Bool) (fuel : Nat) :
    List String → List (Event V) → Option Err → List (Event V) × Outcome
  | [], _, errReturned => ([], Outcome.done errReturned)
  | d :: ds, h, errReturned =>
    let r := tryPropagateStatusesInventoryForDb x db c d migrationVersion dryRun fuel h
    match r.2 with
    | Outcome.outOfFuel => (r.1, Outcome.outOfFuel)
    | Outcome.done err =>
      let errReturned := if err ≠ none then err else errReturned
      let q := propagateStatusesDbs x db c migrationVersion dryRun fuel ds (h ++ r.1) errReturned
      (r.1 ++ q.1, q.2)

/-- The function `PropagateStatusesInventory`. -/
def PropagateStatusesInventory (x : Externals V) (db : DataStore V) (c : Client V)
    (tenant migrationVersion : String) (dryRun : Bool) (fuel : Nat) (h : List (Event V)) :
    List (Event V) × Outcome :=
  let s := selectDbs x db tenant h
  match s.2 with
  | Except.error err => (s.1, Outcome.done (some (wrap err "aborting")))
  | Except.ok dbs =>
    let r := propagateStatusesDbs x db c migrationVersion dryRun fuel dbs (h ++ s.1) none
    (s.1 ++ r.1, r.2)

/-- The `for _, d := range dbs` loop of `PropagateIdDataInventory`; the last argument is
the variable `errReturned`. -/
def propagateIdDataDbs (x : Externals V) (db : DataStore V) (c : Client V) (dryRun : Bool)
    (fuel : Nat) : List String → List (Event V) → Option Err → List (Event V) × Outcome
  | [], _, errReturned => ([], Outcome.done errReturned)
  | d :: ds, h, errReturned =>
    let r := tryPropagateIdDataInventoryForDb x db c d dryRun fuel h
    match r.2 with
    | Outcome.outOfFuel => (r.1, Outcome.outOfFuel)
    | Outcome.done err =>
      let errReturned := if err ≠ none then err else errReturned
      let q := propagateIdDataDbs x db c dryRun fuel ds (h ++ r.1) errReturned
      (r.1 ++ q.1, q.2)

/-- The function `PropagateIdDataInventory`. -/
def PropagateIdDataInventory (x : Externals V) (db : DataStore V) (c : Client V)
    (tenant : String) (dryRun : Bool) (fuel : Nat) (h : List (Event V)) :
    List (Event V) × Outcome :=
  let s := selectDbs x db tenant h
  match s.2 with
  | Except.error err => (s.1, Outcome.done (some (wrap err "aborting")))
  | Except.ok dbs =>
    let r := propagateIdDataDbs x db c dryRun fuel dbs (h ++ s.1) none
    (s.1 ++ r.1, r.2)

/-! ## Observations on event lists -/

/-- The `SetDeviceStatus` calls of an event list, in order: context, tenant, ids, status. -/
def setStatusCalls (evs : List (Event V)) : List (Ctx × String × List String × String) :=
  evs.filterMap fun e =>
    match e with
    | Event.setDeviceStatus ctx tenant ids status _ => some (ctx, tenant, ids, status)
    | _ => none

/-- The `StoreMigrationVersion` calls of an event list, in order. -/
def checkpointCalls (evs : List (Event V)) : List (Ctx × Version) :=
  evs.filterMap fun e =>
    match e with
    | Event.storeMigrationVersion ctx version _ => some (ctx, version)
    | _ => none

/-- The event is a call of the inventory client (the sink). -/
def Event.isSinkCall : Event V → Bool
  | Event.setDeviceStatus _ _ _ _ _ => true
  | Event.setDeviceIdentity _ _ _ _ _ => true
  | Event.patchDeviceV2 _ _ _ _ _ _ => true
  | _ => false

/-- The event is a `StoreMigrationVersion` call. -/
def Event.isCheckpoint : Event V → Bool
  | Event.storeMigrationVersion _ _ _ => true
  | _ => false

/-- The event is one of the two reads of the store, `GetTenantDbs` and `GetDevices`. -/
def Event.isRead : Event V → Bool
  | Event.getTenantDbs _ => true
  | Event.getDevices _ _ _ _ _ => true
  | _ => false

/-- The event is a failed page fetch or a failed sink call. -/
def Event.failed : Event V → Bool
  | Event.getDevices _ _ _ _ (Except.error _) => true
  | Event.setDeviceStatus _ _ _ _ (some _) => true
  | Event.setDeviceIdentity _ _ _ _ (some _) => true
  | Event.patchDeviceV2 _ _ _ _ _ (some _) => true
  | _ => false

/-- The error that the paging loops return after the event: the wrapped store error after
a failed page fetch, the sink's own error after a failed sink call. -/
def Event.errorOf : Event V → Option Err
  | Event.getDevices _ _ _ _ (Except.error err) => some (wrap err "failed to get devices")
  | Event.setDeviceStatus _ _ _ _ (some err) => some err
  | Event.setDeviceIdentity _ _ _ _ (some err) => some err
  | Event.patchDeviceV2 _ _ _ _ _ (some err) => some err
  | _ => none

/-- The shape of the events of a pass that stops at its first failure: when the pass
returned an error, its last event is a failure, the error returned is the error of that
event, and no earlier event is a failure; otherwise no event is a failure. -/
def FailStop (evs : List (Event V)) (o : Outcome) : Prop :=
  match o with
  | Outcome.done (some err) =>
    ∃ pre e, evs = pre ++ [e] ∧ e.failed = true ∧ e.errorOf = some err ∧
      ∀ e' ∈ pre, Event.failed e' = false
  | _ => ∀ e ∈ evs, Event.failed e = false

/-- The `GetDevices` requests of an event list, in order: context, offset, limit, filter. -/
def pageRequests (evs : List (Event V)) : List (Ctx × Nat × Nat × Option String) :=
  evs.filterMap fun e =>
    match e with
    | Event.getDevices ctx skip limit filter _ => some (ctx, skip, limit, filter)
    | _ => none

/-- The `SetDeviceIdentity` calls of an event list, in order: context, tenant, id, payload. -/
def identityCalls (evs : List (Event V)) : List (Ctx × String × String × List (String × V)) :=
  evs.filterMap fun e =>
    match e with
    | Event.setDeviceIdentity ctx tenant id idData _ => some (ctx, tenant, id, idData)
    | _ => none

/-- No event of the list is a failed page fetch or a failed sink call. -/
def noFailure (evs : List (Event V)) : Bool := evs.all fun e => !e.failed

/-- Specification side of the containment claim: one pass of
`tryPropagateStatusesInventoryForDb` for every tenant store of the list, in list order,
each started on the history left by the passes before it, whatever they returned. A
pass is recorded as the store's name, the events of the pass and its outcome. -/
def specStatusPasses (x : Externals V) (db : DataStore V) (c : Client V)
    (migrationVersion : String) (dryRun : Bool) (fuel : Nat) :
    List String → List (Event V) → List (String × List (Event V) × Outcome)
  | [], _ => []
  | d :: ds, h =>
    let r := tryPropagateStatusesInventoryForDb x db c d migrationVersion dryRun fuel h
    (d, r) :: specStatusPasses x db c migrationVersion dryRun fuel ds (h ++ r.1)

/-- The store is unchanged during the runs compared: the results of its two reads do not
depend on the history. -/
def Unchanged (db : DataStore V) : Prop :=
  (∀ h h', db.GetTenantDbs h = db.GetTenantDbs h') ∧
  ∀ h h' ctx skip limit filter,
    db.GetDevices h ctx skip limit filter = db.GetDevices h' ctx skip limit filter

/-- No sink call of the event list failed. -/
def NoSinkFailure (evs : List (Event V)) : Prop :=
  ∀ e ∈ evs, Event.isSinkCall e = true → Event.failed e = false

/-- The attribute that `idDataToInventoryAttrs` builds for one entry of the payload, when
the value of the entry serializes. -/
def attrOf (x : Externals V) (kv : String × V) : Option Attribute :=
  match x.jsonMarshal kv.2 with
  | Except.ok venc => some { Name := kv.1, Scope := "identity", Value := venc }
  | Except.error _ => none

/-- Specification side of the attribute mapper: the keys of the payload in ascending
order, each key `k` mapped to the attribute named `k`, of scope `identity`, whose value
is the JSON encoding of `payload[k]`. -/
def specAttrs (x : Externals V) (id : List (String × V)) : List Attribute :=
  ((id.map Prod.fst).insertionSort fun a b => a ≤ b).filterMap fun k =>
    (id.lookup k).bind fun v => attrOf x (k, v)

/-- The contract of `sort.Slice` for the `less` of `idDataToInventoryAttrs`: the result is
a permutation of the slice in which no element is less than an earlier one. Nothing is
assumed about the order of elements that compare equal, so an unstable sort qualifies. -/
def SortsByName (sortSlice : (Attribute → Attribute → Bool) → List Attribute → List Attribute) :
    Prop :=
  ∀ l, (sortSlice lessByName l).Perm l ∧
    (sortSlice lessByName l).Pairwise fun a b => lessByName b a = false

/-- The sizes of the pages returned by the successful `GetDevices` calls of an event list,
in order. -/
def pageSizes (evs : List (Event V)) : List Nat :=
  evs.filterMap fun e =>
    match e with
    | Event.getDevices _ _ _ _ (Except.ok devs) => some devs.length
    | _ => none

/-- The `PatchDeviceV2` calls of an event list, in order: id, tenant, source, attributes. -/
def patchCalls (evs : List (Event V)) : List (String × String × String × List Attribute) :=
  evs.filterMap fun e =>
    match e with
    | Event.patchDeviceV2 id tenant source _ attrs _ => some (id, tenant, source, attrs)
    | _ => none

/-- The event is a failed page fetch. -/
def Event.fetchFailed : Event V → Bool
  | Event.getDevices _ _ _ _ (Except.error _) => true
  | _ => false

/-- Every `PatchDeviceV2` call of the events `evs`, made after the history `h`, carries the
reading of `NowUnixMilis` taken at the moment of the call, and its result is the sink's
answer at that moment. -/
def PatchesTimed (x : Externals V) (c : Client V) : List (Event V) → List (Event V) → Prop
  | _, [] => True
  | h, e :: evs =>
    (match e with
      | Event.patchDeviceV2 id tenant source ts attrs res =>
        ts = x.NowUnixMilis h ∧ res = c.PatchDeviceV2 h id tenant source ts attrs
      | _ => True) ∧
    PatchesTimed x c (h ++ [e]) evs

/-- Specification side of the full-listing claim: one `PatchDeviceV2` call for every record
whose payload maps, in store order, with the record's id, the tenant, the source label
`deviceauth` and the mapped attributes. -/
def specPatchCalls (x : Externals V) (tenant : String) (recs : List (Device V)) :
    List (String × String × String × List Attribute) :=
  recs.filterMap fun d =>
    match idDataToInventoryAttrs x d.IdDataStruct with
    | Except.ok attrs => some (d.Id, tenant, "deviceauth", attrs)
    | Except.error _ => none

/-- The shape of the events of a full-listing pass, which stops at its first failed page
fetch: when the pass returned an error, its last event is a failed page fetch and no
earlier one is; otherwise no event is a failed page fetch. -/
def FetchStop (evs : List (Event V)) (o : Outcome) : Prop :=
  match o with
  | Outcome.done (some _) =>
    ∃ pre e, evs = pre ++ [e] ∧ e.fetchFailed = true ∧ ∀ e' ∈ pre, Event.fetchFailed e' = false
  | _ => ∀ e ∈ evs, Event.fetchFailed e = false

/-- Specification side of the batching claim: the list `l` cut into consecutive chunks of
`n` elements, chunk `i` holding the positions `[i * n, i * n + n)` of `l`. -/
def specChunks {α : Type} (n : Nat) (l : List α) : List (List α) :=
  (List.range ((l.length + (n - 1)) / n)).map fun i => (l.drop (n * i)).take n

/-- Specification side of the batching claim: the `SetDeviceStatus` calls expected for the
tenant whose records of status `s` are `recs s`. -/
def specStatusCalls (ctx : Ctx) (tenant : String) (recs : String → List (Device V)) :
    List (Ctx × String × List String × String) :=
  statuses.flatMap fun s =>
    (specChunks devicesBatchSize ((recs s).map fun d => d.Id)).map fun ids =>
      (ctx, tenant, ids, s)

/-- The pages of the store end within `n` records: a page request that reaches beyond
offset `n` is never answered with a full page. A store that pages at most `n` records
per tenant and filter is of this kind, whatever failures it has. -/
def PagesEnd (db : DataStore V) (n : Nat) : Prop :=
  ∀ h ctx skip limit filter devs, 0 < limit → n < skip + limit →
    db.GetDevices h ctx skip limit filter = Except.ok devs → devs.length < limit

/-- Specification side of the claims on failures that do not end a loop: one call of
`pass` for every name of the list, in list order, each started on the history left by
the calls before it, whatever they returned. A call is recorded as the name, the events
of the call and its outcome. -/
def specPasses (pass : String → List (Event V) → List (Event V) × Outcome) :
    List String → List (Event V) → List (String × List (Event V) × Outcome)
  | [], _ => []
  | d :: ds, h => (d, pass d h) :: specPasses pass ds (h ++ (pass d h).1)

/-! ## API limits (`model/api_limits.go`) -/

/-- The type `model.ApiBurst`. -/
structure ApiBurst where
  Action : String
  Uri : String
  MinIntervalSec : Int
  deriving DecidableEq, Repr

/-- The type `model.ApiQuota`. -/
structure ApiQuota where
  MaxCalls : Int
  IntervalSec : Int
  deriving DecidableEq, Repr

/-- The type `model.ApiLimits`; the slice `ApiBursts` is `none` when it is nil. -/
structure ApiLimits where
  ApiBursts : Option (List ApiBurst)
  ApiQuota : ApiQuota
  deriving DecidableEq, Repr

/-- The encoding of a Go `int` by `encoding/json`: its decimal numeral. -/
def jsonInt : Int → String
  | Int.ofNat n => String.mk (Nat.toDigits 10 n)
  | Int.negSucc n => "-" ++ String.mk (Nat.toDigits 10 (n + 1))

/-- The encoding of an `ApiBurst` by `encoding/json`, following the field tags; `jsonString`
is the library's quoting of a string. -/
def jsonBurst (jsonString : String → String) (b : ApiBurst) : String :=
  "\x7b\"action\":" ++ jsonString b.Action ++ ",\"uri\":" ++ jsonString b.Uri ++
    ",\"min_interval_sec\":" ++ jsonInt b.MinIntervalSec ++ "\x7d"

/-- The encoding of an `ApiQuota` by `encoding/json`. -/
def jsonQuota (q : ApiQuota) : String :=
  "\x7b\"max_calls\":" ++ jsonInt q.MaxCalls ++ ",\"interval_sec\":" ++ jsonInt q.IntervalSec ++ "\x7d"

/-- The encoding of a slice of bursts by `encoding/json`: `null` for a nil slice, an array
otherwise. -/
def jsonBursts (jsonString : String → String) : Option (List ApiBurst) → String
  | none => "null"
  | some bursts => "[" ++ ",".intercalate (bursts.map (jsonBurst jsonString)) ++ "]"

/-- The call `json.Marshal(&copy)` of `MarshalJSON`: `copy` embeds a `Copy`, a type with the
fields of `ApiLimits` and without its methods, so the fields of `ApiLimits` are encoded
as the fields of one object, in declaration order. -/
def jsonMarshalCopy (jsonString : String → String) (al : ApiLimits) : Except Err String :=
  Except.ok ("\x7b\"bursts\":" ++ jsonBursts jsonString al.ApiBursts ++ ",\"quota\":" ++
    jsonQuota al.ApiQuota ++ "\x7d")

/-- The method `ApiLimits.MarshalJSON`. -/
def ApiLimits.MarshalJSON (jsonString : String → String) (al : ApiLimits) : Except Err String :=
  let al := if al.ApiBursts = none then { al with ApiBursts := some [] } else al
  jsonMarshalCopy jsonString al

/-! ## Decommissioning cleanup

The cleanup commands act on the concrete `*mongo.DataStoreMongo`; its operations and the
events of the cleanup are kept apart from those of the propagation. The lines that the
commands print are not modelled. -/

/-- One call of a store operation of the cleanup together with its result. -/
inductive CleanupEvent where
  | getTenantDbs (res : Except Err (List String))
  | getDevicesBeingDecommissioned (dbName : String) (res : Except Err (List String))
  | getBrokenAuthSets (dbName : String) (res : Except Err (List String))
  | deleteDevicesBeingDecommissioned (dbName : String) (res : Option Err)
  | deleteBrokenAuthSets (dbName : String) (res : Option Err)

/-- The operations of `*mongo.DataStoreMongo` used by the cleanup; devices and
authentication sets are given by their ids. -/
structure DataStoreMongo where
  GetTenantDbs : List CleanupEvent → Except Err (List String)
  GetDevicesBeingDecommissioned : List CleanupEvent → String → Except Err (List String)
  GetBrokenAuthSets : List CleanupEvent → String → Except Err (List String)
  DeleteDevicesBeingDecommissioned : List CleanupEvent → String → Option Err
  DeleteBrokenAuthSets : List CleanupEvent → String → Option Err

/-- The function `decommissioningCleanupDryRun`. -/
def decommissioningCleanupDryRun (db : DataStoreMongo) (dbName : String)
    (h : List CleanupEvent) : List CleanupEvent × Option Err :=
  let res := db.GetDevicesBeingDecommissioned h dbName
  let e1 := CleanupEvent.getDevicesBeingDecommissioned dbName res
  match res with
  | Except.error err => ([e1], some err)
  | Except.ok _ =>
    let res2 := db.GetBrokenAuthSets (h ++ [e1]) dbName
    let e2 := CleanupEvent.getBrokenAuthSets dbName res2
    match res2 with
    | Except.error err => ([e1, e2], some err)
    | Except.ok _ => ([e1, e2], none)

/-- The function `decommissioningCleanupExecute`. -/
def decommissioningCleanupExecute (db : DataStoreMongo) (dbName : String)
    (h : List CleanupEvent) : List CleanupEvent × Option Err :=
  let r := decommissioningCleanupDryRun db dbName h
  match r.2 with
  | some err => (r.1, some err)
  | none =>
    let res1 := db.DeleteDevicesBeingDecommissioned (h ++ r.1) dbName
    let e1 := CleanupEvent.deleteDevicesBeingDecommissioned dbName res1
    match res1 with
    | some err => (r.1 ++ [e1], some err)
    | none =>
      let res2 := db.DeleteBrokenAuthSets (h ++ r.1 ++ [e1]) dbName
      let e2 := CleanupEvent.deleteBrokenAuthSets dbName res2
      match res2 with
      | some err => (r.1 ++ [e1, e2], some err)
      | none => (r.1 ++ [e1, e2], none)

/-- The function `decommissioningCleanupWithDb`. -/
def decommissioningCleanupWithDb (db : DataStoreMongo) (dbName : String) (dryRunFlag : Bool)
    (h : List CleanupEvent) : List CleanupEvent × Option Err :=
  if dryRunFlag then decommissioningCleanupDryRun db dbName h
  else decommissioningCleanupExecute db dbName h

/-- The function `decommissioningCleanupWithDbs`. -/
def decommissioningCleanupWithDbs (db : DataStoreMongo) (dryRunFlag : Bool) :
    List String → List CleanupEvent → List CleanupEvent × Option Err
  | [], _ => ([], none)
  | dbName :: rest, h =>
    let r := decommissioningCleanupWithDb db dbName dryRunFlag h
    match r.2 with
    | some err => (r.1, some err)
    | none =>
      let q := decommissioningCleanupWithDbs db dryRunFlag rest (h ++ r.1)
      (r.1 ++ q.1, q.2)

/-- The function `decommissioningCleanup`; `dbName` is `mongo.DbName` and `dbNameForTenant`
is `mstore.DbNameForTenant`. The result of `decommissioningCleanupWithDbs` is dropped, as
in the source. -/
def decommissioningCleanup (dbName : String) (dbNameForTenant : String → String → String)
    (db : DataStoreMongo) (tenant : String) (dryRunFlag : Bool) (h : List CleanupEvent) :
    List CleanupEvent × Option Err :=
  if tenant = "" then
    let res := db.GetTenantDbs h
    let e := CleanupEvent.getTenantDbs res
    match res with
    | Except.error err => ([e], some (wrap err "failed to retrieve tenant DBs"))
    | Except.ok tdbs =>
      let r := decommissioningCleanupWithDbs db dryRunFlag (tdbs ++ [dbName]) (h ++ [e])
      (e :: r.1, none)
  else
    let r := decommissioningCleanupWithDbs db dryRunFlag [dbNameForTenant tenant dbName] h
    (r.1, none)

/-- The function `maintenanceWithDataStore`. -/
def maintenanceWithDataStore (dbName : String) (dbNameForTenant : String → String → String)
    (decommissioningCleanupFlag : Bool) (tenant : String) (dryRunFlag : Bool)
    (db : DataStoreMongo) (h : List CleanupEvent) : List CleanupEvent × Option Err :=
  if decommissioningCleanupFlag then
    decommissioningCleanup dbName dbNameForTenant db tenant dryRunFlag h
  else ([], none)

/-! ## Sample collaborators

Concrete instances of the externals, the store and the client, on which the theorems
are instantiated. -/

/-- Payload values of the samples: a string, a number, or a Go channel, which
`json.Marshal` rejects. -/
inductive SampleValue where
  | str (s : String)
  | num (n : Nat)
  | chan
  deriving DecidableEq, Repr

/-- Reads a non-empty run of decimal digits. -/
def scanDigits : List Char → Option Nat → Option Nat × List Char
  | [], acc => (acc, [])
  | ch :: cs, acc =>
    if ch.isDigit then scanDigits cs (some (acc.getD 0 * 10 + (ch.toNat - 48)))
    else (acc, ch :: cs)

/-- A sample of `migrate.NewVersion`: it accepts the labels `major.minor.patch` made of
decimal digits and fails on every other label. -/
def sampleNewVersion (s : String) : Option Version × Option Err :=
  match scanDigits s.toList none with
  | (some a, '.' :: r1) =>
    match scanDigits r1 none with
    | (some b, '.' :: r2) =>
      match scanDigits r2 none with
      | (some c, []) => (some ⟨a, b, c⟩, none)
      | _ => (none, some "failed to parse Version")
    | _ => (none, some "failed to parse Version")
  | _ => (none, some "failed to parse Version")

/-- The function `strings.TrimPrefix`. -/
def trimPrefix (s pre : String) : String :=
  if pre.toList.isPrefixOf s.toList then String.mk (s.toList.drop pre.toList.length) else s

/-- A sample of `json.Marshal` on the sample values (strings without characters that
need escaping). -/
def sampleMarshal : SampleValue → Except Err String
  | SampleValue.str s => Except.ok ("\"" ++ s ++ "\"")
  | SampleValue.num n => Except.ok (String.mk (Nat.toDigits 10 n))
  | SampleValue.chan => Except.error "json: unsupported type: chan int"

/-- A sample of the `%v` formatting of the sample values. -/
def sampleFmt : SampleValue → String
  | SampleValue.str s => s
  | SampleValue.num n => String.mk (Nat.toDigits 10 n)
  | SampleValue.chan => "0xc000010000"

/-- A sample of `sort.Slice`: insertion sort by the given `less`. -/
def sampleSort (less : Attribute → Attribute → Bool) (l : List Attribute) : List Attribute :=
  l.insertionSort fun a b => less b a = false

/-- The sample externals: base database `deviceauth`, tenant databases
`deviceauth-<tenant>`, and a clock that ticks once per collaborator call. -/
def sampleExternals : Externals SampleValue where
  DbName := "deviceauth"
  DbNameForTenant := fun tenantId baseDb => baseDb ++ "-" ++ tenantId
  TenantFromDbName := fun dbName baseDb => trimPrefix (trimPrefix dbName baseDb) "-"
  NewVersion := sampleNewVersion
  NowUnixMilis := fun h => 1600000000000 + h.length
  jsonMarshal := sampleMarshal
  fmtValue := sampleFmt
  sortSlice := sampleSort

/-- A client on which every call succeeds. -/
def okClient : Client SampleValue where
  PatchDeviceV2 := fun _ _ _ _ _ _ => none
  SetDeviceStatus := fun _ _ _ _ _ => none
  SetDeviceIdentity := fun _ _ _ _ _ => none

/-- A client on which every call fails. -/
def failingClient : Client SampleValue where
  PatchDeviceV2 := fun _ _ _ _ _ _ => some "inventory unavailable"
  SetDeviceStatus := fun _ _ _ _ _ => some "inventory unavailable"
  SetDeviceIdentity := fun _ _ _ _ _ => some "inventory unavailable"

/-- A store that pages the given records faithfully: `recs ctx filter` is the list of the
records of the tenant of `ctx` that match `filter`. -/
def pagingStore (tdbs : List String) (recs : Ctx → Option String → List (Device SampleValue)) :
    DataStore SampleValue where
  GetTenantDbs := fun _ => Except.ok tdbs
  GetDevices := fun _ ctx skip limit filter => Except.ok (((recs ctx filter).drop skip).take limit)
  StoreMigrationVersion := fun _ _ _ => none

/-- Sample devices `dev-0`, ..., `dev-(n-1)`. -/
def sampleDevices (n : Nat) : List (Device SampleValue) :=
  (List.range n).map fun i => ⟨"dev-" ++ String.mk (Nat.toDigits 10 i), [("sn", SampleValue.num i)]⟩

/-- The records of a single-tenant store with 600 accepted devices and nothing else. -/
def recs600 (_ : Ctx) (filter : Option String) : List (Device SampleValue) :=
  if filter = some "accepted" ∨ filter = none then sampleDevices 600 else []

/-- The records of a small single-tenant store: two accepted devices and one pending. -/
def recsSmall (_ : Ctx) (filter : Option String) : List (Device SampleValue) :=
  if filter = some "accepted" then
    [⟨"dev-a", [("mac", SampleValue.str "00:11"), ("sn", SampleValue.num 7)]⟩,
      ⟨"dev-b", [("sn", SampleValue.num 8)]⟩]
  else if filter = some "pending" then [⟨"dev-c", [("sn", SampleValue.num 9)]⟩]
  else if filter = none then
    [⟨"dev-a", [("mac", SampleValue.str "00:11"), ("sn", SampleValue.num 7)]⟩,
      ⟨"dev-b", [("sn", SampleValue.num 8)]⟩, ⟨"dev-c", [("sn", SampleValue.num 9)]⟩]
  else []

/-- The records of a single-tenant store with 513 accepted devices and nothing else. -/
def recs513 (_ : Ctx) (filter : Option String) : List (Device SampleValue) :=
  if filter = some "accepted" ∨ filter = none then sampleDevices 513 else []

/-- A client whose calls fail for the tenant `bad` and succeed for every other tenant. -/
def tenantFailingClient (bad : String) : Client SampleValue where
  PatchDeviceV2 := fun _ _ tenant _ _ _ =>
    if tenant = bad then some "inventory unavailable" else none
  SetDeviceStatus := fun _ _ tenant _ _ =>
    if tenant = bad then some "inventory unavailable" else none
  SetDeviceIdentity := fun _ _ tenant _ _ =>
    if tenant = bad then some "inventory unavailable" else none

/-- The tenant databases of the three-tenant sample store. -/
def threeTenantDbs : List String := ["deviceauth-t1", "deviceauth-t2", "deviceauth-t3"]

/-- The records of the three-tenant sample store: every tenant has one accepted and one
pending device. -/
def recsThree (ctx : Ctx) (filter : Option String) : List (Device SampleValue) :=
  match ctx with
  | none => []
  | some t =>
    if filter = some "accepted" then [⟨t ++ "-dev-a", [("sn", SampleValue.num 1)]⟩]
    else if filter = some "pending" then [⟨t ++ "-dev-p", [("sn", SampleValue.num 2)]⟩]
    else if filter = none then
      [⟨t ++ "-dev-a", [("sn", SampleValue.num 1)]⟩, ⟨t ++ "-dev-p", [("sn", SampleValue.num 2)]⟩]
    else []

/-- The records of a single-tenant store whose only device has a payload value that
`json.Marshal` rejects. -/
def recsChan (_ : Ctx) (_ : Option String) : List (Device SampleValue) :=
  [⟨"dev-x", [("ch", SampleValue.chan)]⟩]

/-- A store without tenant databases on which every page fetch fails. -/
def failingStore : DataStore SampleValue where
  GetTenantDbs := fun _ => Except.ok []
  GetDevices := fun _ _ _ _ _ => Except.error "connection lost"
  StoreMigrationVersion := fun _ _ _ => none

/-- A store on which tenant discovery fails. -/
def noDiscoveryStore : DataStore SampleValue where
  GetTenantDbs := fun _ => Except.error "connection lost"
  GetDevices := fun _ _ _ _ _ => Except.ok []
  StoreMigrationVersion := fun _ _ _ => none

/-- A store that fails every page fetch for the status `accepted` and pages the small
record set for every other filter. -/
def acceptedFailingStore : DataStore SampleValue where
  GetTenantDbs := fun _ => Except.ok []
  GetDevices := fun _ ctx skip limit filter =>
    if filter = some "accepted" then Except.error "connection lost"
    else Except.ok (((recsSmall ctx filter).drop skip).take limit)
  StoreMigrationVersion := fun _ _ _ => none

/-- A sample of the quoting of a string by `encoding/json`, for strings without characters
that need escaping. -/
def sampleJsonString (s : String) : String := "\"" ++ s ++ "\""

/-- A cleanup store with one tenant database, on which reading the devices being
decommissioned fails. -/
def brokenCleanupStore : DataStoreMongo where
  GetTenantDbs := fun _ => Except.ok ["deviceauth-t1"]
  GetDevicesBeingDecommissioned := fun _ _ => Except.error "connection lost"
  GetBrokenAuthSets := fun _ _ => Except.ok []
  DeleteDevicesBeingDecommissioned := fun _ _ => none
  DeleteBrokenAuthSets := fun _ _ => none

/-- A cleanup store on which tenant discovery fails. -/
def noDiscoveryCleanupStore : DataStoreMongo where
  GetTenantDbs := fun _ => Except.error "connection lost"
  GetDevicesBeingDecommissioned := fun _ _ => Except.ok []
  GetBrokenAuthSets := fun _ _ => Except.ok []
  DeleteDevicesBeingDecommissioned := fun _ _ => none
  DeleteBrokenAuthSets := fun _ _ => none

/-- The records of a single-tenant store with three devices, the second of which has a
payload that does not map. -/
def recsMixed (_ : Ctx) (_ : Option String) : List (Device SampleValue) :=
  [⟨"dev-a", [("sn", SampleValue.num 7)]⟩, ⟨"dev-x", [("ch", SampleValue.chan)]⟩,
    ⟨"dev-c", [("sn", SampleValue.num 9)]⟩]

/-! # Theorems -/

/-! ## Status propagation against a faithful store -/

theorem setStatusCalls_append (a b : List (Event V)) :
    setStatusCalls (a ++ b) = setStatusCalls a ++ setStatusCalls b := by
  simp [setStatusCalls, List.filterMap_append]

theorem updateDevicesStatus_error (db : DataStore V) (c : Client V) (ctx : Ctx)
    (tenant status : String) (dryRun : Bool) (fuel : Nat) (h : List (Event V)) (skip : Nat)
    (err : Err)
    (hres : db.GetDevices h ctx skip devicesBatchSize (some status) = Except.error err) :
    updateDevicesStatus db c ctx tenant status dryRun (fuel + 1) h skip =
      ([Event.getDevices ctx skip devicesBatchSize (some status) (Except.error err)],
        Outcome.done (some (wrap err "failed to get devices"))) := by
  rw [updateDevicesStatus]
  simp only [hres]

theorem updateDevicesStatus_ok (db : DataStore V) (c : Client V) (ctx : Ctx)
    (tenant status : String) (dryRun : Bool) (fuel : Nat) (h : List (Event V)) (skip : Nat)
    (devices : List (Device V))
    (hres : db.GetDevices h ctx skip devicesBatchSize (some status) = Except.ok devices) :
    updateDevicesStatus db c ctx tenant status dryRun (fuel + 1) h skip =
      let e := Event.getDevices ctx skip devicesBatchSize (some status) (Except.ok devices)
      let s := statusSinkStep c ctx tenant status dryRun (h ++ [e]) (devices.map fun d => d.Id)
      if devices.length < 1 then ([e], Outcome.done none)
      else
        match s.2 with
        | some err => (e :: s.1, Outcome.done (some err))
        | none =>
          if devices.length < devicesBatchSize then (e :: s.1, Outcome.done none)
          else
            let r := updateDevicesStatus db c ctx tenant status dryRun fuel (h ++ e :: s.1)
              ((skip + devicesBatchSize) % uintMod)
            (e :: s.1 ++ r.1, r.2) := by
  rw [updateDevicesStatus]
  simp only [hres]

theorem statusSinkStep_false (c : Client V) (ctx : Ctx) (tenant status : String)
    (h : List (Event V)) (ids : List String) :
    statusSinkStep c ctx tenant status false h ids =
      ([Event.setDeviceStatus ctx tenant ids status (c.SetDeviceStatus h ctx tenant ids status)],
        c.SetDeviceStatus h ctx tenant ids status) := rfl

theorem statusSinkStep_true (c : Client V) (ctx : Ctx) (tenant status : String)
    (h : List (Event V)) (ids : List String) :
    statusSinkStep c ctx tenant status true h ids = ([], none) := rfl

theorem updateDevicesStatus_faithful (db : DataStore V) (c : Client V) (ctx : Ctx)
    (tenant status : String) (recs : List (Device V))
    (hstore : ∀ h skip, db.GetDevices h ctx skip devicesBatchSize (some status) =
      Except.ok ((recs.drop skip).take devicesBatchSize))
    (hsink : ∀ h ids, c.SetDeviceStatus h ctx tenant ids status = none)
    (hsize : recs.length < uintMod) :
    ∀ (fuel k : Nat) (h : List (Event V)), 512 * k ≤ recs.length →
      recs.length / 512 < fuel + k →
      (updateDevicesStatus db c ctx tenant status false fuel h (512 * k)).2 = Outcome.done none ∧
      setStatusCalls (updateDevicesStatus db c ctx tenant status false fuel h (512 * k)).1 =
        (List.range' k ((recs.length + 511) / 512 - k)).map fun i =>
          (ctx, tenant, ((recs.map fun d => d.Id).drop (512 * i)).take 512, status) := by
  intro fuel
  induction fuel with
  | zero => intro k h h1 h2; omega
  | succ fuel ih =>
    intro k h h1 h2
    rw [updateDevicesStatus_ok db c ctx tenant status false fuel h (512 * k) _ (hstore h _)]
    simp only [statusSinkStep_false, hsink, devicesBatchSize]
    have hlen : (List.take 512 (List.drop (512 * k) recs)).length =
        min 512 (recs.length - 512 * k) := by simp
    by_cases hempty : (List.take 512 (List.drop (512 * k) recs)).length < 1
    · rw [if_pos hempty]
      have : (recs.length + 511) / 512 - k = 0 := by omega
      simp [setStatusCalls, this]
    · rw [if_neg hempty]
      by_cases hshort : (List.take 512 (List.drop (512 * k) recs)).length < 512
      · rw [if_pos hshort]
        have : (recs.length + 511) / 512 - k = 1 := by omega
        simp [setStatusCalls, this, List.map_take, List.map_drop]
      · rw [if_neg hshort]
        have hmod : (512 * k + 512) % uintMod = 512 * (k + 1) := by
          simp only [uintMod] at *
          rw [Nat.mod_eq_of_lt (by omega)]; ring
        have hk : (recs.length + 511) / 512 - k = ((recs.length + 511) / 512 - (k + 1)) + 1 := by
          omega
        rw [hmod]
        obtain ⟨ih1, ih2⟩ := ih (k + 1)
          (h ++ Event.getDevices ctx (512 * k) 512 (some status)
            (Except.ok (List.take 512 (List.drop (512 * k) recs))) ::
            [Event.setDeviceStatus ctx tenant
              (List.map (fun d => d.Id) (List.take 512 (List.drop (512 * k) recs)))
              status none])
          (by omega) (by omega)
        refine ⟨ih1, ?_⟩
        rw [hk, List.range'_succ]
        simp only [List.map_cons, List.cons_append, List.nil_append]
        rw [← ih2]
        simp [setStatusCalls, List.map_take, List.map_drop]

/-! ## Chunks -/

theorem flatten_map_range'_chunks {α : Type} (n : Nat) (l : List α) :
    ∀ m k : Nat, ((List.range' k m).map fun i => (l.drop (n * i)).take n).flatten =
      (l.drop (n * k)).take (n * m) := by
  intro m
  induction m with
  | zero => intro k; simp
  | succ m ih =>
    intro k
    rw [List.range'_succ, List.map_cons, List.flatten_cons, ih (k + 1)]
    have h1 : n * (m + 1) = n + n * m := by ring
    have h2 : n * (k + 1) = n * k + n := by ring
    rw [h1, h2, List.take_add, List.drop_drop]

theorem specChunks_length {α : Type} (n : Nat) (l : List α) :
    (specChunks n l).length = (l.length + (n - 1)) / n := by
  simp [specChunks]

theorem specChunks_flatten {α : Type} (n : Nat) (hn : 0 < n) (l : List α) :
    (specChunks n l).flatten = l := by
  unfold specChunks
  rw [List.range_eq_range', flatten_map_range'_chunks]
  simp only [Nat.mul_zero, List.drop_zero]
  apply List.take_of_length_le
  have h1 := Nat.div_add_mod (l.length + (n - 1)) n
  have h2 := Nat.mod_lt (l.length + (n - 1)) hn
  omega

theorem specChunks_getElem? {α : Type} (n : Nat) (l : List α) (i : Nat) (c : List α)
    (hc : (specChunks n l)[i]? = some c) :
    i < (l.length + (n - 1)) / n ∧ c = (l.drop (n * i)).take n := by
  unfold specChunks at hc
  rw [List.getElem?_map] at hc
  rcases hi : (List.range ((l.length + (n - 1)) / n))[i]? with _ | j
  · rw [hi] at hc; simp at hc
  · rw [hi] at hc
    have hlt := (List.getElem?_eq_some_iff.1 hi).1
    have hj : j = i := by
      have := (List.getElem?_eq_some_iff.1 hi).2
      simpa using this.symm
    subst hj
    simp only [List.length_range] at hlt
    simp only [Option.map_some', Option.some.injEq] at hc
    exact ⟨hlt, hc.symm⟩

theorem specChunks_mem {α : Type} (n : Nat) (hn : 0 < n) (l : List α) (c : List α)
    (hc : c ∈ specChunks n l) : c ≠ [] ∧ c.length ≤ n := by
  obtain ⟨i, hi⟩ := List.getElem?_of_mem hc
  obtain ⟨hlt, rfl⟩ := specChunks_getElem? n l i c hi
  have h1 := Nat.div_add_mod (l.length + (n - 1)) n
  have h2 := Nat.mod_lt (l.length + (n - 1)) hn
  have h3 : n * i + n ≤ n * ((l.length + (n - 1)) / n) := by
    have := Nat.mul_le_mul_left n (Nat.succ_le_of_lt hlt)
    rw [Nat.mul_succ] at this
    exact this
  refine ⟨?_, ?_⟩
  · intro h0
    have := congrArg List.length h0
    simp only [List.length_take, List.length_drop, List.length_nil] at this
    omega
  · simp only [List.length_take]
    omega

theorem specChunks_full {α : Type} (n : Nat) (hn : 0 < n) (l : List α) (i : Nat) (c : List α)
    (hc : (specChunks n l)[i]? = some c) (hi : i + 1 < (specChunks n l).length) :
    c.length = n := by
  obtain ⟨-, rfl⟩ := specChunks_getElem? n l i c hc
  rw [specChunks_length] at hi
  have h1 := Nat.div_add_mod (l.length + (n - 1)) n
  have h2 := Nat.mod_lt (l.length + (n - 1)) hn
  have h3 : n * i + n + n ≤ n * ((l.length + (n - 1)) / n) := by
    have := Nat.mul_le_mul_left n (Nat.succ_le_of_lt hi)
    rw [Nat.mul_succ, Nat.mul_succ] at this
    exact this
  simp only [List.length_take, List.length_drop]
  omega

theorem sweepStatuses_faithful (db : DataStore V) (c : Client V) (ctx : Ctx) (tenant : String)
    (recs : String → List (Device V)) (fuel : Nat) :
    ∀ (ss : List String),
      (∀ s ∈ ss, ∀ h skip, db.GetDevices h ctx skip devicesBatchSize (some s) =
        Except.ok (((recs s).drop skip).take devicesBatchSize)) →
      (∀ s ∈ ss, ∀ h ids, c.SetDeviceStatus h ctx tenant ids s = none) →
      (∀ s ∈ ss, (recs s).length < uintMod) →
      (∀ s ∈ ss, (recs s).length / devicesBatchSize < fuel) →
      ∀ (h : List (Event V)) (e : Option Err),
        (sweepStatuses db c ctx tenant false fuel ss h e).2 = some e ∧
        setStatusCalls (sweepStatuses db c ctx tenant false fuel ss h e).1 =
          ss.flatMap fun s =>
            (specChunks devicesBatchSize ((recs s).map fun d => d.Id)).map fun ids =>
              (ctx, tenant, ids, s) := by
  intro ss
  induction ss with
  | nil => intro _ _ _ _ h e; simp [sweepStatuses, setStatusCalls]
  | cons s ss ih =>
    intro hstore hsink hsize hfuel h e
    have hs : s ∈ s :: ss := List.mem_cons_self _ _
    obtain ⟨u1, u2⟩ := updateDevicesStatus_faithful db c ctx tenant s (recs s)
      (hstore s hs) (hsink s hs) (hsize s hs) fuel 0 h (by omega)
      (by have := hfuel s hs; simp only [devicesBatchSize] at this; omega)
    obtain ⟨q1, q2⟩ := ih (fun t ht => hstore t (List.mem_cons_of_mem _ ht))
      (fun t ht => hsink t (List.mem_cons_of_mem _ ht))
      (fun t ht => hsize t (List.mem_cons_of_mem _ ht))
      (fun t ht => hfuel t (List.mem_cons_of_mem _ ht))
      (h ++ (updateDevicesStatus db c ctx tenant s false fuel h 0).1) e
    simp only [Nat.mul_zero] at u1 u2
    rw [sweepStatuses]
    simp only [u1, ne_eq, not_true_eq_false, if_false]
    refine ⟨q1, ?_⟩
    rw [setStatusCalls_append, u2, q2, List.flatMap_cons]
    simp [specChunks, devicesBatchSize, List.range_eq_range']

theorem storeCheckpoint_events (x : Externals V) (db : DataStore V) (ctx : Ctx)
    (migrationVersion : String) (dryRun : Bool) (h : List (Event V)) (errReturned : Option Err) :
    (storeCheckpoint x db ctx migrationVersion dryRun h errReturned).1 = [] ∨
    ∃ version, x.NewVersion migrationVersion = (some version, none) ∧
      migrationVersion ≠ "" ∧ dryRun = false ∧ errReturned = none ∧
      (storeCheckpoint x db ctx migrationVersion dryRun h errReturned).1 =
        [Event.storeMigrationVersion ctx version (db.StoreMigrationVersion h ctx version)] := by
  unfold storeCheckpoint
  by_cases h1 : migrationVersion ≠ "" ∧ (!dryRun) = true
  · rw [if_pos h1]
    by_cases h2 : errReturned ≠ none
    · rw [if_pos h2]; exact Or.inl rfl
    · rw [if_neg h2]
      rcases hv : x.NewVersion migrationVersion with ⟨_ | version, _ | err⟩
      · exact Or.inl rfl
      · exact Or.inl rfl
      · refine Or.inr ⟨version, rfl, h1.1, by simpa using h1.2, by simpa using h2, rfl⟩
      · exact Or.inl rfl
  · rw [if_neg h1]; exact Or.inl rfl

theorem setStatusCalls_storeCheckpoint (x : Externals V) (db : DataStore V) (ctx : Ctx)
    (migrationVersion : String) (dryRun : Bool) (h : List (Event V)) (errReturned : Option Err) :
    setStatusCalls (storeCheckpoint x db ctx migrationVersion dryRun h errReturned).1 = [] := by
  rcases storeCheckpoint_events x db ctx migrationVersion dryRun h errReturned with h0 | ⟨_, -, -, -, -, h1⟩
  · rw [h0]; rfl
  · rw [h1]; rfl

theorem specStatusCalls_pairs (ctx : Ctx) (tenant : String) (recs : String → List (Device V)) :
    ((specStatusCalls ctx tenant recs).flatMap fun call =>
      call.2.2.1.map fun id => (id, call.2.2.2)) =
    statuses.flatMap fun s => (recs s).map fun d => (d.Id, s) := by
  have key : ∀ (s : String) (l : List (List String)),
      ((l.map fun ids => ((ctx, tenant, ids, s) : Ctx × String × List String × String)).flatMap
        fun call => call.2.2.1.map fun id => (id, call.2.2.2)) =
      l.flatten.map fun id => (id, s) := by
    intro s l
    induction l with
    | nil => rfl
    | cons a l ih =>
      rw [List.map_cons, List.flatMap_cons, ih, List.flatten_cons, List.map_append]
  simp only [specStatusCalls, statuses, List.flatMap_cons, List.flatMap_nil, List.append_nil,
    List.flatMap_append, key, specChunks_flatten devicesBatchSize (by decide), List.map_map]
  rfl

/-- C1: against a store that pages the per-status record lists `recs` faithfully and a sink
that never fails, a non-dry-run `tryPropagateStatusesInventoryForDb` returns, and its
`SetDeviceStatus` calls are exactly, for each status in the order accepted, pending,
rejected, preauthorized, the ids of that status cut into consecutive chunks of 512, one
call per chunk. Flattened, the calls send every record id once with its own status; the
chunks of a list of `N` ids are non-empty, at most 512 long, all but the last exactly 512
long, and `ceil(N/512)` in number; and 600 accepted records give two calls, of 512 and of
88 ids, ahead of every call for another status. -/
theorem tryPropagateStatusesInventoryForDb_batches (x : Externals V) (db : DataStore V)
    (c : Client V) (dbname migrationVersion : String) (fuel : Nat) (h : List (Event V))
    (recs : String → List (Device V))
    (hstore : ∀ s ∈ statuses, ∀ h skip,
      db.GetDevices h (mkCtx (x.TenantFromDbName dbname x.DbName)) skip devicesBatchSize (some s) =
        Except.ok (((recs s).drop skip).take devicesBatchSize))
    (hsink : ∀ h ctx tenant ids s, c.SetDeviceStatus h ctx tenant ids s = none)
    (hsize : ∀ s ∈ statuses, (recs s).length < uintMod)
    (hfuel : ∀ s ∈ statuses, (recs s).length / devicesBatchSize < fuel) :
    (∃ err, (tryPropagateStatusesInventoryForDb x db c dbname migrationVersion false fuel h).2 =
      Outcome.done err) ∧
    setStatusCalls (tryPropagateStatusesInventoryForDb x db c dbname migrationVersion false fuel h).1
      = specStatusCalls (mkCtx (x.TenantFromDbName dbname x.DbName))
          (x.TenantFromDbName dbname x.DbName) recs ∧
    ((setStatusCalls
        (tryPropagateStatusesInventoryForDb x db c dbname migrationVersion false fuel h).1).flatMap
        fun call => call.2.2.1.map fun id => (id, call.2.2.2)) =
      (statuses.flatMap fun s => (recs s).map fun d => (d.Id, s)) ∧
    (∀ l : List String,
      (specChunks devicesBatchSize l).flatten = l ∧
      (specChunks devicesBatchSize l).length = (l.length + 511) / 512 ∧
      (l.length = 0 → specChunks devicesBatchSize l = []) ∧
      (∀ k, l.length = 512 * k → (specChunks devicesBatchSize l).length = k) ∧
      (∀ ch ∈ specChunks devicesBatchSize l, ch ≠ [] ∧ ch.length ≤ 512) ∧
      (∀ i ch, (specChunks devicesBatchSize l)[i]? = some ch →
        i + 1 < (specChunks devicesBatchSize l).length → ch.length = 512)) ∧
    ((recs "accepted").length = 600 →
      ∃ rest, setStatusCalls
          (tryPropagateStatusesInventoryForDb x db c dbname migrationVersion false fuel h).1 =
        (mkCtx (x.TenantFromDbName dbname x.DbName), x.TenantFromDbName dbname x.DbName,
            ((recs "accepted").map fun d => d.Id).take 512, "accepted") ::
          (mkCtx (x.TenantFromDbName dbname x.DbName), x.TenantFromDbName dbname x.DbName,
            ((recs "accepted").map fun d => d.Id).drop 512, "accepted") :: rest ∧
        (((recs "accepted").map fun d => d.Id).take 512).length = 512 ∧
        (((recs "accepted").map fun d => d.Id).drop 512).length = 88 ∧
        ∀ call ∈ rest, call.2.2.2 ≠ "accepted") := by
  obtain ⟨q1, q2⟩ := sweepStatuses_faithful db c (mkCtx (x.TenantFromDbName dbname x.DbName))
    (x.TenantFromDbName dbname x.DbName) recs fuel statuses hstore
    (fun s _ h ids => hsink h _ _ ids s) hsize hfuel h none
  have hcalls : setStatusCalls
      (tryPropagateStatusesInventoryForDb x db c dbname migrationVersion false fuel h).1
      = specStatusCalls (mkCtx (x.TenantFromDbName dbname x.DbName))
          (x.TenantFromDbName dbname x.DbName) recs := by
    unfold tryPropagateStatusesInventoryForDb
    simp only [q1, setStatusCalls_append, setStatusCalls_storeCheckpoint, List.append_nil, q2]
    rfl
  refine ⟨?_, hcalls, ?_, ?_, ?_⟩
  · unfold tryPropagateStatusesInventoryForDb
    simp only [q1]
    exact ⟨_, rfl⟩
  · rw [hcalls, specStatusCalls_pairs]
  · intro l
    have hlen : (specChunks devicesBatchSize l).length = (l.length + 511) / 512 := by
      rw [specChunks_length]; rfl
    refine ⟨specChunks_flatten _ (by decide) l, hlen, ?_, ?_,
      fun ch hch => specChunks_mem devicesBatchSize (by decide) l ch hch,
      fun i ch hch hi => specChunks_full devicesBatchSize (by decide) l i ch hch hi⟩
    · intro h0
      apply List.eq_nil_of_length_eq_zero
      rw [hlen, h0]
    · intro k hk
      rw [hlen, hk]
      omega
  · intro h600
    rw [hcalls]
    have hids : ((recs "accepted").map fun d => d.Id).length = 600 := by
      rw [List.length_map, h600]
    refine ⟨(["pending", "rejected", "preauthorized"] : List String).flatMap fun s =>
      (specChunks devicesBatchSize ((recs s).map fun d => d.Id)).map fun ids =>
        (mkCtx (x.TenantFromDbName dbname x.DbName), x.TenantFromDbName dbname x.DbName, ids, s),
      ?_, ?_, ?_, ?_⟩
    · have h2 : specChunks devicesBatchSize ((recs "accepted").map fun d => d.Id) =
          [((recs "accepted").map fun d => d.Id).take 512,
            ((recs "accepted").map fun d => d.Id).drop 512] := by
        unfold specChunks
        rw [hids]
        have : (600 + (devicesBatchSize - 1)) / devicesBatchSize = 2 := by decide
        rw [this]
        have h88 : List.take devicesBatchSize
            (List.drop (devicesBatchSize * 1) ((recs "accepted").map fun d => d.Id)) =
            List.drop 512 ((recs "accepted").map fun d => d.Id) := by
          apply List.take_of_length_le
          simp only [devicesBatchSize, List.length_drop, hids]
          omega
        simp only [List.range_succ, List.range_zero, List.nil_append, List.cons_append,
          List.map_cons, List.map_nil, Nat.mul_zero, List.drop_zero, h88]
        rfl
      simp only [specStatusCalls, statuses, List.flatMap_cons, h2, List.map_cons, List.map_nil,
        List.cons_append, List.nil_append]
    · rw [List.length_take, hids]; rfl
    · rw [List.length_drop, hids]
    · intro call hcall
      simp only [List.mem_flatMap, List.mem_map] at hcall
      obtain ⟨s, hs, ids, -, rfl⟩ := hcall
      simp only [List.mem_cons, List.mem_singleton, List.not_mem_nil, or_false] at hs
      have h1 : "pending" ≠ "accepted" := by decide
      have h2 : "rejected" ≠ "accepted" := by decide
      have h3 : "preauthorized" ≠ "accepted" := by decide
      rcases hs with rfl | rfl | rfl
      · exact h1
      · exact h2
      · exact h3

theorem recs600_length (ctx : Ctx) (s : String) : (recs600 ctx (some s)).length ≤ 600 := by
  unfold recs600
  split <;> simp [sampleDevices]

/-- Witness for C1: the single-tenant store with 600 accepted devices. -/
theorem tryPropagateStatusesInventoryForDb_batches_witness :
    ∃ rest, setStatusCalls (tryPropagateStatusesInventoryForDb sampleExternals
        (pagingStore [] recs600) okClient "deviceauth" "" false 2 []).1 =
      (none, "", ((sampleDevices 600).map fun d => d.Id).take 512, "accepted") ::
        (none, "", ((sampleDevices 600).map fun d => d.Id).drop 512, "accepted") :: rest ∧
      (((sampleDevices 600).map fun d => d.Id).take 512).length = 512 ∧
      (((sampleDevices 600).map fun d => d.Id).drop 512).length = 88 ∧
      ∀ call ∈ rest, call.2.2.2 ≠ "accepted" :=
  (tryPropagateStatusesInventoryForDb_batches sampleExternals (pagingStore [] recs600) okClient
    "deviceauth" "" 2 [] (fun s => recs600 none (some s))
    (fun _ _ _ _ => rfl) (fun _ _ _ _ _ => rfl)
    (fun s _ => lt_of_le_of_lt (recs600_length none s) (by decide))
    (fun s _ => lt_of_le_of_lt (Nat.div_le_div_right (recs600_length none s)) (by decide))).2.2.2.2
    (by simp [recs600, sampleDevices])

/-! ## The shape of a status sweep -/

theorem FailStop.prepend (a b : List (Event V)) (o : Outcome)
    (ha : ∀ e ∈ a, Event.failed e = false) (hb : FailStop b o) : FailStop (a ++ b) o := by
  unfold FailStop at *
  split
  · rename_i err
    simp only at hb
    obtain ⟨pre, e, rfl, he, herr, hpre⟩ := hb
    refine ⟨a ++ pre, e, by simp, he, herr, ?_⟩
    intro e' he'
    rcases List.mem_append.1 he' with h1 | h1
    · exact ha e' h1
    · exact hpre e' h1
  · rename_i hne
    have hb' : ∀ e ∈ b, Event.failed e = false := by
      cases o with
      | outOfFuel => exact hb
      | done err =>
        cases err with
        | none => exact hb
        | some err => exact absurd rfl (hne err)
    intro e he
    rcases List.mem_append.1 he with h1 | h1
    · exact ha e h1
    · exact hb' e h1

theorem FailStop.done_iff (evs : List (Event V)) (err : Option Err)
    (hs : FailStop evs (Outcome.done err)) :
    err = none ↔ ∀ e ∈ evs, Event.failed e = false := by
  cases err with
  | none => exact ⟨fun _ => hs, fun _ => rfl⟩
  | some err =>
    obtain ⟨pre, e, rfl, he, -, -⟩ := hs
    constructor
    · intro h0; cases h0
    · intro hall
      have := hall e (by simp)
      rw [he] at this
      cases this

/-- The events of `updateDevicesStatus` are page fetches and `SetDeviceStatus` calls for
its own status, the sink is not called under dry-run, and the sweep stops at its first
failure. -/
theorem updateDevicesStatus_shape (db : DataStore V) (c : Client V) (ctx : Ctx)
    (tenant status : String) (dryRun : Bool) :
    ∀ (fuel : Nat) (h : List (Event V)) (skip : Nat),
      (∀ e ∈ (updateDevicesStatus db c ctx tenant status dryRun fuel h skip).1,
        Event.isCheckpoint e = false ∧ (dryRun = true → Event.isRead e = true)) ∧
      FailStop (updateDevicesStatus db c ctx tenant status dryRun fuel h skip).1
        (updateDevicesStatus db c ctx tenant status dryRun fuel h skip).2 := by
  intro fuel
  induction fuel with
  | zero =>
    intro h skip
    simp [updateDevicesStatus, FailStop]
  | succ fuel ih =>
    intro h skip
    rcases hres : db.GetDevices h ctx skip devicesBatchSize (some status) with err | devices
    · rw [updateDevicesStatus_error db c ctx tenant status dryRun fuel h skip err hres]
      refine ⟨by simp [Event.isCheckpoint, Event.isRead], ?_⟩
      exact ⟨[], _, rfl, rfl, rfl, by simp⟩
    · rw [updateDevicesStatus_ok db c ctx tenant status dryRun fuel h skip devices hres]
      simp only
      split
      · refine ⟨by simp [Event.isCheckpoint, Event.isRead], ?_⟩
        simp [FailStop, Event.failed]
      · cases dryRun with
        | true =>
          simp only [statusSinkStep_true]
          split
          · refine ⟨by simp [Event.isCheckpoint, Event.isRead], ?_⟩
            simp [FailStop, Event.failed]
          · obtain ⟨i1, i2⟩ := ih (h ++ [Event.getDevices ctx skip devicesBatchSize (some status)
              (Except.ok devices)]) ((skip + devicesBatchSize) % uintMod)
            refine ⟨?_, ?_⟩
            · intro e he
              simp only [List.cons_append, List.nil_append, List.mem_cons] at he
              rcases he with rfl | he
              · simp [Event.isCheckpoint, Event.isRead]
              · simpa using i1 e he
            · exact FailStop.prepend [_] _ _ (by simp [Event.failed]) i2
        | false =>
          simp only [statusSinkStep_false]
          rcases hs : c.SetDeviceStatus (h ++ [Event.getDevices ctx skip devicesBatchSize
            (some status) (Except.ok devices)]) ctx tenant (devices.map fun d => d.Id) status
            with _ | err
          · simp only [hs]
            split
            · refine ⟨by simp [Event.isCheckpoint], ?_⟩
              simp [FailStop, Event.failed]
            · obtain ⟨i1, i2⟩ := ih (h ++ [Event.getDevices ctx skip devicesBatchSize
                (some status) (Except.ok devices), Event.setDeviceStatus ctx tenant
                (devices.map fun d => d.Id) status none]) ((skip + devicesBatchSize) % uintMod)
              refine ⟨?_, ?_⟩
              · intro e he
                simp only [List.cons_append, List.nil_append, List.mem_cons] at he
                rcases he with rfl | rfl | he
                · simp [Event.isCheckpoint]
                · simp [Event.isCheckpoint]
                · exact i1 e he
              · exact FailStop.prepend [_, _] _ _ (by simp [Event.failed]) i2
          · simp only [hs]
            refine ⟨by simp [Event.isCheckpoint], ?_⟩
            exact ⟨[_], _, rfl, rfl, rfl, by simp [Event.failed]⟩

theorem sweepStatuses_shape (db : DataStore V) (c : Client V) (ctx : Ctx) (tenant : String)
    (dryRun : Bool) (fuel : Nat) :
    ∀ (ss : List String) (h : List (Event V)) (e : Option Err),
      (∀ ev ∈ (sweepStatuses db c ctx tenant dryRun fuel ss h e).1,
        Event.isCheckpoint ev = false ∧ (dryRun = true → Event.isRead ev = true)) ∧
      ∀ e', (sweepStatuses db c ctx tenant dryRun fuel ss h e).2 = some e' →
        (e' = none ↔ e = none ∧
          ∀ ev ∈ (sweepStatuses db c ctx tenant dryRun fuel ss h e).1, Event.failed ev = false) := by
  intro ss
  induction ss with
  | nil => intro h e; simp [sweepStatuses]
  | cons s ss ih =>
    intro h e
    obtain ⟨u1, u2⟩ := updateDevicesStatus_shape db c ctx tenant s dryRun fuel h 0
    rw [sweepStatuses]
    rcases ho : (updateDevicesStatus db c ctx tenant s dryRun fuel h 0).2 with err | _
    · simp only
      rw [ho] at u2
      obtain ⟨q1, q2⟩ := ih (h ++ (updateDevicesStatus db c ctx tenant s dryRun fuel h 0).1)
        (if err ≠ none then err else e)
      refine ⟨?_, ?_⟩
      · intro ev hev
        rcases List.mem_append.1 hev with h1 | h1
        · exact u1 ev h1
        · exact q1 ev h1
      · intro e' he'
        rw [q2 e' he']
        have hd := FailStop.done_iff _ _ u2
        constructor
        · rintro ⟨h1, h2⟩
          by_cases herr : err = none
          · subst herr
            simp only [ne_eq, not_true_eq_false, if_false] at h1
            refine ⟨h1, ?_⟩
            intro ev hev
            rcases List.mem_append.1 hev with h3 | h3
            · exact hd.1 rfl ev h3
            · exact h2 ev h3
          · rw [if_pos herr] at h1
            exact absurd h1 herr
        · rintro ⟨h1, h2⟩
          have herr : err = none := hd.2 fun ev hev => h2 ev (List.mem_append.2 (Or.inl hev))
          subst herr
          refine ⟨by simpa using h1, ?_⟩
          intro ev hev
          exact h2 ev (List.mem_append.2 (Or.inr hev))
    · simp only
      refine ⟨u1, ?_⟩
      intro e' he'
      cases he'

theorem checkpointCalls_append (a b : List (Event V)) :
    checkpointCalls (a ++ b) = checkpointCalls a ++ checkpointCalls b := by
  simp [checkpointCalls, List.filterMap_append]

theorem checkpointCalls_eq_nil (evs : List (Event V))
    (hevs : ∀ e ∈ evs, Event.isCheckpoint e = false) : checkpointCalls evs = [] := by
  unfold checkpointCalls
  rw [List.filterMap_eq_nil_iff]
  intro e he
  have := hevs e he
  cases e <;> simp_all [Event.isCheckpoint]

/-- C2, amended: the checkpoint is written exactly when the four status sweeps completed
with zero failures, a non-empty label was supplied that `migrate.NewVersion` parses to a
version, and the run is not a dry-run. Then `StoreMigrationVersion` is called exactly once,
as the last event after the sweeps; in every other case it is never called. The sweeps
completed with zero failures exactly when the loop over the statuses returned with
`errReturned` nil, that is, when it returned and none of its events is a failed page
fetch or a failed sink call. -/
theorem tryPropagateStatusesInventoryForDb_checkpoint (x : Externals V) (db : DataStore V)
    (c : Client V) (dbname migrationVersion : String) (dryRun : Bool) (fuel : Nat)
    (h : List (Event V)) :
    (((sweepStatuses db c (mkCtx (x.TenantFromDbName dbname x.DbName))
          (x.TenantFromDbName dbname x.DbName) dryRun fuel statuses h none).2 = some none ∧
        migrationVersion ≠ "" ∧ dryRun = false ∧
        ∃ v, x.NewVersion migrationVersion = (some v, none)) →
      ∃ v, x.NewVersion migrationVersion = (some v, none) ∧
        (tryPropagateStatusesInventoryForDb x db c dbname migrationVersion dryRun fuel h).1 =
          (sweepStatuses db c (mkCtx (x.TenantFromDbName dbname x.DbName))
            (x.TenantFromDbName dbname x.DbName) dryRun fuel statuses h none).1 ++
          [Event.storeMigrationVersion (mkCtx (x.TenantFromDbName dbname x.DbName)) v
            (db.StoreMigrationVersion
              (h ++ (sweepStatuses db c (mkCtx (x.TenantFromDbName dbname x.DbName))
                (x.TenantFromDbName dbname x.DbName) dryRun fuel statuses h none).1)
              (mkCtx (x.TenantFromDbName dbname x.DbName)) v)] ∧
        checkpointCalls
          (tryPropagateStatusesInventoryForDb x db c dbname migrationVersion dryRun fuel h).1 =
          [(mkCtx (x.TenantFromDbName dbname x.DbName), v)]) ∧
    (¬ ((sweepStatuses db c (mkCtx (x.TenantFromDbName dbname x.DbName))
          (x.TenantFromDbName dbname x.DbName) dryRun fuel statuses h none).2 = some none ∧
        migrationVersion ≠ "" ∧ dryRun = false ∧
        ∃ v, x.NewVersion migrationVersion = (some v, none)) →
      checkpointCalls
        (tryPropagateStatusesInventoryForDb x db c dbname migrationVersion dryRun fuel h).1 = []) ∧
    ((sweepStatuses db c (mkCtx (x.TenantFromDbName dbname x.DbName))
        (x.TenantFromDbName dbname x.DbName) dryRun fuel statuses h none).2 = some none ↔
      (∃ err, (sweepStatuses db c (mkCtx (x.TenantFromDbName dbname x.DbName))
        (x.TenantFromDbName dbname x.DbName) dryRun fuel statuses h none).2 = some err) ∧
      ∀ e ∈ (sweepStatuses db c (mkCtx (x.TenantFromDbName dbname x.DbName))
        (x.TenantFromDbName dbname x.DbName) dryRun fuel statuses h none).1,
        Event.failed e = false) := by
  obtain ⟨s1, s2⟩ := sweepStatuses_shape db c (mkCtx (x.TenantFromDbName dbname x.DbName))
    (x.TenantFromDbName dbname x.DbName) dryRun fuel statuses h none
  have hsw : checkpointCalls (sweepStatuses db c (mkCtx (x.TenantFromDbName dbname x.DbName))
      (x.TenantFromDbName dbname x.DbName) dryRun fuel statuses h none).1 = [] :=
    checkpointCalls_eq_nil _ fun e he => (s1 e he).1
  refine ⟨?_, ?_, ?_⟩
  · rintro ⟨h1, h2, h3, v, hv⟩
    refine ⟨v, hv, ?_⟩
    have hr : (tryPropagateStatusesInventoryForDb x db c dbname migrationVersion dryRun fuel h).1 =
        (sweepStatuses db c (mkCtx (x.TenantFromDbName dbname x.DbName))
          (x.TenantFromDbName dbname x.DbName) dryRun fuel statuses h none).1 ++
        [Event.storeMigrationVersion (mkCtx (x.TenantFromDbName dbname x.DbName)) v
          (db.StoreMigrationVersion
            (h ++ (sweepStatuses db c (mkCtx (x.TenantFromDbName dbname x.DbName))
              (x.TenantFromDbName dbname x.DbName) dryRun fuel statuses h none).1)
            (mkCtx (x.TenantFromDbName dbname x.DbName)) v)] := by
      subst h3
      unfold tryPropagateStatusesInventoryForDb
      simp only [h1, storeCheckpoint, hv]
      simp [h2]
    refine ⟨hr, ?_⟩
    rw [hr, checkpointCalls_append, hsw]
    rfl
  · intro hcond
    unfold tryPropagateStatusesInventoryForDb
    rcases hsw2 : (sweepStatuses db c (mkCtx (x.TenantFromDbName dbname x.DbName))
      (x.TenantFromDbName dbname x.DbName) dryRun fuel statuses h none).2 with _ | errReturned
    · simp only [hsw2]
      exact hsw
    · simp only [hsw2]
      rw [checkpointCalls_append, hsw, List.nil_append]
      rcases storeCheckpoint_events x db (mkCtx (x.TenantFromDbName dbname x.DbName))
        migrationVersion dryRun
        (h ++ (sweepStatuses db c (mkCtx (x.TenantFromDbName dbname x.DbName))
          (x.TenantFromDbName dbname x.DbName) dryRun fuel statuses h none).1) errReturned
        with h0 | ⟨v, hv, h2, h3, h4, -⟩
      · rw [h0]; rfl
      · subst h4
        exact absurd ⟨hsw2, h2, h3, v, hv⟩ hcond
  · constructor
    · intro h1
      exact ⟨⟨none, h1⟩, ((s2 none h1).1 rfl).2⟩
    · rintro ⟨⟨err, herr⟩, hall⟩
      have := (s2 err herr).2 ⟨rfl, hall⟩
      rw [herr, this]

/-- C2, as stated, fails: with the label `bad`, which `migrate.NewVersion` rejects, a
non-dry-run pass whose four sweeps completed with zero failures writes no checkpoint. -/
theorem tryPropagateStatusesInventoryForDb_checkpoint_counterexample :
    ¬ (checkpointCalls (tryPropagateStatusesInventoryForDb sampleExternals
          (pagingStore [] recsSmall) okClient "deviceauth" "bad" false 1 []).1 ≠ [] ↔
        ((sweepStatuses (pagingStore [] recsSmall) okClient none "" false 1 statuses [] none).2 =
            some none ∧
          (∀ e ∈ (sweepStatuses (pagingStore [] recsSmall) okClient none "" false 1 statuses []
            none).1, Event.failed e = false) ∧
          "bad" ≠ "" ∧ false = false)) := by
  decide

/-! ## The shape of an identity-data pass -/

theorem setDevicesIdentity_shape (c : Client V) (ctx : Ctx) (tenant : String) :
    ∀ (devices : List (Device V)) (h : List (Event V)),
      (∀ e ∈ (setDevicesIdentity c ctx tenant devices h).1, Event.isCheckpoint e = false) ∧
      FailStop (setDevicesIdentity c ctx tenant devices h).1
        (Outcome.done (setDevicesIdentity c ctx tenant devices h).2) := by
  intro devices
  induction devices with
  | nil => intro h; simp [setDevicesIdentity, FailStop]
  | cons d ds ih =>
    intro h
    rw [setDevicesIdentity]
    rcases hs : c.SetDeviceIdentity h ctx tenant d.Id d.IdDataStruct with _ | err
    · simp only
      obtain ⟨i1, i2⟩ := ih (h ++ [Event.setDeviceIdentity ctx tenant d.Id d.IdDataStruct none])
      refine ⟨?_, ?_⟩
      · intro e he
        rcases List.mem_cons.1 he with rfl | he
        · rfl
        · exact i1 e he
      · exact FailStop.prepend [_] _ _ (by simp [Event.failed]) i2
    · simp only
      refine ⟨by simp [Event.isCheckpoint], ?_⟩
      exact ⟨[], _, rfl, rfl, rfl, by simp⟩

theorem updateDevicesIdData_error (db : DataStore V) (c : Client V) (ctx : Ctx)
    (tenant : String) (dryRun : Bool) (fuel : Nat) (h : List (Event V)) (skip : Nat)
    (err : Err) (hres : db.GetDevices h ctx skip devicesBatchSize none = Except.error err) :
    updateDevicesIdData db c ctx tenant dryRun (fuel + 1) h skip =
      ([Event.getDevices ctx skip devicesBatchSize none (Except.error err)],
        Outcome.done (some (wrap err "failed to get devices"))) := by
  rw [updateDevicesIdData]
  simp only [hres]

theorem updateDevicesIdData_ok (db : DataStore V) (c : Client V) (ctx : Ctx)
    (tenant : String) (dryRun : Bool) (fuel : Nat) (h : List (Event V)) (skip : Nat)
    (devices : List (Device V))
    (hres : db.GetDevices h ctx skip devicesBatchSize none = Except.ok devices) :
    updateDevicesIdData db c ctx tenant dryRun (fuel + 1) h skip =
      let e := Event.getDevices ctx skip devicesBatchSize none (Except.ok devices)
      let s := idDataSinkStep c ctx tenant dryRun (h ++ [e]) devices
      if devices.length < 1 then ([e], Outcome.done none)
      else
        match s.2 with
        | some err => (e :: s.1, Outcome.done (some err))
        | none =>
          if devices.length < devicesBatchSize then (e :: s.1, Outcome.done none)
          else
            let r := updateDevicesIdData db c ctx tenant dryRun fuel (h ++ e :: s.1)
              ((skip + devicesBatchSize) % uintMod)
            (e :: s.1 ++ r.1, r.2) := by
  rw [updateDevicesIdData]
  simp only [hres]

theorem idDataSinkStep_shape (c : Client V) (ctx : Ctx) (tenant : String) (dryRun : Bool)
    (h : List (Event V)) (devices : List (Device V)) :
    (∀ e ∈ (idDataSinkStep c ctx tenant dryRun h devices).1,
      Event.isCheckpoint e = false ∧ (dryRun = true → Event.isRead e = true)) ∧
    FailStop (idDataSinkStep c ctx tenant dryRun h devices).1
      (Outcome.done (idDataSinkStep c ctx tenant dryRun h devices).2) := by
  cases dryRun with
  | true => simp [idDataSinkStep, FailStop]
  | false =>
    obtain ⟨i1, i2⟩ := setDevicesIdentity_shape c ctx tenant devices h
    exact ⟨fun e he => ⟨i1 e he, by simp⟩, i2⟩

/-- The events of `updateDevicesIdData` are page fetches and `SetDeviceIdentity` calls, the
sink is not called under dry-run, and the pass stops at its first failure. -/
theorem updateDevicesIdData_shape (db : DataStore V) (c : Client V) (ctx : Ctx)
    (tenant : String) (dryRun : Bool) :
    ∀ (fuel : Nat) (h : List (Event V)) (skip : Nat),
      (∀ e ∈ (updateDevicesIdData db c ctx tenant dryRun fuel h skip).1,
        Event.isCheckpoint e = false ∧ (dryRun = true → Event.isRead e = true)) ∧
      FailStop (updateDevicesIdData db c ctx tenant dryRun fuel h skip).1
        (updateDevicesIdData db c ctx tenant dryRun fuel h skip).2 := by
  intro fuel
  induction fuel with
  | zero =>
    intro h skip
    simp [updateDevicesIdData, FailStop]
  | succ fuel ih =>
    intro h skip
    rcases hres : db.GetDevices h ctx skip devicesBatchSize none with err | devices
    · rw [updateDevicesIdData_error db c ctx tenant dryRun fuel h skip err hres]
      refine ⟨by simp [Event.isCheckpoint, Event.isRead], ?_⟩
      exact ⟨[], _, rfl, rfl, rfl, by simp⟩
    · rw [updateDevicesIdData_ok db c ctx tenant dryRun fuel h skip devices hres]
      simp only
      obtain ⟨k1, k2⟩ := idDataSinkStep_shape c ctx tenant dryRun
        (h ++ [Event.getDevices ctx skip devicesBatchSize none (Except.ok devices)]) devices
      have hhead : ∀ e ∈ [Event.getDevices ctx skip devicesBatchSize none (Except.ok devices)],
          Event.failed e = false := by simp [Event.failed]
      split
      · refine ⟨by simp [Event.isCheckpoint, Event.isRead], ?_⟩
        simp [FailStop, Event.failed]
      · rcases hs : (idDataSinkStep c ctx tenant dryRun
          (h ++ [Event.getDevices ctx skip devicesBatchSize none (Except.ok devices)]) devices).2
          with _ | err
        · rw [hs] at k2
          simp only [hs]
          split
          · refine ⟨?_, ?_⟩
            · intro e he
              rcases List.mem_cons.1 he with rfl | he
              · simp [Event.isCheckpoint, Event.isRead]
              · exact k1 e he
            · exact FailStop.prepend [_] _ _ hhead k2
          · obtain ⟨i1, i2⟩ := ih (h ++ Event.getDevices ctx skip devicesBatchSize none
              (Except.ok devices) :: (idDataSinkStep c ctx tenant dryRun
                (h ++ [Event.getDevices ctx skip devicesBatchSize none (Except.ok devices)])
                devices).1) ((skip + devicesBatchSize) % uintMod)
            refine ⟨?_, ?_⟩
            · intro e he
              simp only [List.cons_append, List.mem_cons, List.mem_append] at he
              rcases he with rfl | he | he
              · simp [Event.isCheckpoint, Event.isRead]
              · exact k1 e he
              · exact i1 e he
            · have := FailStop.prepend _ _ _ k2 i2
              exact FailStop.prepend [_] _ _ hhead this
        · rw [hs] at k2
          simp only [hs]
          refine ⟨?_, ?_⟩
          · intro e he
            rcases List.mem_cons.1 he with rfl | he
            · simp [Event.isCheckpoint, Event.isRead]
            · exact k1 e he
          · exact FailStop.prepend [_] _ _ hhead k2

/-! ## Every status is swept -/

theorem updateDevicesStatus_first (db : DataStore V) (c : Client V) (ctx : Ctx)
    (tenant status : String) (dryRun : Bool) (fuel : Nat) (h : List (Event V)) (skip : Nat)
    (err : Option Err)
    (hdone : (updateDevicesStatus db c ctx tenant status dryRun fuel h skip).2 = Outcome.done err) :
    ∃ res, Event.getDevices ctx skip devicesBatchSize (some status) res ∈
      (updateDevicesStatus db c ctx tenant status dryRun fuel h skip).1 := by
  cases fuel with
  | zero => simp [updateDevicesStatus] at hdone
  | succ fuel =>
    rcases hres : db.GetDevices h ctx skip devicesBatchSize (some status) with e | devices
    · rw [updateDevicesStatus_error db c ctx tenant status dryRun fuel h skip e hres]
      exact ⟨_, List.mem_cons_self _ _⟩
    · rw [updateDevicesStatus_ok db c ctx tenant status dryRun fuel h skip devices hres]
      refine ⟨Except.ok devices, ?_⟩
      simp only
      split
      · exact List.mem_cons_self _ _
      · split
        · exact List.mem_cons_self _ _
        · split
          · exact List.mem_cons_self _ _
          · exact List.mem_cons_self _ _

theorem sweepStatuses_first (db : DataStore V) (c : Client V) (ctx : Ctx) (tenant : String)
    (dryRun : Bool) (fuel : Nat) :
    ∀ (ss : List String) (h : List (Event V)) (e e' : Option Err),
      (sweepStatuses db c ctx tenant dryRun fuel ss h e).2 = some e' →
      ∀ s ∈ ss, ∃ res, Event.getDevices ctx 0 devicesBatchSize (some s) res ∈
        (sweepStatuses db c ctx tenant dryRun fuel ss h e).1 := by
  intro ss
  induction ss with
  | nil => intro h e e' _ s hs; cases hs
  | cons s0 ss ih =>
    intro h e e' hdone s hs
    rw [sweepStatuses] at hdone ⊢
    rcases ho : (updateDevicesStatus db c ctx tenant s0 dryRun fuel h 0).2 with err | _
    · simp only [ho] at hdone ⊢
      rcases List.mem_cons.1 hs with rfl | hs
      · obtain ⟨res, hres⟩ := updateDevicesStatus_first db c ctx tenant s dryRun fuel h 0 err ho
        exact ⟨res, List.mem_append.2 (Or.inl hres)⟩
      · obtain ⟨res, hres⟩ := ih _ _ e' hdone s hs
        exact ⟨res, List.mem_append.2 (Or.inr hres)⟩
    · simp only [ho] at hdone
      cases hdone

theorem tryPropagateStatusesInventoryForDb_done (x : Externals V) (db : DataStore V)
    (c : Client V) (dbname migrationVersion : String) (dryRun : Bool) (fuel : Nat)
    (h : List (Event V)) (err : Option Err)
    (hdone : (tryPropagateStatusesInventoryForDb x db c dbname migrationVersion dryRun fuel h).2 =
      Outcome.done err) :
    ∃ errReturned,
      (sweepStatuses db c (mkCtx (x.TenantFromDbName dbname x.DbName))
        (x.TenantFromDbName dbname x.DbName) dryRun fuel statuses h none).2 = some errReturned ∧
      tryPropagateStatusesInventoryForDb x db c dbname migrationVersion dryRun fuel h =
        ((sweepStatuses db c (mkCtx (x.TenantFromDbName dbname x.DbName))
            (x.TenantFromDbName dbname x.DbName) dryRun fuel statuses h none).1 ++
          (storeCheckpoint x db (mkCtx (x.TenantFromDbName dbname x.DbName)) migrationVersion
            dryRun (h ++ (sweepStatuses db c (mkCtx (x.TenantFromDbName dbname x.DbName))
              (x.TenantFromDbName dbname x.DbName) dryRun fuel statuses h none).1)
            errReturned).1,
          Outcome.done (storeCheckpoint x db (mkCtx (x.TenantFromDbName dbname x.DbName))
            migrationVersion dryRun
            (h ++ (sweepStatuses db c (mkCtx (x.TenantFromDbName dbname x.DbName))
              (x.TenantFromDbName dbname x.DbName) dryRun fuel statuses h none).1)
            errReturned).2) := by
  unfold tryPropagateStatusesInventoryForDb at hdone ⊢
  rcases hsw : (sweepStatuses db c (mkCtx (x.TenantFromDbName dbname x.DbName))
    (x.TenantFromDbName dbname x.DbName) dryRun fuel statuses h none).2 with _ | errReturned
  · simp only [hsw] at hdone
    cases hdone
  · exact ⟨errReturned, rfl, by simp only [hsw]⟩

/-! ## The result of the status and identity-data runs -/

theorem storeCheckpoint_result (x : Externals V) (db : DataStore V) (ctx : Ctx)
    (migrationVersion : String) (dryRun : Bool) (h : List (Event V)) (errReturned : Option Err)
    (hlabel : migrationVersion = "" ∨ ∃ v, x.NewVersion migrationVersion = (some v, none)) :
    (storeCheckpoint x db ctx migrationVersion dryRun h errReturned).2 = errReturned := by
  unfold storeCheckpoint
  split
  · split
    · rfl
    · rcases hlabel with h0 | ⟨v, hv⟩
      · rename_i h1 _
        exact absurd h0 h1.1
      · simp only [hv]
  · rfl

theorem storeCheckpoint_not_failed (x : Externals V) (db : DataStore V) (ctx : Ctx)
    (migrationVersion : String) (dryRun : Bool) (h : List (Event V)) (errReturned : Option Err) :
    ∀ e ∈ (storeCheckpoint x db ctx migrationVersion dryRun h errReturned).1,
      Event.failed e = false ∧ Event.isSinkCall e = false := by
  intro e he
  rcases storeCheckpoint_events x db ctx migrationVersion dryRun h errReturned with
    h0 | ⟨v, -, -, -, -, h1⟩
  · rw [h0] at he; cases he
  · rw [h1] at he
    rcases List.mem_singleton.1 he with rfl
    exact ⟨rfl, rfl⟩

theorem tryPropagateStatusesInventoryForDb_result (x : Externals V) (db : DataStore V)
    (c : Client V) (dbname migrationVersion : String) (dryRun : Bool) (fuel : Nat)
    (h : List (Event V)) (err : Option Err)
    (hlabel : migrationVersion = "" ∨ ∃ v, x.NewVersion migrationVersion = (some v, none))
    (hdone : (tryPropagateStatusesInventoryForDb x db c dbname migrationVersion dryRun fuel h).2 =
      Outcome.done err) :
    (err = none ↔
      ∀ e ∈ (tryPropagateStatusesInventoryForDb x db c dbname migrationVersion dryRun fuel h).1,
        Event.failed e = false) := by
  obtain ⟨errReturned, hsw, heq⟩ :=
    tryPropagateStatusesInventoryForDb_done x db c dbname migrationVersion dryRun fuel h err hdone
  have hs := (sweepStatuses_shape db c (mkCtx (x.TenantFromDbName dbname x.DbName))
    (x.TenantFromDbName dbname x.DbName) dryRun fuel statuses h none).2 errReturned hsw
  rw [heq] at hdone
  simp only [Outcome.done.injEq] at hdone
  rw [storeCheckpoint_result x db _ migrationVersion dryRun _ errReturned hlabel] at hdone
  subst hdone
  rw [heq, hs]
  constructor
  · rintro ⟨-, h2⟩ e he
    rcases List.mem_append.1 he with h3 | h3
    · exact h2 e h3
    · exact (storeCheckpoint_not_failed x db _ migrationVersion dryRun _ _ e h3).1
  · intro h2
    exact ⟨rfl, fun e he => h2 e (List.mem_append.2 (Or.inl he))⟩

theorem propagateStatusesDbs_result (x : Externals V) (db : DataStore V) (c : Client V)
    (migrationVersion : String) (dryRun : Bool) (fuel : Nat)
    (hlabel : migrationVersion = "" ∨ ∃ v, x.NewVersion migrationVersion = (some v, none)) :
    ∀ (ds : List String) (h : List (Event V)) (e err : Option Err),
      (propagateStatusesDbs x db c migrationVersion dryRun fuel ds h e).2 = Outcome.done err →
      (err = none ↔ e = none ∧
        ∀ ev ∈ (propagateStatusesDbs x db c migrationVersion dryRun fuel ds h e).1,
          Event.failed ev = false) := by
  intro ds
  induction ds with
  | nil =>
    intro h e err hdone
    simp only [propagateStatusesDbs, Outcome.done.injEq] at hdone
    subst hdone
    simp [propagateStatusesDbs]
  | cons d ds ih =>
    intro h e err hdone
    rw [propagateStatusesDbs] at hdone ⊢
    rcases ho : (tryPropagateStatusesInventoryForDb x db c d migrationVersion dryRun fuel h).2
      with err1 | _
    · simp only [ho] at hdone ⊢
      have h1 := tryPropagateStatusesInventoryForDb_result x db c d migrationVersion dryRun fuel h
        err1 hlabel ho
      rw [ih _ _ err hdone]
      constructor
      · rintro ⟨h2, h3⟩
        by_cases herr : err1 = none
        · subst herr
          simp only [ne_eq, not_true_eq_false, if_false] at h2
          refine ⟨h2, fun ev hev => ?_⟩
          rcases List.mem_append.1 hev with h4 | h4
          · exact h1.1 rfl ev h4
          · exact h3 ev h4
        · rw [if_pos herr] at h2
          exact absurd h2 herr
      · rintro ⟨h2, h3⟩
        have herr : err1 = none := h1.2 fun ev hev => h3 ev (List.mem_append.2 (Or.inl hev))
        subst herr
        exact ⟨by simpa using h2, fun ev hev => h3 ev (List.mem_append.2 (Or.inr hev))⟩
    · simp only [ho] at hdone
      cases hdone

theorem propagateIdDataDbs_result (x : Externals V) (db : DataStore V) (c : Client V)
    (dryRun : Bool) (fuel : Nat) :
    ∀ (ds : List String) (h : List (Event V)) (e err : Option Err),
      (propagateIdDataDbs x db c dryRun fuel ds h e).2 = Outcome.done err →
      (err = none ↔ e = none ∧
        ∀ ev ∈ (propagateIdDataDbs x db c dryRun fuel ds h e).1, Event.failed ev = false) := by
  intro ds
  induction ds with
  | nil =>
    intro h e err hdone
    simp only [propagateIdDataDbs, Outcome.done.injEq] at hdone
    subst hdone
    simp [propagateIdDataDbs]
  | cons d ds ih =>
    intro h e err hdone
    rw [propagateIdDataDbs] at hdone ⊢
    rcases ho : (tryPropagateIdDataInventoryForDb x db c d dryRun fuel h).2 with err1 | _
    · simp only [ho] at hdone ⊢
      have h0 := (updateDevicesIdData_shape db c (mkCtx (x.TenantFromDbName d x.DbName))
        (x.TenantFromDbName d x.DbName) dryRun fuel h 0).2
      have h1 : err1 = none ↔
          ∀ e ∈ (tryPropagateIdDataInventoryForDb x db c d dryRun fuel h).1,
            Event.failed e = false := by
        unfold tryPropagateIdDataInventoryForDb at ho ⊢
        rw [ho] at h0
        exact FailStop.done_iff _ _ h0
      rw [ih _ _ err hdone]
      constructor
      · rintro ⟨h2, h3⟩
        by_cases herr : err1 = none
        · subst herr
          simp only [ne_eq, not_true_eq_false, if_false] at h2
          refine ⟨h2, fun ev hev => ?_⟩
          rcases List.mem_append.1 hev with h4 | h4
          · exact h1.1 rfl ev h4
          · exact h3 ev h4
        · rw [if_pos herr] at h2
          exact absurd h2 herr
      · rintro ⟨h2, h3⟩
        have herr : err1 = none := h1.2 fun ev hev => h3 ev (List.mem_append.2 (Or.inl hev))
        subst herr
        exact ⟨by simpa using h2, fun ev hev => h3 ev (List.mem_append.2 (Or.inr hev))⟩
    · simp only [ho] at hdone
      cases hdone

theorem selectDbs_events (x : Externals V) (db : DataStore V) (tenant : String)
    (h : List (Event V)) :
    ∀ e ∈ (selectDbs x db tenant h).1, Event.failed e = false ∧ Event.isRead e = true := by
  intro e he
  unfold selectDbs at he
  split at he
  · cases he
  · rcases hres : db.GetTenantDbs h with err | tdbs
    · simp only [hres] at he
      rcases List.mem_singleton.1 he with rfl
      exact ⟨rfl, rfl⟩
    · simp only [hres] at he
      split at he <;>
      · rcases List.mem_singleton.1 he with rfl
        exact ⟨rfl, rfl⟩

theorem PropagateStatusesInventory_result (x : Externals V) (db : DataStore V) (c : Client V)
    (tenant migrationVersion : String) (dryRun : Bool) (fuel : Nat) (h : List (Event V))
    (hlabel : migrationVersion = "" ∨ ∃ v, x.NewVersion migrationVersion = (some v, none))
    (err : Option Err)
    (hdone : (PropagateStatusesInventory x db c tenant migrationVersion dryRun fuel h).2 =
      Outcome.done err) :
    (err = none ↔ (∃ dbs, (selectDbs x db tenant h).2 = Except.ok dbs) ∧
      ∀ e ∈ (PropagateStatusesInventory x db c tenant migrationVersion dryRun fuel h).1,
        Event.failed e = false) := by
  unfold PropagateStatusesInventory at hdone ⊢
  rcases hsel : (selectDbs x db tenant h).2 with e0 | dbs
  · simp only [hsel, Outcome.done.injEq] at hdone ⊢
    subst hdone
    simp
  · simp only [hsel] at hdone ⊢
    rw [propagateStatusesDbs_result x db c migrationVersion dryRun fuel hlabel dbs _ none err hdone]
    constructor
    · rintro ⟨-, h2⟩
      refine ⟨⟨dbs, rfl⟩, fun e he => ?_⟩
      rcases List.mem_append.1 he with h3 | h3
      · exact (selectDbs_events x db tenant h e h3).1
      · exact h2 e h3
    · rintro ⟨-, h2⟩
      exact ⟨rfl, fun e he => h2 e (List.mem_append.2 (Or.inr he))⟩

theorem PropagateIdDataInventory_result (x : Externals V) (db : DataStore V) (c : Client V)
    (tenant : String) (dryRun : Bool) (fuel : Nat) (h : List (Event V)) (err : Option Err)
    (hdone : (PropagateIdDataInventory x db c tenant dryRun fuel h).2 = Outcome.done err) :
    (err = none ↔ (∃ dbs, (selectDbs x db tenant h).2 = Except.ok dbs) ∧
      ∀ e ∈ (PropagateIdDataInventory x db c tenant dryRun fuel h).1,
        Event.failed e = false) := by
  unfold PropagateIdDataInventory at hdone ⊢
  rcases hsel : (selectDbs x db tenant h).2 with e0 | dbs
  · simp only [hsel, Outcome.done.injEq] at hdone ⊢
    subst hdone
    simp
  · simp only [hsel] at hdone ⊢
    rw [propagateIdDataDbs_result x db c dryRun fuel dbs _ none err hdone]
    constructor
    · rintro ⟨-, h2⟩
      refine ⟨⟨dbs, rfl⟩, fun e he => ?_⟩
      rcases List.mem_append.1 he with h3 | h3
      · exact (selectDbs_events x db tenant h e h3).1
      · exact h2 e h3
    · rintro ⟨-, h2⟩
      exact ⟨rfl, fun e he => h2 e (List.mem_append.2 (Or.inr he))⟩

/-! ## The result of the full-listing run -/

theorem propagateInventoryDbs_result (x : Externals V) (db : DataStore V) (c : Client V)
    (dryrun : Bool) (fuel : Nat) :
    ∀ (ds : List String) (h : List (Event V)) (err : Option Err),
      (propagateInventoryDbs x db c dryrun fuel ds h).2 = Outcome.done err → err = none := by
  intro ds
  induction ds with
  | nil =>
    intro h err hdone
    simp only [propagateInventoryDbs, Outcome.done.injEq] at hdone
    exact hdone.symm
  | cons d ds ih =>
    intro h err hdone
    rw [propagateInventoryDbs] at hdone
    rcases ho : (tryPropagateInventoryForDb x db c d dryrun fuel h).2 with err1 | _
    · simp only [ho] at hdone
      exact ih _ err hdone
    · simp only [ho] at hdone
      cases hdone

theorem selectDbs_error_iff (x : Externals V) (db : DataStore V) (tenant : String)
    (h : List (Event V)) :
    (¬ ∃ dbs, (selectDbs x db tenant h).2 = Except.ok dbs) ↔
      tenant = "" ∧ ∃ e, db.GetTenantDbs h = Except.error e := by
  unfold selectDbs
  by_cases ht : tenant ≠ ""
  · rw [if_pos ht]
    simp only [Except.ok.injEq, exists_eq', not_true_eq_false, false_iff, not_and]
    intro h0
    exact absurd h0 ht
  · rw [if_neg ht]
    rcases hres : db.GetTenantDbs h with err | tdbs
    · simp only [not_exists]
      constructor
      · intro _
        exact ⟨by simpa using ht, err, rfl⟩
      · intro _ dbs hdbs
        cases hdbs
    · simp only
      constructor
      · intro h0
        exfalso
        apply h0
        split <;> exact ⟨_, rfl⟩
      · rintro ⟨-, e, he⟩
        cases he

/-! ## Containment of failures in the status run -/

theorem noFailure_iff (evs : List (Event V)) :
    noFailure evs = true ↔ ∀ e ∈ evs, Event.failed e = false := by
  simp [noFailure, List.all_eq_true]

theorem noFailure_eq_false_iff (evs : List (Event V)) :
    noFailure evs = false ↔ ∃ e ∈ evs, Event.failed e = true := by
  rw [← Bool.not_eq_true, noFailure_iff]
  simp

theorem statusPass_checkpointCalls (x : Externals V) (db : DataStore V)
    (c : Client V) (dbname migrationVersion : String) (fuel : Nat) (h : List (Event V))
    (err : Option Err) (v : Version)
    (hmv : migrationVersion ≠ "") (hv : x.NewVersion migrationVersion = (some v, none))
    (hdone : (tryPropagateStatusesInventoryForDb x db c dbname migrationVersion false fuel h).2 =
      Outcome.done err) :
    checkpointCalls (tryPropagateStatusesInventoryForDb x db c dbname migrationVersion false fuel h).1
      = if noFailure (tryPropagateStatusesInventoryForDb x db c dbname migrationVersion false
            fuel h).1 = true
        then [(mkCtx (x.TenantFromDbName dbname x.DbName), v)] else [] := by
  have hres := tryPropagateStatusesInventoryForDb_result x db c dbname migrationVersion false fuel
    h err (Or.inr ⟨v, hv⟩) hdone
  obtain ⟨errReturned, hsw, heq⟩ :=
    tryPropagateStatusesInventoryForDb_done x db c dbname migrationVersion false fuel h err hdone
  have hs1 := (sweepStatuses_shape db c (mkCtx (x.TenantFromDbName dbname x.DbName))
    (x.TenantFromDbName dbname x.DbName) false fuel statuses h none).1
  have herr : err = errReturned := by
    rw [heq] at hdone
    simp only [Outcome.done.injEq] at hdone
    rw [storeCheckpoint_result x db _ migrationVersion false _ errReturned (Or.inr ⟨v, hv⟩)]
      at hdone
    exact hdone.symm
  subst herr
  rw [← noFailure_iff] at hres
  have hcp : checkpointCalls (tryPropagateStatusesInventoryForDb x db c dbname migrationVersion
      false fuel h).1 = checkpointCalls (storeCheckpoint x db
        (mkCtx (x.TenantFromDbName dbname x.DbName)) migrationVersion false
        (h ++ (sweepStatuses db c (mkCtx (x.TenantFromDbName dbname x.DbName))
          (x.TenantFromDbName dbname x.DbName) false fuel statuses h none).1) err).1 := by
    rw [heq, checkpointCalls_append, checkpointCalls_eq_nil _ fun e he => (hs1 e he).1,
      List.nil_append]
  rw [hcp]
  by_cases he : err = none
  · rw [if_pos (hres.1 he)]
    subst he
    simp [storeCheckpoint, hmv, hv, checkpointCalls]
  · rw [if_neg (fun hn => he (hres.2 hn))]
    simp [storeCheckpoint, hmv, he, checkpointCalls]

theorem propagateStatusesDbs_passes (x : Externals V) (db : DataStore V) (c : Client V)
    (migrationVersion : String) (dryRun : Bool) (fuel : Nat) :
    ∀ (ds : List String) (h : List (Event V)) (e err : Option Err),
      (propagateStatusesDbs x db c migrationVersion dryRun fuel ds h e).2 = Outcome.done err →
      (propagateStatusesDbs x db c migrationVersion dryRun fuel ds h e).1 =
        ((specStatusPasses x db c migrationVersion dryRun fuel ds h).map fun p => p.2.1).flatten ∧
      (∀ p ∈ specStatusPasses x db c migrationVersion dryRun fuel ds h,
        ∃ e', p.2.2 = Outcome.done e') ∧
      (err ≠ none ↔ e ≠ none ∨
        ∃ p ∈ specStatusPasses x db c migrationVersion dryRun fuel ds h,
          p.2.2 ≠ Outcome.done none) := by
  intro ds
  induction ds with
  | nil =>
    intro h e err hdone
    simp only [propagateStatusesDbs, Outcome.done.injEq] at hdone
    subst hdone
    simp [propagateStatusesDbs, specStatusPasses]
  | cons d ds ih =>
    intro h e err hdone
    rw [propagateStatusesDbs] at hdone ⊢
    rcases ho : (tryPropagateStatusesInventoryForDb x db c d migrationVersion dryRun fuel h).2
      with err1 | _
    · simp only [ho] at hdone ⊢
      obtain ⟨i1, i2, i3⟩ := ih _ _ err hdone
      refine ⟨?_, ?_, ?_⟩
      · rw [i1]
        simp [specStatusPasses]
      · intro p hp
        simp only [specStatusPasses, List.mem_cons] at hp
        rcases hp with rfl | hp
        · exact ⟨err1, ho⟩
        · exact i2 p hp
      · rw [i3]
        simp only [specStatusPasses, List.mem_cons, exists_eq_or_imp, ho]
        by_cases herr : err1 = none
        · subst herr
          simp
        · simp [herr]
    · simp only [ho] at hdone
      cases hdone

theorem specStatusPasses_names (x : Externals V) (db : DataStore V) (c : Client V)
    (migrationVersion : String) (dryRun : Bool) (fuel : Nat) :
    ∀ (ds : List String) (h : List (Event V)),
      (specStatusPasses x db c migrationVersion dryRun fuel ds h).map (fun p => p.1) = ds := by
  intro ds
  induction ds with
  | nil => intro h; rfl
  | cons d ds ih => intro h; simp [specStatusPasses, ih]

theorem specStatusPasses_checkpointCalls (x : Externals V) (db : DataStore V) (c : Client V)
    (migrationVersion : String) (fuel : Nat) (v : Version)
    (hmv : migrationVersion ≠ "") (hv : x.NewVersion migrationVersion = (some v, none)) :
    ∀ (ds : List String) (h : List (Event V)),
      (∀ p ∈ specStatusPasses x db c migrationVersion false fuel ds h,
        ∃ e', p.2.2 = Outcome.done e') →
      checkpointCalls
        ((specStatusPasses x db c migrationVersion false fuel ds h).map fun p => p.2.1).flatten =
      ((specStatusPasses x db c migrationVersion false fuel ds h).filter
        fun p => noFailure p.2.1).map
        fun p => (mkCtx (x.TenantFromDbName p.1 x.DbName), v) := by
  intro ds
  induction ds with
  | nil => intro h _; rfl
  | cons d ds ih =>
    intro h hall
    simp only [specStatusPasses, List.map_cons, List.flatten_cons, checkpointCalls_append]
    obtain ⟨e', he'⟩ := hall (d, tryPropagateStatusesInventoryForDb x db c d migrationVersion
      false fuel h) (by simp [specStatusPasses])
    rw [statusPass_checkpointCalls x db c d migrationVersion fuel h e' v
      hmv hv he']
    rw [ih _ fun p hp => hall p (by simp [specStatusPasses, hp])]
    by_cases hn : noFailure (tryPropagateStatusesInventoryForDb x db c d migrationVersion
      false fuel h).1 = true
    · simp [hn, List.filter_cons]
    · simp [hn, List.filter_cons]

theorem specStatusPasses_mem (x : Externals V) (db : DataStore V) (c : Client V)
    (migrationVersion : String) (dryRun : Bool) (fuel : Nat) :
    ∀ (ds : List String) (h : List (Event V)),
      ∀ p ∈ specStatusPasses x db c migrationVersion dryRun fuel ds h,
        ∃ h', p = (p.1, tryPropagateStatusesInventoryForDb x db c p.1 migrationVersion dryRun
          fuel h') := by
  intro ds
  induction ds with
  | nil => intro h p hp; cases hp
  | cons d ds ih =>
    intro h p hp
    simp only [specStatusPasses, List.mem_cons] at hp
    rcases hp with rfl | hp
    · exact ⟨h, rfl⟩
    · exact ih _ p hp

/-! ## Dry-run -/

theorem isRead_not_write (e : Event V) (he : Event.isRead e = true) :
    Event.isSinkCall e = false ∧ Event.isCheckpoint e = false := by
  cases e <;> simp_all [Event.isRead, Event.isSinkCall, Event.isCheckpoint]

theorem propagateSingleDevice_dryrun (x : Externals V) (c : Client V) (d : Device V)
    (tenant : String) (h : List (Event V)) :
    (propagateSingleDevice x c d tenant true h).1 = [] := by
  unfold propagateSingleDevice
  split <;> rfl

theorem propagateDevices_dryrun (x : Externals V) (c : Client V) (tenant : String) :
    ∀ (ds : List (Device V)) (h : List (Event V)) (errs : Bool),
      (propagateDevices x c tenant true ds h errs).1 = [] := by
  intro ds
  induction ds with
  | nil => intro h errs; rfl
  | cons d ds ih =>
    intro h errs
    rw [propagateDevices]
    simp only [propagateSingleDevice_dryrun, List.nil_append, ih]

theorem inventoryLoop_error (x : Externals V) (db : DataStore V) (c : Client V) (ctx : Ctx)
    (tenant : String) (dryrun : Bool) (fuel : Nat) (h : List (Event V)) (skip : Nat)
    (errs : Bool) (err : Err) (hres : db.GetDevices h ctx skip 100 none = Except.error err) :
    inventoryLoop x db c ctx tenant dryrun (fuel + 1) h skip errs =
      ([Event.getDevices ctx skip 100 none (Except.error err)],
        some (Except.error (wrap err "failed to get devices"))) := by
  rw [inventoryLoop]
  simp only [hres]

theorem inventoryLoop_ok (x : Externals V) (db : DataStore V) (c : Client V) (ctx : Ctx)
    (tenant : String) (dryrun : Bool) (fuel : Nat) (h : List (Event V)) (skip : Nat)
    (errs : Bool) (devs : List (Device V))
    (hres : db.GetDevices h ctx skip 100 none = Except.ok devs) :
    inventoryLoop x db c ctx tenant dryrun (fuel + 1) h skip errs =
      let e := Event.getDevices ctx skip 100 none (Except.ok devs)
      let p := propagateDevices x c tenant dryrun devs (h ++ [e]) errs
      if devs.length < 100 then (e :: p.1, some (Except.ok p.2))
      else
        let r := inventoryLoop x db c ctx tenant dryrun fuel (h ++ e :: p.1)
          ((skip + 100) % uintMod) p.2
        (e :: p.1 ++ r.1, r.2) := by
  rw [inventoryLoop]
  simp only [hres]

theorem inventoryLoop_dryrun (x : Externals V) (db : DataStore V) (c : Client V) (ctx : Ctx)
    (tenant : String) :
    ∀ (fuel : Nat) (h : List (Event V)) (skip : Nat) (errs : Bool),
      ∀ e ∈ (inventoryLoop x db c ctx tenant true fuel h skip errs).1, Event.isRead e = true := by
  intro fuel
  induction fuel with
  | zero => intro h skip errs e he; simp [inventoryLoop] at he
  | succ fuel ih =>
    intro h skip errs e he
    rcases hres : db.GetDevices h ctx skip 100 none with err | devs
    · rw [inventoryLoop_error x db c ctx tenant true fuel h skip errs err hres] at he
      rcases List.mem_singleton.1 he with rfl
      rfl
    · rw [inventoryLoop_ok x db c ctx tenant true fuel h skip errs devs hres] at he
      simp only [propagateDevices_dryrun, List.nil_append] at he
      split at he
      · rcases List.mem_singleton.1 he with rfl
        rfl
      · rcases List.mem_cons.1 he with rfl | he
        · rfl
        · exact ih _ _ _ e he

theorem tryPropagateInventoryForDb_events (x : Externals V) (db : DataStore V) (c : Client V)
    (dbname : String) (dryrun : Bool) (fuel : Nat) (h : List (Event V)) :
    (tryPropagateInventoryForDb x db c dbname dryrun fuel h).1 =
      (inventoryLoop x db c (mkCtx (x.TenantFromDbName dbname x.DbName))
        (x.TenantFromDbName dbname x.DbName) dryrun fuel h 0 false).1 := by
  unfold tryPropagateInventoryForDb
  simp only
  split <;> rfl

theorem propagateInventoryDbs_dryrun (x : Externals V) (db : DataStore V) (c : Client V)
    (fuel : Nat) :
    ∀ (ds : List String) (h : List (Event V)),
      ∀ e ∈ (propagateInventoryDbs x db c true fuel ds h).1, Event.isRead e = true := by
  intro ds
  induction ds with
  | nil => intro h e he; cases he
  | cons d ds ih =>
    intro h e he
    have h1 : ∀ e ∈ (tryPropagateInventoryForDb x db c d true fuel h).1, Event.isRead e = true := by
      rw [tryPropagateInventoryForDb_events]
      exact inventoryLoop_dryrun x db c _ _ fuel h 0 false
    rw [propagateInventoryDbs] at he
    split at he
    · exact h1 e he
    · rcases List.mem_append.1 he with h2 | h2
      · exact h1 e h2
      · exact ih _ e h2

theorem tryPropagateStatusesInventoryForDb_dryrun (x : Externals V) (db : DataStore V)
    (c : Client V) (dbname migrationVersion : String) (fuel : Nat) (h : List (Event V)) :
    ∀ e ∈ (tryPropagateStatusesInventoryForDb x db c dbname migrationVersion true fuel h).1,
      Event.isRead e = true := by
  intro e he
  have hs := (sweepStatuses_shape db c (mkCtx (x.TenantFromDbName dbname x.DbName))
    (x.TenantFromDbName dbname x.DbName) true fuel statuses h none).1
  unfold tryPropagateStatusesInventoryForDb at he
  simp only at he
  split at he
  · exact (hs e he).2 rfl
  · rcases List.mem_append.1 he with h2 | h2
    · exact (hs e h2).2 rfl
    · simp [storeCheckpoint] at h2

theorem propagateStatusesDbs_dryrun (x : Externals V) (db : DataStore V) (c : Client V)
    (migrationVersion : String) (fuel : Nat) :
    ∀ (ds : List String) (h : List (Event V)) (e0 : Option Err),
      ∀ e ∈ (propagateStatusesDbs x db c migrationVersion true fuel ds h e0).1,
        Event.isRead e = true := by
  intro ds
  induction ds with
  | nil => intro h e0 e he; cases he
  | cons d ds ih =>
    intro h e0 e he
    have h1 := tryPropagateStatusesInventoryForDb_dryrun x db c d migrationVersion fuel h
    rw [propagateStatusesDbs] at he
    split at he
    · exact h1 e he
    · rcases List.mem_append.1 he with h2 | h2
      · exact h1 e h2
      · exact ih _ _ e h2

theorem propagateIdDataDbs_dryrun (x : Externals V) (db : DataStore V) (c : Client V)
    (fuel : Nat) :
    ∀ (ds : List String) (h : List (Event V)) (e0 : Option Err),
      ∀ e ∈ (propagateIdDataDbs x db c true fuel ds h e0).1, Event.isRead e = true := by
  intro ds
  induction ds with
  | nil => intro h e0 e he; cases he
  | cons d ds ih =>
    intro h e0 e he
    have h1 : ∀ e ∈ (tryPropagateIdDataInventoryForDb x db c d true fuel h).1,
        Event.isRead e = true := fun e he =>
      ((updateDevicesIdData_shape db c _ _ true fuel h 0).1 e he).2 rfl
    rw [propagateIdDataDbs] at he
    split at he
    · exact h1 e he
    · rcases List.mem_append.1 he with h2 | h2
      · exact h1 e h2
      · exact ih _ _ e h2

/-- C7: with dry-run enabled, every collaborator call made by `PropagateInventory`,
`PropagateStatusesInventory` and `PropagateIdDataInventory` is one of the reads
`GetTenantDbs` and `GetDevices`: no sink call of any kind and no `StoreMigrationVersion`
call is made. This holds for every store, sink, tenant, label and amount of fuel, so
also for the events of a run that never returns. -/
theorem dryrun_only_reads (x : Externals V) (db : DataStore V) (c : Client V)
    (tenant migrationVersion : String) (fuel : Nat) (h : List (Event V)) :
    (∀ e ∈ (PropagateInventory x db c tenant true fuel h).1,
      Event.isRead e = true ∧ Event.isSinkCall e = false ∧ Event.isCheckpoint e = false) ∧
    (∀ e ∈ (PropagateStatusesInventory x db c tenant migrationVersion true fuel h).1,
      Event.isRead e = true ∧ Event.isSinkCall e = false ∧ Event.isCheckpoint e = false) ∧
    (∀ e ∈ (PropagateIdDataInventory x db c tenant true fuel h).1,
      Event.isRead e = true ∧ Event.isSinkCall e = false ∧ Event.isCheckpoint e = false) := by
  have hsel := selectDbs_events x db tenant h
  refine ⟨?_, ?_, ?_⟩
  · intro e he
    suffices hr : Event.isRead e = true from ⟨hr, isRead_not_write e hr⟩
    unfold PropagateInventory at he
    simp only at he
    split at he
    · exact (hsel e he).2
    · rcases List.mem_append.1 he with h2 | h2
      · exact (hsel e h2).2
      · exact propagateInventoryDbs_dryrun x db c fuel _ _ e h2
  · intro e he
    suffices hr : Event.isRead e = true from ⟨hr, isRead_not_write e hr⟩
    unfold PropagateStatusesInventory at he
    simp only at he
    split at he
    · exact (hsel e he).2
    · rcases List.mem_append.1 he with h2 | h2
      · exact (hsel e h2).2
      · exact propagateStatusesDbs_dryrun x db c migrationVersion fuel _ _ _ e h2
  · intro e he
    suffices hr : Event.isRead e = true from ⟨hr, isRead_not_write e hr⟩
    unfold PropagateIdDataInventory at he
    simp only at he
    split at he
    · exact (hsel e he).2
    · rcases List.mem_append.1 he with h2 | h2
      · exact (hsel e h2).2
      · exact propagateIdDataDbs_dryrun x db c fuel _ _ _ e h2

/-! ## Dry-run and non-dry-run page requests -/

theorem pageRequests_append (a b : List (Event V)) :
    pageRequests (a ++ b) = pageRequests a ++ pageRequests b := by
  simp [pageRequests, List.filterMap_append]

theorem pageRequests_cons_getDevices (ctx : Ctx) (skip limit : Nat) (filter : Option String)
    (res : Except Err (List (Device V))) (evs : List (Event V)) :
    pageRequests (Event.getDevices ctx skip limit filter res :: evs) =
      (ctx, skip, limit, filter) :: pageRequests evs := by
  simp [pageRequests]

theorem pageRequests_eq_nil (evs : List (Event V))
    (hevs : ∀ e ∈ evs, Event.isRead e = false) : pageRequests evs = [] := by
  unfold pageRequests
  rw [List.filterMap_eq_nil_iff]
  intro e he
  have := hevs e he
  cases e <;> simp_all [Event.isRead]

theorem NoSinkFailure.left (a b : List (Event V)) (hab : NoSinkFailure (a ++ b)) :
    NoSinkFailure a := fun e he => hab e (List.mem_append.2 (Or.inl he))

theorem NoSinkFailure.right (a b : List (Event V)) (hab : NoSinkFailure (a ++ b)) :
    NoSinkFailure b := fun e he => hab e (List.mem_append.2 (Or.inr he))

theorem updateDevicesStatus_dryrun_pages (db : DataStore V) (c : Client V) (ctx : Ctx)
    (tenant status : String) (hdb : Unchanged db) :
    ∀ (fuel : Nat) (h h' : List (Event V)) (skip : Nat),
      NoSinkFailure (updateDevicesStatus db c ctx tenant status false fuel h' skip).1 →
      pageRequests (updateDevicesStatus db c ctx tenant status true fuel h skip).1 =
        pageRequests (updateDevicesStatus db c ctx tenant status false fuel h' skip).1 ∧
      (updateDevicesStatus db c ctx tenant status true fuel h skip).2 =
        (updateDevicesStatus db c ctx tenant status false fuel h' skip).2 := by
  intro fuel
  induction fuel with
  | zero => intro h h' skip _; simp [updateDevicesStatus]
  | succ fuel ih =>
    intro h h' skip hno
    have hsame := hdb.2 h h' ctx skip devicesBatchSize (some status)
    rcases hres : db.GetDevices h' ctx skip devicesBatchSize (some status) with err | devices
    · rw [updateDevicesStatus_error db c ctx tenant status true fuel h skip err (hsame.trans hres),
        updateDevicesStatus_error db c ctx tenant status false fuel h' skip err hres]
      exact ⟨rfl, rfl⟩
    · rw [updateDevicesStatus_ok db c ctx tenant status false fuel h' skip devices hres] at hno ⊢
      rw [updateDevicesStatus_ok db c ctx tenant status true fuel h skip devices
        (hsame.trans hres)]
      simp only [statusSinkStep_true, statusSinkStep_false] at hno ⊢
      by_cases hempty : devices.length < 1
      · simp only [if_pos hempty]
        constructor <;> first | rfl | trivial
      · simp only [if_neg hempty] at hno ⊢
        rcases hs : c.SetDeviceStatus (h' ++ [Event.getDevices ctx skip devicesBatchSize
          (some status) (Except.ok devices)]) ctx tenant (devices.map fun d => d.Id) status
          with _ | err
        · simp only [hs] at hno ⊢
          by_cases hshort : devices.length < devicesBatchSize
          · simp only [if_pos hshort]
            exact ⟨by simp [pageRequests], by first | rfl | trivial⟩
          · simp only [if_neg hshort] at hno ⊢
            obtain ⟨i1, i2⟩ := ih
              (h ++ [Event.getDevices ctx skip devicesBatchSize (some status) (Except.ok devices)])
              (h' ++ [Event.getDevices ctx skip devicesBatchSize (some status)
                (Except.ok devices), Event.setDeviceStatus ctx tenant
                (devices.map fun d => d.Id) status none])
              ((skip + devicesBatchSize) % uintMod)
              (NoSinkFailure.right [_, _] _ hno)
            refine ⟨?_, i2⟩
            simp only [List.cons_append, List.nil_append, pageRequests_cons_getDevices]
            rw [i1]
            simp [pageRequests]
        · simp only [hs] at hno
          have := hno (Event.setDeviceStatus ctx tenant (devices.map fun d => d.Id) status
            (some err)) (by simp) rfl
          simp [Event.failed] at this

theorem sweepStatuses_dryrun_pages (db : DataStore V) (c : Client V) (ctx : Ctx)
    (tenant : String) (fuel : Nat) (hdb : Unchanged db) :
    ∀ (ss : List String) (h h' : List (Event V)) (e : Option Err),
      NoSinkFailure (sweepStatuses db c ctx tenant false fuel ss h' e).1 →
      pageRequests (sweepStatuses db c ctx tenant true fuel ss h e).1 =
        pageRequests (sweepStatuses db c ctx tenant false fuel ss h' e).1 ∧
      (sweepStatuses db c ctx tenant true fuel ss h e).2 =
        (sweepStatuses db c ctx tenant false fuel ss h' e).2 := by
  intro ss
  induction ss with
  | nil => intro h h' e _; simp [sweepStatuses]
  | cons s ss ih =>
    intro h h' e hno
    rw [sweepStatuses] at hno ⊢
    rw [sweepStatuses]
    rcases ho : (updateDevicesStatus db c ctx tenant s false fuel h' 0).2 with err | _
    · simp only [ho] at hno
      obtain ⟨u1, u2⟩ := updateDevicesStatus_dryrun_pages db c ctx tenant s hdb fuel h h' 0
        (NoSinkFailure.left _ _ hno)
      obtain ⟨i1, i2⟩ := ih (h ++ (updateDevicesStatus db c ctx tenant s true fuel h 0).1)
        (h' ++ (updateDevicesStatus db c ctx tenant s false fuel h' 0).1)
        (if err ≠ none then err else e) (NoSinkFailure.right _ _ hno)
      rw [ho] at u2
      simp only [ho, u2, pageRequests_append, u1, i1, i2]
      constructor <;> first | rfl | trivial
    · simp only [ho] at hno
      obtain ⟨u1, u2⟩ := updateDevicesStatus_dryrun_pages db c ctx tenant s hdb fuel h h' 0 hno
      rw [ho] at u2
      simp only [ho, u2, u1]
      constructor <;> first | rfl | trivial

theorem setDevicesIdentity_pages (c : Client V) (ctx : Ctx) (tenant : String) :
    ∀ (devices : List (Device V)) (h : List (Event V)),
      pageRequests (setDevicesIdentity c ctx tenant devices h).1 = [] ∧
      (NoSinkFailure (setDevicesIdentity c ctx tenant devices h).1 →
        (setDevicesIdentity c ctx tenant devices h).2 = none) := by
  intro devices
  induction devices with
  | nil => intro h; simp [setDevicesIdentity, pageRequests]
  | cons d ds ih =>
    intro h
    rw [setDevicesIdentity]
    rcases hs : c.SetDeviceIdentity h ctx tenant d.Id d.IdDataStruct with _ | err
    · simp only
      obtain ⟨i1, i2⟩ := ih (h ++ [Event.setDeviceIdentity ctx tenant d.Id d.IdDataStruct none])
      refine ⟨?_, ?_⟩
      · have : pageRequests [Event.setDeviceIdentity ctx tenant d.Id d.IdDataStruct none] = [] :=
          rfl
        rw [← List.singleton_append, pageRequests_append, this, i1]
        rfl
      · intro hno
        exact i2 (NoSinkFailure.right [_] _ hno)
    · simp only
      refine ⟨rfl, ?_⟩
      intro hno
      have := hno (Event.setDeviceIdentity ctx tenant d.Id d.IdDataStruct (some err))
        (by simp) rfl
      simp [Event.failed] at this

theorem updateDevicesIdData_dryrun_pages (db : DataStore V) (c : Client V) (ctx : Ctx)
    (tenant : String) (hdb : Unchanged db) :
    ∀ (fuel : Nat) (h h' : List (Event V)) (skip : Nat),
      NoSinkFailure (updateDevicesIdData db c ctx tenant false fuel h' skip).1 →
      pageRequests (updateDevicesIdData db c ctx tenant true fuel h skip).1 =
        pageRequests (updateDevicesIdData db c ctx tenant false fuel h' skip).1 ∧
      (updateDevicesIdData db c ctx tenant true fuel h skip).2 =
        (updateDevicesIdData db c ctx tenant false fuel h' skip).2 := by
  intro fuel
  induction fuel with
  | zero => intro h h' skip _; simp [updateDevicesIdData]
  | succ fuel ih =>
    intro h h' skip hno
    have hsame := hdb.2 h h' ctx skip devicesBatchSize none
    rcases hres : db.GetDevices h' ctx skip devicesBatchSize none with err | devices
    · rw [updateDevicesIdData_error db c ctx tenant true fuel h skip err (hsame.trans hres),
        updateDevicesIdData_error db c ctx tenant false fuel h' skip err hres]
      exact ⟨rfl, rfl⟩
    · rw [updateDevicesIdData_ok db c ctx tenant false fuel h' skip devices hres] at hno ⊢
      rw [updateDevicesIdData_ok db c ctx tenant true fuel h skip devices (hsame.trans hres)]
      have htrue : ∀ hh, idDataSinkStep c ctx tenant true hh devices = ([], none) := fun _ => rfl
      have hfalse : ∀ hh, idDataSinkStep c ctx tenant false hh devices =
          setDevicesIdentity c ctx tenant devices hh := fun _ => rfl
      simp only [htrue, hfalse] at hno ⊢
      by_cases hempty : devices.length < 1
      · simp only [if_pos hempty]
        constructor <;> first | rfl | trivial
      · simp only [if_neg hempty] at hno ⊢
        obtain ⟨p1, p2⟩ := setDevicesIdentity_pages c ctx tenant devices
          (h' ++ [Event.getDevices ctx skip devicesBatchSize none (Except.ok devices)])
        rcases hs : (setDevicesIdentity c ctx tenant devices
          (h' ++ [Event.getDevices ctx skip devicesBatchSize none (Except.ok devices)])).2
          with _ | err
        · simp only [hs] at hno ⊢
          by_cases hshort : devices.length < devicesBatchSize
          · simp only [if_pos hshort]
            refine ⟨?_, by first | rfl | trivial⟩
            rw [pageRequests_cons_getDevices, pageRequests_cons_getDevices, p1]
            rfl
          · simp only [if_neg hshort] at hno ⊢
            obtain ⟨i1, i2⟩ := ih
              (h ++ [Event.getDevices ctx skip devicesBatchSize none (Except.ok devices)])
              (h' ++ Event.getDevices ctx skip devicesBatchSize none (Except.ok devices) ::
                (setDevicesIdentity c ctx tenant devices
                  (h' ++ [Event.getDevices ctx skip devicesBatchSize none
                    (Except.ok devices)])).1)
              ((skip + devicesBatchSize) % uintMod)
              (by
                rw [← List.singleton_append, List.append_assoc] at hno
                exact NoSinkFailure.right _ _ (NoSinkFailure.right _ _ hno))
            refine ⟨?_, i2⟩
            simp only [List.cons_append, List.nil_append, pageRequests_cons_getDevices,
              pageRequests_append, p1]
            rw [i1]
        · simp only [hs] at hno
          have h0 := p2 (fun e he => hno e (List.mem_cons_of_mem _ he))
          rw [hs] at h0
          cases h0

theorem propagateDevices_pages (x : Externals V) (c : Client V) (tenant : String)
    (dryrun : Bool) :
    ∀ (ds : List (Device V)) (h : List (Event V)) (errs : Bool),
      pageRequests (propagateDevices x c tenant dryrun ds h errs).1 = [] := by
  intro ds
  induction ds with
  | nil => intro h errs; rfl
  | cons d ds ih =>
    intro h errs
    rw [propagateDevices]
    simp only [pageRequests_append, ih, List.append_nil]
    unfold propagateSingleDevice
    split
    · rfl
    · split <;> rfl

theorem inventoryLoop_dryrun_pages (x : Externals V) (db : DataStore V) (c c' : Client V)
    (ctx : Ctx) (tenant : String) (dryrun dryrun' : Bool) (hdb : Unchanged db) :
    ∀ (fuel : Nat) (h h' : List (Event V)) (skip : Nat) (errs errs' : Bool),
      pageRequests (inventoryLoop x db c ctx tenant dryrun fuel h skip errs).1 =
        pageRequests (inventoryLoop x db c' ctx tenant dryrun' fuel h' skip errs').1 ∧
      ((inventoryLoop x db c ctx tenant dryrun fuel h skip errs).2 = none ↔
        (inventoryLoop x db c' ctx tenant dryrun' fuel h' skip errs').2 = none) := by
  intro fuel
  induction fuel with
  | zero => intro h h' skip errs errs'; simp [inventoryLoop]
  | succ fuel ih =>
    intro h h' skip errs errs'
    have hsame := hdb.2 h h' ctx skip 100 none
    rcases hres : db.GetDevices h' ctx skip 100 none with err | devs
    · rw [inventoryLoop_error x db c ctx tenant dryrun fuel h skip errs err (hsame.trans hres),
        inventoryLoop_error x db c' ctx tenant dryrun' fuel h' skip errs' err hres]
      simp
    · rw [inventoryLoop_ok x db c ctx tenant dryrun fuel h skip errs devs (hsame.trans hres),
        inventoryLoop_ok x db c' ctx tenant dryrun' fuel h' skip errs' devs hres]
      simp only
      by_cases hshort : devs.length < 100
      · simp only [if_pos hshort, pageRequests_cons_getDevices, propagateDevices_pages]
        simp
      · simp only [if_neg hshort, pageRequests_cons_getDevices, pageRequests_append,
          propagateDevices_pages, List.nil_append]
        obtain ⟨i1, i2⟩ := ih
          (h ++ Event.getDevices ctx skip 100 none (Except.ok devs) ::
            (propagateDevices x c tenant dryrun devs
              (h ++ [Event.getDevices ctx skip 100 none (Except.ok devs)]) errs).1)
          (h' ++ Event.getDevices ctx skip 100 none (Except.ok devs) ::
            (propagateDevices x c' tenant dryrun' devs
              (h' ++ [Event.getDevices ctx skip 100 none (Except.ok devs)]) errs').1)
          ((skip + 100) % uintMod)
          (propagateDevices x c tenant dryrun devs
            (h ++ [Event.getDevices ctx skip 100 none (Except.ok devs)]) errs).2
          (propagateDevices x c' tenant dryrun' devs
            (h' ++ [Event.getDevices ctx skip 100 none (Except.ok devs)]) errs').2
        exact ⟨by rw [i1], i2⟩

theorem selectDbs_unchanged (x : Externals V) (db : DataStore V) (tenant : String)
    (hdb : Unchanged db) (h h' : List (Event V)) :
    selectDbs x db tenant h = selectDbs x db tenant h' := by
  unfold selectDbs
  rw [hdb.1 h h']

theorem pageRequests_selectDbs (x : Externals V) (db : DataStore V) (tenant : String)
    (h : List (Event V)) : pageRequests (selectDbs x db tenant h).1 = [] := by
  unfold selectDbs
  by_cases ht : tenant ≠ ""
  · rw [if_pos ht]; rfl
  · rw [if_neg ht]
    rcases hres : db.GetTenantDbs h with err | tdbs
    · rfl
    · simp only
      split <;> rfl

theorem tryPropagateInventoryForDb_dryrun_pages (x : Externals V) (db : DataStore V)
    (c c' : Client V) (dbname : String) (dryrun dryrun' : Bool) (fuel : Nat)
    (h h' : List (Event V)) (hdb : Unchanged db) :
    pageRequests (tryPropagateInventoryForDb x db c dbname dryrun fuel h).1 =
      pageRequests (tryPropagateInventoryForDb x db c' dbname dryrun' fuel h').1 ∧
    ((tryPropagateInventoryForDb x db c dbname dryrun fuel h).2 = Outcome.outOfFuel ↔
      (tryPropagateInventoryForDb x db c' dbname dryrun' fuel h').2 = Outcome.outOfFuel) := by
  obtain ⟨i1, i2⟩ := inventoryLoop_dryrun_pages x db c c'
    (mkCtx (x.TenantFromDbName dbname x.DbName)) (x.TenantFromDbName dbname x.DbName)
    dryrun dryrun' hdb fuel h h' 0 false false
  refine ⟨?_, ?_⟩
  · rw [tryPropagateInventoryForDb_events, tryPropagateInventoryForDb_events, i1]
  · have key : ∀ (cc : Client V) (dd : Bool) (hh : List (Event V)),
        ((tryPropagateInventoryForDb x db cc dbname dd fuel hh).2 = Outcome.outOfFuel ↔
          (inventoryLoop x db cc (mkCtx (x.TenantFromDbName dbname x.DbName))
            (x.TenantFromDbName dbname x.DbName) dd fuel hh 0 false).2 = none) := by
      intro cc dd hh
      unfold tryPropagateInventoryForDb
      simp only
      split
      · rename_i h0; simp [h0]
      · rename_i h0; simp [h0]
      · rename_i h0; simp [h0]
    rw [key, key, i2]

theorem propagateInventoryDbs_dryrun_pages (x : Externals V) (db : DataStore V)
    (c c' : Client V) (dryrun dryrun' : Bool) (fuel : Nat) (hdb : Unchanged db) :
    ∀ (ds : List String) (h h' : List (Event V)),
      pageRequests (propagateInventoryDbs x db c dryrun fuel ds h).1 =
        pageRequests (propagateInventoryDbs x db c' dryrun' fuel ds h').1 := by
  intro ds
  induction ds with
  | nil => intro h h'; rfl
  | cons d ds ih =>
    intro h h'
    obtain ⟨i1, i2⟩ := tryPropagateInventoryForDb_dryrun_pages x db c c' d dryrun dryrun' fuel
      h h' hdb
    rw [propagateInventoryDbs, propagateInventoryDbs]
    rcases ho : (tryPropagateInventoryForDb x db c d dryrun fuel h).2 with err | _
    · rcases ho' : (tryPropagateInventoryForDb x db c' d dryrun' fuel h').2 with err' | _
      · simp only [ho, ho', pageRequests_append, i1]
        rw [ih]
      · exact absurd (i2.2 ho') (by rw [ho]; simp)
    · have ho' := i2.1 ho
      simp only [ho, ho', i1]

theorem tryPropagateStatusesInventoryForDb_dryrun_pages (x : Externals V) (db : DataStore V)
    (c : Client V) (dbname migrationVersion : String) (fuel : Nat) (h h' : List (Event V))
    (hdb : Unchanged db)
    (hno : NoSinkFailure
      (tryPropagateStatusesInventoryForDb x db c dbname migrationVersion false fuel h').1) :
    pageRequests (tryPropagateStatusesInventoryForDb x db c dbname migrationVersion true fuel h).1 =
      pageRequests
        (tryPropagateStatusesInventoryForDb x db c dbname migrationVersion false fuel h').1 ∧
    ((tryPropagateStatusesInventoryForDb x db c dbname migrationVersion true fuel h).2 =
        Outcome.outOfFuel ↔
      (tryPropagateStatusesInventoryForDb x db c dbname migrationVersion false fuel h').2 =
        Outcome.outOfFuel) := by
  have hsc : ∀ dd hh ee, pageRequests (storeCheckpoint x db
      (mkCtx (x.TenantFromDbName dbname x.DbName)) migrationVersion dd hh ee).1 = [] := by
    intro dd hh ee
    rcases storeCheckpoint_events x db (mkCtx (x.TenantFromDbName dbname x.DbName))
      migrationVersion dd hh ee with h0 | ⟨_, -, -, -, -, h1⟩
    · rw [h0]; rfl
    · rw [h1]; rfl
  unfold tryPropagateStatusesInventoryForDb at hno ⊢
  simp only at hno ⊢
  have hno' : NoSinkFailure (sweepStatuses db c (mkCtx (x.TenantFromDbName dbname x.DbName))
      (x.TenantFromDbName dbname x.DbName) false fuel statuses h' none).1 := by
    rcases hsw : (sweepStatuses db c (mkCtx (x.TenantFromDbName dbname x.DbName))
      (x.TenantFromDbName dbname x.DbName) false fuel statuses h' none).2 with _ | e
    · simp only [hsw] at hno
      exact hno
    · simp only [hsw] at hno
      exact NoSinkFailure.left _ _ hno
  obtain ⟨i1, i2⟩ := sweepStatuses_dryrun_pages db c (mkCtx (x.TenantFromDbName dbname x.DbName))
    (x.TenantFromDbName dbname x.DbName) fuel hdb statuses h h' none hno'
  rcases hsw : (sweepStatuses db c (mkCtx (x.TenantFromDbName dbname x.DbName))
    (x.TenantFromDbName dbname x.DbName) false fuel statuses h' none).2 with _ | e
  · rw [hsw] at i2
    simp only [hsw, i2, i1]
    simp
  · rw [hsw] at i2
    simp only [hsw, i2, pageRequests_append, i1, hsc]
    simp

theorem propagateStatusesDbs_dryrun_pages (x : Externals V) (db : DataStore V) (c : Client V)
    (migrationVersion : String) (fuel : Nat) (hdb : Unchanged db) :
    ∀ (ds : List String) (h h' : List (Event V)) (e e' : Option Err),
      NoSinkFailure (propagateStatusesDbs x db c migrationVersion false fuel ds h' e').1 →
      pageRequests (propagateStatusesDbs x db c migrationVersion true fuel ds h e).1 =
        pageRequests (propagateStatusesDbs x db c migrationVersion false fuel ds h' e').1 := by
  intro ds
  induction ds with
  | nil => intro h h' e e' _; rfl
  | cons d ds ih =>
    intro h h' e e' hno
    rw [propagateStatusesDbs] at hno ⊢
    rw [propagateStatusesDbs]
    rcases ho' : (tryPropagateStatusesInventoryForDb x db c d migrationVersion false fuel h').2
      with err' | _
    · simp only [ho'] at hno
      obtain ⟨i1, i2⟩ := tryPropagateStatusesInventoryForDb_dryrun_pages x db c d
        migrationVersion fuel h h' hdb (NoSinkFailure.left _ _ hno)
      rcases ho : (tryPropagateStatusesInventoryForDb x db c d migrationVersion true fuel h).2
        with err | _
      · simp only [ho, ho', pageRequests_append, i1]
        rw [ih _ _ _ _ (NoSinkFailure.right _ _ hno)]
      · exact absurd (i2.1 ho) (by rw [ho']; simp)
    · simp only [ho'] at hno
      obtain ⟨i1, i2⟩ := tryPropagateStatusesInventoryForDb_dryrun_pages x db c d
        migrationVersion fuel h h' hdb hno
      have ho := i2.2 ho'
      simp only [ho, ho', i1]

theorem propagateIdDataDbs_dryrun_pages (x : Externals V) (db : DataStore V) (c : Client V)
    (fuel : Nat) (hdb : Unchanged db) :
    ∀ (ds : List String) (h h' : List (Event V)) (e e' : Option Err),
      NoSinkFailure (propagateIdDataDbs x db c false fuel ds h' e').1 →
      pageRequests (propagateIdDataDbs x db c true fuel ds h e).1 =
        pageRequests (propagateIdDataDbs x db c false fuel ds h' e').1 := by
  intro ds
  induction ds with
  | nil => intro h h' e e' _; rfl
  | cons d ds ih =>
    intro h h' e e' hno
    rw [propagateIdDataDbs] at hno ⊢
    rw [propagateIdDataDbs]
    rcases ho' : (tryPropagateIdDataInventoryForDb x db c d false fuel h').2 with err' | _
    · simp only [ho'] at hno
      obtain ⟨i1, i2⟩ := updateDevicesIdData_dryrun_pages db c
        (mkCtx (x.TenantFromDbName d x.DbName)) (x.TenantFromDbName d x.DbName) hdb fuel h h' 0
        (NoSinkFailure.left _ _ hno)
      have ho : (tryPropagateIdDataInventoryForDb x db c d true fuel h).2 = Outcome.done err' :=
        i2.trans ho'
      simp only [ho, ho', pageRequests_append]
      rw [ih _ _ _ _ (NoSinkFailure.right _ _ hno)]
      unfold tryPropagateIdDataInventoryForDb
      rw [i1]
    · simp only [ho'] at hno
      obtain ⟨i1, i2⟩ := updateDevicesIdData_dryrun_pages db c
        (mkCtx (x.TenantFromDbName d x.DbName)) (x.TenantFromDbName d x.DbName) hdb fuel h h' 0
        hno
      have ho : (tryPropagateIdDataInventoryForDb x db c d true fuel h).2 = Outcome.outOfFuel :=
        i2.trans ho'
      simp only [ho, ho']
      unfold tryPropagateIdDataInventoryForDb
      rw [i1]
/-- C8, amended: over an unchanged store, the `GetDevices` page requests of a dry-run equal
those of a non-dry-run in full-listing mode for every sink, and in status mode and in
identity-data mode whenever no sink call of the non-dry-run fails. -/
theorem dryrun_same_pages (x : Externals V) (db : DataStore V) (c : Client V)
    (tenant migrationVersion : String) (fuel : Nat) (h h' : List (Event V))
    (hdb : Unchanged db) :
    pageRequests (PropagateInventory x db c tenant true fuel h).1 =
      pageRequests (PropagateInventory x db c tenant false fuel h').1 ∧
    (NoSinkFailure (PropagateStatusesInventory x db c tenant migrationVersion false fuel h').1 →
      pageRequests (PropagateStatusesInventory x db c tenant migrationVersion true fuel h).1 =
        pageRequests (PropagateStatusesInventory x db c tenant migrationVersion false fuel h').1) ∧
    (NoSinkFailure (PropagateIdDataInventory x db c tenant false fuel h').1 →
      pageRequests (PropagateIdDataInventory x db c tenant true fuel h).1 =
        pageRequests (PropagateIdDataInventory x db c tenant false fuel h').1) := by
  have hsel := selectDbs_unchanged x db tenant hdb h h'
  refine ⟨?_, ?_, ?_⟩
  · unfold PropagateInventory
    simp only [hsel]
    rcases (selectDbs x db tenant h').2 with err | dbs
    · rfl
    · simp only [pageRequests_append]
      rw [propagateInventoryDbs_dryrun_pages x db c c true false fuel hdb dbs
        (h ++ (selectDbs x db tenant h').1) (h' ++ (selectDbs x db tenant h').1)]
  · unfold PropagateStatusesInventory
    simp only [hsel]
    rcases (selectDbs x db tenant h').2 with err | dbs
    · intro _; rfl
    · simp only [pageRequests_append]
      intro hno
      rw [propagateStatusesDbs_dryrun_pages x db c migrationVersion fuel hdb dbs
        (h ++ (selectDbs x db tenant h').1) (h' ++ (selectDbs x db tenant h').1) none none
        (NoSinkFailure.right _ _ hno)]
  · unfold PropagateIdDataInventory
    simp only [hsel]
    rcases (selectDbs x db tenant h').2 with err | dbs
    · intro _; rfl
    · simp only [pageRequests_append]
      intro hno
      rw [propagateIdDataDbs_dryrun_pages x db c fuel hdb dbs
        (h ++ (selectDbs x db tenant h').1) (h' ++ (selectDbs x db tenant h').1) none none
        (NoSinkFailure.right _ _ hno)]

/-- Witness for C8: full-listing mode over the small store with a sink that always fails. -/
theorem dryrun_same_pages_witness :
    Unchanged (pagingStore [] recsSmall) ∧
    pageRequests (PropagateInventory sampleExternals (pagingStore [] recsSmall) failingClient ""
        true 1 []).1 =
      pageRequests (PropagateInventory sampleExternals (pagingStore [] recsSmall) failingClient ""
        false 1 []).1 :=
  ⟨⟨fun _ _ => rfl, fun _ _ _ _ _ _ => rfl⟩,
    (dryrun_same_pages sampleExternals (pagingStore [] recsSmall) failingClient "" "" 1 [] []
      ⟨fun _ _ => rfl, fun _ _ _ _ _ _ => rfl⟩).1⟩

set_option maxRecDepth 1000000 in
/-- C8, as stated, fails: in status mode over 513 accepted devices and in identity-data
mode over 513 devices, with a sink whose calls fail, the dry-run fetches the page at
offset 512 and the non-dry-run does not. -/
theorem dryrun_same_pages_counterexample :
    ¬ (pageRequests (PropagateStatusesInventory sampleExternals (pagingStore [] recs513)
          failingClient "" "" true 2 []).1 =
        pageRequests (PropagateStatusesInventory sampleExternals (pagingStore [] recs513)
          failingClient "" "" false 2 []).1) ∧
    ¬ (pageRequests (PropagateIdDataInventory sampleExternals (pagingStore [] recs513)
          failingClient "" true 2 []).1 =
        pageRequests (PropagateIdDataInventory sampleExternals (pagingStore [] recs513)
          failingClient "" false 2 []).1) := by
  decide

/-! ## The attribute mapper -/

theorem encodeAttrs_ok (x : Externals V) :
    ∀ (id : List (String × V)) (out : List Attribute),
      (∀ kv ∈ id, ∃ s, x.jsonMarshal kv.2 = Except.ok s) →
      encodeAttrs x id out = Except.ok (out ++ id.filterMap (attrOf x)) := by
  intro id
  induction id with
  | nil => intro out _; simp [encodeAttrs]
  | cons kv id ih =>
    intro out hser
    obtain ⟨k, v⟩ := kv
    obtain ⟨s, hs⟩ := hser (k, v) (List.mem_cons_self _ _)
    simp only at hs
    rw [encodeAttrs]
    simp only [hs]
    rw [ih _ fun kv hkv => hser kv (List.mem_cons_of_mem _ hkv)]
    simp [attrOf, hs]

theorem encodeAttrs_error (x : Externals V) :
    ∀ (id : List (String × V)) (out : List Attribute),
      (∃ kv ∈ id, ∃ e, x.jsonMarshal kv.2 = Except.error e) →
      ∃ err, encodeAttrs x id out = Except.error err := by
  intro id
  induction id with
  | nil => intro out h; obtain ⟨kv, hkv, -⟩ := h; cases hkv
  | cons kv id ih =>
    intro out hex
    obtain ⟨k, v⟩ := kv
    rw [encodeAttrs]
    rcases hm : x.jsonMarshal v with e | s
    · exact ⟨_, rfl⟩
    · simp only
      apply ih
      obtain ⟨kv', hkv', e, he⟩ := hex
      rcases List.mem_cons.1 hkv' with rfl | hmem
      · simp only [hm] at he
        cases he
      · exact ⟨kv', hmem, e, he⟩

theorem lookup_of_mem_nodup {α : Type} :
    ∀ (id : List (String × α)), (id.map Prod.fst).Nodup →
      ∀ kv ∈ id, id.lookup kv.1 = some kv.2 := by
  intro id
  induction id with
  | nil => intro _ kv hkv; cases hkv
  | cons a id ih =>
    intro hnd kv hkv
    obtain ⟨k0, v0⟩ := a
    simp only [List.map_cons, List.nodup_cons] at hnd
    rcases List.mem_cons.1 hkv with rfl | hmem
    · simp [List.lookup]
    · have hne : kv.1 ≠ k0 := by
        intro heq
        apply hnd.1
        rw [← heq]
        exact List.mem_map_of_mem Prod.fst hmem
      rw [List.lookup_cons]
      have : (kv.1 == k0) = false := by simpa using hne
      rw [this]
      exact ih hnd.2 kv hmem

theorem attrOf_name (x : Externals V) (kv : String × V) (a : Attribute)
    (ha : attrOf x kv = some a) :
    a.Name = kv.1 ∧ a.Scope = "identity" ∧ x.jsonMarshal kv.2 = Except.ok a.Value := by
  unfold attrOf at ha
  split at ha
  · rename_i venc hm
    cases ha
    exact ⟨rfl, rfl, hm⟩
  · cases ha

theorem specAttrs_perm (x : Externals V) (id : List (String × V))
    (hkeys : (id.map Prod.fst).Nodup) :
    (specAttrs x id).Perm (id.filterMap (attrOf x)) := by
  unfold specAttrs
  have h1 := (List.perm_insertionSort (fun a b : String => a ≤ b) (id.map Prod.fst)).filterMap
    (fun k => (id.lookup k).bind fun v => attrOf x (k, v))
  refine h1.trans ?_
  rw [List.filterMap_map]
  apply List.Perm.of_eq
  apply List.filterMap_congr
  intro kv hkv
  simp only [Function.comp, lookup_of_mem_nodup id hkeys kv hkv, Option.some_bind]

theorem specAttrs_sorted (x : Externals V) (id : List (String × V))
    (hkeys : (id.map Prod.fst).Nodup) :
    (specAttrs x id).Pairwise fun a b => a.Name < b.Name := by
  unfold specAttrs
  have hs : ((id.map Prod.fst).insertionSort fun a b => a ≤ b).Pairwise (fun a b : String => a ≤ b) :=
    List.sorted_insertionSort (fun a b : String => a ≤ b) _
  have hn : ((id.map Prod.fst).insertionSort fun a b => a ≤ b).Nodup :=
    (List.perm_insertionSort (fun a b : String => a ≤ b) (id.map Prod.fst)).nodup_iff.2 hkeys
  have hlt : ((id.map Prod.fst).insertionSort fun a b => a ≤ b).Pairwise
      (fun a b : String => a < b) :=
    (hs.and hn).imp fun ⟨h1, h2⟩ => lt_of_le_of_ne h1 h2
  refine List.Pairwise.filterMap _ ?_ hlt
  intro k k' hkk a ha a' ha'
  simp only [Option.mem_def, Option.bind_eq_some] at ha ha'
  obtain ⟨v, -, hv⟩ := ha
  obtain ⟨v', -, hv'⟩ := ha'
  rw [(attrOf_name x _ a hv).1, (attrOf_name x _ a' hv').1]
  exact hkk

theorem lessByName_eq_false (a b : Attribute) : lessByName b a = false ↔ a.Name ≤ b.Name := by
  simp [lessByName]

theorem filterMap_attrOf_names (x : Externals V) :
    ∀ (id : List (String × V)),
      ((id.filterMap (attrOf x)).map fun a => a.Name).Sublist (id.map Prod.fst) := by
  intro id
  induction id with
  | nil => simp
  | cons kv id ih =>
    rw [List.filterMap_cons]
    rcases ha : attrOf x kv with _ | a
    · simp only [List.map_cons]
      exact ih.cons _
    · simp only [List.map_cons]
      rw [(attrOf_name x kv a ha).1]
      exact ih.cons₂ _

theorem filterMap_attrOf_length (x : Externals V) :
    ∀ (id : List (String × V)), (∀ kv ∈ id, ∃ s, x.jsonMarshal kv.2 = Except.ok s) →
      (id.filterMap (attrOf x)).length = id.length := by
  intro id
  induction id with
  | nil => intro _; rfl
  | cons kv id ih =>
    intro hser
    obtain ⟨s, hs⟩ := hser kv (List.mem_cons_self _ _)
    rw [List.filterMap_cons]
    simp only [attrOf, hs, List.length_cons]
    rw [ih fun kv hkv => hser kv (List.mem_cons_of_mem _ hkv)]

theorem sortSlice_sorted (x : Externals V) (id : List (String × V))
    (hkeys : (id.map Prod.fst).Nodup) (hsort : SortsByName x.sortSlice) :
    (x.sortSlice lessByName (id.filterMap (attrOf x))).Pairwise fun a b => a.Name < b.Name := by
  obtain ⟨hperm, hpw⟩ := hsort (id.filterMap (attrOf x))
  have hnd : ((x.sortSlice lessByName (id.filterMap (attrOf x))).map fun a => a.Name).Nodup :=
    (hperm.map _).nodup_iff.2 ((filterMap_attrOf_names x id).nodup hkeys)
  have hne : (x.sortSlice lessByName (id.filterMap (attrOf x))).Pairwise
      fun a b => a.Name ≠ b.Name := by
    rw [List.Nodup, List.pairwise_map] at hnd
    exact hnd
  exact (hpw.and hne).imp fun ⟨h1, h2⟩ =>
    lt_of_le_of_ne ((lessByName_eq_false _ _).1 h1) h2

theorem sortSlice_eq_specAttrs (x : Externals V) (id : List (String × V))
    (hkeys : (id.map Prod.fst).Nodup) (hsort : SortsByName x.sortSlice) :
    x.sortSlice lessByName (id.filterMap (attrOf x)) = specAttrs x id := by
  haveI : IsAntisymm Attribute (fun a b => a.Name < b.Name) :=
    ⟨fun a b h1 h2 => absurd h1 (lt_asymm h2)⟩
  exact List.eq_of_perm_of_sorted
    ((hsort (id.filterMap (attrOf x))).1.trans (specAttrs_perm x id hkeys).symm)
    (sortSlice_sorted x id hkeys hsort) (specAttrs_sorted x id hkeys)

theorem idDataToInventoryAttrs_ok (x : Externals V) (id : List (String × V))
    (hkeys : (id.map Prod.fst).Nodup)
    (hser : ∀ kv ∈ id, ∃ s, x.jsonMarshal kv.2 = Except.ok s)
    (hsort : SortsByName x.sortSlice) :
    idDataToInventoryAttrs x id = Except.ok (specAttrs x id) := by
  unfold idDataToInventoryAttrs
  rw [encodeAttrs_ok x id [] hser]
  simp only [List.nil_append]
  rw [sortSlice_eq_specAttrs x id hkeys hsort]

theorem specAttrs_names (x : Externals V) (id : List (String × V))
    (hkeys : (id.map Prod.fst).Nodup)
    (hser : ∀ kv ∈ id, ∃ s, x.jsonMarshal kv.2 = Except.ok s) :
    (specAttrs x id).map (fun a => a.Name) =
      (id.map Prod.fst).insertionSort fun a b => a ≤ b := by
  unfold specAttrs
  have hmem : ∀ k ∈ (id.map Prod.fst).insertionSort (fun a b => a ≤ b),
      ∃ a, ((id.lookup k).bind fun v => attrOf x (k, v)) = some a ∧ a.Name = k := by
    intro k hk
    have hk' : k ∈ id.map Prod.fst :=
      (List.perm_insertionSort (fun a b : String => a ≤ b) (id.map Prod.fst)).mem_iff.1 hk
    obtain ⟨kv, hkv, rfl⟩ := List.mem_map.1 hk'
    obtain ⟨s, hs⟩ := hser kv hkv
    refine ⟨⟨kv.1, "identity", s⟩, ?_, rfl⟩
    rw [lookup_of_mem_nodup id hkeys kv hkv]
    simp [attrOf, hs]
  generalize (id.map Prod.fst).insertionSort (fun a b => a ≤ b) = l at hmem
  induction l with
  | nil => rfl
  | cons k l ih =>
    obtain ⟨a, ha, hname⟩ := hmem k (List.mem_cons_self _ _)
    rw [List.filterMap_cons, ha]
    simp only [List.map_cons, hname]
    rw [ih fun k' hk' => hmem k' (List.mem_cons_of_mem _ hk')]

theorem sampleSort_sortsByName : SortsByName sampleSort := by
  intro l
  haveI : IsTotal Attribute (fun a b => lessByName b a = false) :=
    ⟨fun a b => by
      simp only [lessByName_eq_false]
      exact le_total a.Name b.Name⟩
  haveI : IsTrans Attribute (fun a b => lessByName b a = false) :=
    ⟨fun a b c h1 h2 => by
      simp only [lessByName_eq_false] at *
      exact le_trans h1 h2⟩
  exact ⟨List.perm_insertionSort _ l, List.sorted_insertionSort _ l⟩

/-- C9: for a payload with unique keys all of whose values serialize, and a `sort.Slice`
that meets its contract, `idDataToInventoryAttrs` returns exactly `specAttrs`: the keys
in ascending order, each mapped to the attribute of that name, of scope `identity`, whose
value is the JSON encoding of the payload value. The list has one attribute per key, its
names are the sorted keys, it is strictly ascending by name, and its name and scope pairs
are pairwise distinct. -/
theorem idDataToInventoryAttrs_spec (x : Externals V) (id : List (String × V))
    (hkeys : (id.map Prod.fst).Nodup)
    (hser : ∀ kv ∈ id, ∃ s, x.jsonMarshal kv.2 = Except.ok s)
    (hsort : SortsByName x.sortSlice) :
    idDataToInventoryAttrs x id = Except.ok (specAttrs x id) ∧
    (specAttrs x id).length = id.length ∧
    (specAttrs x id).map (fun a => a.Name) =
      ((id.map Prod.fst).insertionSort fun a b => a ≤ b) ∧
    (∀ a ∈ specAttrs x id, a.Scope = "identity" ∧
      ∃ v, (a.Name, v) ∈ id ∧ x.jsonMarshal v = Except.ok a.Value) ∧
    (specAttrs x id).Pairwise (fun a b => a.Name < b.Name) ∧
    ((specAttrs x id).map fun a => (a.Name, a.Scope)).Nodup := by
  have hsorted := specAttrs_sorted x id hkeys
  refine ⟨idDataToInventoryAttrs_ok x id hkeys hser hsort, ?_, specAttrs_names x id hkeys hser,
    ?_, hsorted, ?_⟩
  · rw [(specAttrs_perm x id hkeys).length_eq, filterMap_attrOf_length x id hser]
  · intro a ha
    have ha' := (specAttrs_perm x id hkeys).mem_iff.1 ha
    obtain ⟨kv, hkv, hattr⟩ := List.mem_filterMap.1 ha'
    obtain ⟨h1, h2, h3⟩ := attrOf_name x kv a hattr
    refine ⟨h2, kv.2, ?_, h3⟩
    rw [h1]
    exact hkv
  · rw [List.Nodup, List.pairwise_map]
    exact hsorted.imp fun hlt heq => absurd (congrArg Prod.fst heq) (ne_of_lt hlt)

/-- Witness for C9: a payload enumerated with `sn` before `mac`. -/
theorem idDataToInventoryAttrs_spec_witness :
    idDataToInventoryAttrs sampleExternals
        [("sn", SampleValue.num 7), ("mac", SampleValue.str "00:11")] =
      Except.ok (specAttrs sampleExternals
        [("sn", SampleValue.num 7), ("mac", SampleValue.str "00:11")]) ∧
    specAttrs sampleExternals [("sn", SampleValue.num 7), ("mac", SampleValue.str "00:11")] =
      [⟨"mac", "identity", "\"00:11\""⟩, ⟨"sn", "identity", "7"⟩] :=
  ⟨(idDataToInventoryAttrs_spec sampleExternals
      [("sn", SampleValue.num 7), ("mac", SampleValue.str "00:11")] (by decide)
      (by
        intro kv hkv
        simp only [List.mem_cons, List.mem_singleton, List.not_mem_nil, or_false] at hkv
        rcases hkv with rfl | rfl
        · exact ⟨_, rfl⟩
        · exact ⟨_, rfl⟩)
      sampleSort_sortsByName).1,
    by simp +decide [specAttrs, attrOf, sampleExternals, sampleMarshal, List.lookup]⟩

theorem exists_marshal_error (x : Externals V) (id : List (String × V))
    (hnot : ¬ ∀ kv ∈ id, ∃ s, x.jsonMarshal kv.2 = Except.ok s) :
    ∃ kv ∈ id, ∃ e, x.jsonMarshal kv.2 = Except.error e := by
  by_contra hcon
  apply hnot
  intro kv hkv
  rcases hm : x.jsonMarshal kv.2 with e | s
  · exact absurd ⟨kv, hkv, e, hm⟩ hcon
  · exact ⟨s, rfl⟩

theorem idDataToInventoryAttrs_error (x : Externals V) (id : List (String × V))
    (hex : ∃ kv ∈ id, ∃ e, x.jsonMarshal kv.2 = Except.error e) :
    (idDataToInventoryAttrs x id).toOption = none := by
  obtain ⟨err, herr⟩ := encodeAttrs_error x id [] hex
  unfold idDataToInventoryAttrs
  rw [herr]
  rfl

theorem specAttrs_perm_eq (x : Externals V) (id1 id2 : List (String × V))
    (hperm : id1.Perm id2) (hkeys : (id1.map Prod.fst).Nodup) :
    specAttrs x id1 = specAttrs x id2 := by
  have hkeys2 : (id2.map Prod.fst).Nodup := (hperm.map Prod.fst).nodup_iff.1 hkeys
  haveI : IsAntisymm Attribute (fun a b => a.Name < b.Name) :=
    ⟨fun a b h1 h2 => absurd h1 (lt_asymm h2)⟩
  exact List.eq_of_perm_of_sorted
    (((specAttrs_perm x id1 hkeys).trans (hperm.filterMap (attrOf x))).trans
      (specAttrs_perm x id2 hkeys2).symm)
    (specAttrs_sorted x id1 hkeys) (specAttrs_sorted x id2 hkeys2)

/-- C10: `idDataToInventoryAttrs` does not depend on the order in which the entries of the
payload are enumerated. For two enumerations of the same entries with unique keys, and
any `sort.Slice` that meets its contract, stable or not, the attribute lists returned are
identical as ordered lists (both absent when some value does not serialize), and when
every value serializes the two results are equal. -/
theorem idDataToInventoryAttrs_order_independent (x : Externals V)
    (id1 id2 : List (String × V)) (hperm : id1.Perm id2) (hkeys : (id1.map Prod.fst).Nodup)
    (hsort : SortsByName x.sortSlice) :
    (idDataToInventoryAttrs x id1).toOption = (idDataToInventoryAttrs x id2).toOption ∧
    ((∀ kv ∈ id1, ∃ s, x.jsonMarshal kv.2 = Except.ok s) →
      idDataToInventoryAttrs x id1 = idDataToInventoryAttrs x id2 ∧
      ∃ attrs, idDataToInventoryAttrs x id1 = Except.ok attrs) := by
  have hkeys2 : (id2.map Prod.fst).Nodup := (hperm.map Prod.fst).nodup_iff.1 hkeys
  have hall : (∀ kv ∈ id1, ∃ s, x.jsonMarshal kv.2 = Except.ok s) →
      idDataToInventoryAttrs x id1 = idDataToInventoryAttrs x id2 ∧
      ∃ attrs, idDataToInventoryAttrs x id1 = Except.ok attrs := by
    intro hser
    have hser2 : ∀ kv ∈ id2, ∃ s, x.jsonMarshal kv.2 = Except.ok s :=
      fun kv hkv => hser kv (hperm.mem_iff.2 hkv)
    rw [idDataToInventoryAttrs_ok x id1 hkeys hser hsort,
      idDataToInventoryAttrs_ok x id2 hkeys2 hser2 hsort, specAttrs_perm_eq x id1 id2 hperm hkeys]
    exact ⟨rfl, _, rfl⟩
  refine ⟨?_, hall⟩
  by_cases hser : ∀ kv ∈ id1, ∃ s, x.jsonMarshal kv.2 = Except.ok s
  · rw [(hall hser).1]
  · obtain ⟨kv, hkv, e, he⟩ := exists_marshal_error x id1 hser
    rw [idDataToInventoryAttrs_error x id1 ⟨kv, hkv, e, he⟩,
      idDataToInventoryAttrs_error x id2 ⟨kv, hperm.mem_iff.1 hkv, e, he⟩]

/-- Witness for C10: the two enumerations of a payload with the keys `sn` and `mac`. -/
theorem idDataToInventoryAttrs_order_independent_witness :
    (idDataToInventoryAttrs sampleExternals
        [("sn", SampleValue.num 7), ("mac", SampleValue.str "00:11")]).toOption =
      (idDataToInventoryAttrs sampleExternals
        [("mac", SampleValue.str "00:11"), ("sn", SampleValue.num 7)]).toOption ∧
    (idDataToInventoryAttrs sampleExternals
        [("mac", SampleValue.str "00:11"), ("sn", SampleValue.num 7)]).toOption =
      some [⟨"mac", "identity", "\"00:11\""⟩, ⟨"sn", "identity", "7"⟩] :=
  ⟨(idDataToInventoryAttrs_order_independent sampleExternals
      [("sn", SampleValue.num 7), ("mac", SampleValue.str "00:11")]
      [("mac", SampleValue.str "00:11"), ("sn", SampleValue.num 7)]
      (List.Perm.swap _ _ _) (by decide) sampleSort_sortsByName).1,
    by simp +decide [idDataToInventoryAttrs, encodeAttrs, sampleExternals, sampleMarshal,
      sampleSort, lessByName, Except.toOption]⟩

/-! ## Failure of the attribute mapper -/

/-- C11: `idDataToInventoryAttrs` fails if and only if some value of the payload does not
serialize; when it fails it returns no attribute list, whichever entries were encoded
before the failing one; and `propagateSingleDevice` then returns that error without any
collaborator call, in dry-run or not. -/
theorem idDataToInventoryAttrs_fails_iff (x : Externals V) (id : List (String × V)) :
    ((∃ err, idDataToInventoryAttrs x id = Except.error err) ↔
      ∃ kv ∈ id, ∃ e, x.jsonMarshal kv.2 = Except.error e) ∧
    ((∃ kv ∈ id, ∃ e, x.jsonMarshal kv.2 = Except.error e) →
      (idDataToInventoryAttrs x id).toOption = none) ∧
    (∀ (c : Client V) (d : Device V) (tenant : String) (dryrun : Bool) (h : List (Event V))
      (err : Err), idDataToInventoryAttrs x d.IdDataStruct = Except.error err →
      propagateSingleDevice x c d tenant dryrun h = ([], some err)) := by
  refine ⟨⟨?_, ?_⟩, idDataToInventoryAttrs_error x id, ?_⟩
  · rintro ⟨err, herr⟩
    by_contra hcon
    have hser : ∀ kv ∈ id, ∃ s, x.jsonMarshal kv.2 = Except.ok s := by
      intro kv hkv
      rcases hm : x.jsonMarshal kv.2 with e | s
      · exact absurd ⟨kv, hkv, e, hm⟩ hcon
      · exact ⟨s, rfl⟩
    unfold idDataToInventoryAttrs at herr
    rw [encodeAttrs_ok x id [] hser] at herr
    cases herr
  · intro hex
    obtain ⟨err, herr⟩ := encodeAttrs_error x id [] hex
    refine ⟨err, ?_⟩
    unfold idDataToInventoryAttrs
    rw [herr]
  · intro c d tenant dryrun h err herr
    unfold propagateSingleDevice
    rw [herr]

/-- Witness for C11: the second value of the payload is a channel. -/
theorem idDataToInventoryAttrs_fails_iff_witness :
    idDataToInventoryAttrs sampleExternals [("sn", SampleValue.num 7), ("ch", SampleValue.chan)] =
      Except.error
        "failed to encode attribute ch, value: 0xc000010000: json: unsupported type: chan int" ∧
    propagateSingleDevice sampleExternals okClient
        ⟨"dev-x", [("sn", SampleValue.num 7), ("ch", SampleValue.chan)]⟩ "" false [] =
      ([], some
        "failed to encode attribute ch, value: 0xc000010000: json: unsupported type: chan int") :=
  ⟨rfl,
    (idDataToInventoryAttrs_fails_iff sampleExternals
      [("sn", SampleValue.num 7), ("ch", SampleValue.chan)]).2.2 okClient
      ⟨"dev-x", [("sn", SampleValue.num 7), ("ch", SampleValue.chan)]⟩ "" false [] _ rfl⟩
/-! ## Tenant selection -/

/-- C14: for a non-empty tenant `selectDbs` returns the one-element list of that tenant's
database and makes no store call; for an empty tenant it returns the store's tenant
database list unchanged when that list is non-empty, and the one-element list of the
default database when it is empty. A list it returns is never empty. -/
theorem selectDbs_spec (x : Externals V) (db : DataStore V) (tenant : String)
    (h : List (Event V)) :
    (tenant ≠ "" →
      selectDbs x db tenant h = ([], Except.ok [x.DbNameForTenant tenant x.DbName])) ∧
    (tenant = "" → ∀ tdbs, db.GetTenantDbs h = Except.ok tdbs → tdbs ≠ [] →
      selectDbs x db tenant h = ([Event.getTenantDbs (Except.ok tdbs)], Except.ok tdbs)) ∧
    (tenant = "" → db.GetTenantDbs h = Except.ok [] →
      selectDbs x db tenant h = ([Event.getTenantDbs (Except.ok [])], Except.ok [x.DbName])) ∧
    (∀ dbs, (selectDbs x db tenant h).2 = Except.ok dbs → dbs ≠ []) := by
  refine ⟨?_, ?_, ?_, ?_⟩
  · intro ht
    unfold selectDbs
    rw [if_pos ht]
  · intro ht tdbs hres hne
    unfold selectDbs
    rw [if_neg (by simpa using ht)]
    simp only [hres]
    rw [if_neg (by simpa using hne)]
  · intro ht hres
    unfold selectDbs
    rw [if_neg (by simpa using ht)]
    simp only [hres]
    rfl
  · intro dbs hdbs
    unfold selectDbs at hdbs
    by_cases ht : tenant ≠ ""
    · rw [if_pos ht] at hdbs
      simp only [Except.ok.injEq] at hdbs
      rw [← hdbs]
      simp
    · rw [if_neg ht] at hdbs
      rcases hres : db.GetTenantDbs h with err | tdbs
      · simp only [hres] at hdbs
        cases hdbs
      · simp only [hres] at hdbs
        by_cases hlen : tdbs.length = 0
        · rw [if_pos hlen] at hdbs
          simp only [Except.ok.injEq] at hdbs
          rw [← hdbs]
          simp
        · rw [if_neg hlen] at hdbs
          simp only [Except.ok.injEq] at hdbs
          rw [← hdbs]
          intro h0
          exact hlen (by rw [h0]; rfl)

/-- Witness for C14: the tenant `t1`, the three-tenant store, and a store without tenant
databases. -/
theorem selectDbs_spec_witness :
    selectDbs sampleExternals (pagingStore threeTenantDbs recsThree) "t1" [] =
      ([], Except.ok ["deviceauth-t1"]) ∧
    selectDbs sampleExternals (pagingStore threeTenantDbs recsThree) "" [] =
      ([Event.getTenantDbs (Except.ok threeTenantDbs)], Except.ok threeTenantDbs) ∧
    selectDbs sampleExternals (pagingStore [] recsSmall) "" [] =
      ([Event.getTenantDbs (Except.ok [])], Except.ok ["deviceauth"]) :=
  ⟨(selectDbs_spec sampleExternals (pagingStore threeTenantDbs recsThree) "t1" []).1 (by decide),
    (selectDbs_spec sampleExternals (pagingStore threeTenantDbs recsThree) "" []).2.1 rfl
      threeTenantDbs rfl (by decide),
    (selectDbs_spec sampleExternals (pagingStore [] recsSmall) "" []).2.2.1 rfl rfl⟩

/-- C15: `selectDbs` fails if and only if no tenant was given and `GetTenantDbs` fails.
Then each of the three entry points returns the wrapped error, and its only collaborator
call is the failed `GetTenantDbs`: no page is fetched, no sink call is made and no
checkpoint is written. -/
theorem selectDbs_failure (x : Externals V) (db : DataStore V) (c : Client V)
    (tenant migrationVersion : String) (dryRun : Bool) (fuel : Nat) (h : List (Event V)) :
    ((∃ err, (selectDbs x db tenant h).2 = Except.error err) ↔
      tenant = "" ∧ ∃ e, db.GetTenantDbs h = Except.error e) ∧
    (∀ e, tenant = "" → db.GetTenantDbs h = Except.error e →
      PropagateInventory x db c tenant dryRun fuel h =
        ([Event.getTenantDbs (Except.error e)],
          Outcome.done (some (wrap (wrap e "failed to retrieve tenant DBs") "aborting"))) ∧
      PropagateStatusesInventory x db c tenant migrationVersion dryRun fuel h =
        ([Event.getTenantDbs (Except.error e)],
          Outcome.done (some (wrap (wrap e "failed to retrieve tenant DBs") "aborting"))) ∧
      PropagateIdDataInventory x db c tenant dryRun fuel h =
        ([Event.getTenantDbs (Except.error e)],
          Outcome.done (some (wrap (wrap e "failed to retrieve tenant DBs") "aborting")))) := by
  refine ⟨?_, ?_⟩
  · rw [← selectDbs_error_iff x db tenant h]
    constructor
    · rintro ⟨err, herr⟩ ⟨dbs, hdbs⟩
      rw [herr] at hdbs
      cases hdbs
    · intro hno
      rcases hsel : (selectDbs x db tenant h).2 with err | dbs
      · exact ⟨err, rfl⟩
      · exact absurd ⟨dbs, hsel⟩ hno
  · intro e ht hres
    have hsel : selectDbs x db tenant h =
        ([Event.getTenantDbs (Except.error e)],
          Except.error (wrap e "failed to retrieve tenant DBs")) := by
      unfold selectDbs
      rw [if_neg (by simpa using ht)]
      simp only [hres]
    refine ⟨?_, ?_, ?_⟩
    · unfold PropagateInventory
      simp only [hsel]
    · unfold PropagateStatusesInventory
      simp only [hsel]
    · unfold PropagateIdDataInventory
      simp only [hsel]

/-- Witness for C15: a store on which tenant discovery fails. -/
theorem selectDbs_failure_witness :
    PropagateStatusesInventory sampleExternals noDiscoveryStore okClient "" "1.2.0" false 1 [] =
      ([Event.getTenantDbs (Except.error "connection lost")],
        Outcome.done (some "aborting: failed to retrieve tenant DBs: connection lost")) :=
  ((selectDbs_failure sampleExternals noDiscoveryStore okClient "" "1.2.0" false 1 []).2
    "connection lost" rfl rfl).2.1
/-! ## A malformed checkpoint label -/

/-- C19: in `tryPropagateStatusesInventoryForDb` with a non-empty label, no dry-run and
four sweeps that returned without error, a label on which `migrate.NewVersion` returns an
error makes the pass return that error; its events are those of the sweeps, so every
status was swept before and `StoreMigrationVersion` is not called. With dry-run enabled
the pass returns nil after the same kind of sweeps and does not depend on
`migrate.NewVersion` at all. -/
theorem malformed_label_fails_pass (x : Externals V) (db : DataStore V) (c : Client V)
    (dbname migrationVersion : String) (fuel : Nat) (h : List (Event V)) :
    (∀ version perr, migrationVersion ≠ "" →
      (sweepStatuses db c (mkCtx (x.TenantFromDbName dbname x.DbName))
        (x.TenantFromDbName dbname x.DbName) false fuel statuses h none).2 = some none →
      x.NewVersion migrationVersion = (version, some perr) →
      tryPropagateStatusesInventoryForDb x db c dbname migrationVersion false fuel h =
        ((sweepStatuses db c (mkCtx (x.TenantFromDbName dbname x.DbName))
          (x.TenantFromDbName dbname x.DbName) false fuel statuses h none).1,
          Outcome.done (some perr)) ∧
      checkpointCalls
        (tryPropagateStatusesInventoryForDb x db c dbname migrationVersion false fuel h).1 = []) ∧
    ((sweepStatuses db c (mkCtx (x.TenantFromDbName dbname x.DbName))
        (x.TenantFromDbName dbname x.DbName) true fuel statuses h none).2 = some none →
      tryPropagateStatusesInventoryForDb x db c dbname migrationVersion true fuel h =
        ((sweepStatuses db c (mkCtx (x.TenantFromDbName dbname x.DbName))
          (x.TenantFromDbName dbname x.DbName) true fuel statuses h none).1,
          Outcome.done none)) ∧
    (∀ newVersion,
      tryPropagateStatusesInventoryForDb { x with NewVersion := newVersion } db c dbname
        migrationVersion true fuel h =
      tryPropagateStatusesInventoryForDb x db c dbname migrationVersion true fuel h) := by
  refine ⟨?_, ?_, ?_⟩
  · intro version perr hmv hsw hv
    have hrun : tryPropagateStatusesInventoryForDb x db c dbname migrationVersion false fuel h =
        ((sweepStatuses db c (mkCtx (x.TenantFromDbName dbname x.DbName))
          (x.TenantFromDbName dbname x.DbName) false fuel statuses h none).1,
          Outcome.done (some perr)) := by
      unfold tryPropagateStatusesInventoryForDb
      simp only [hsw, storeCheckpoint, hv]
      cases version <;> simp [hmv]
    refine ⟨hrun, ?_⟩
    rw [hrun]
    exact checkpointCalls_eq_nil _ fun e he =>
      ((sweepStatuses_shape db c _ _ false fuel statuses h none).1 e he).1
  · intro hsw
    unfold tryPropagateStatusesInventoryForDb
    simp only [hsw, storeCheckpoint]
    simp
  · intro newVersion
    unfold tryPropagateStatusesInventoryForDb
    simp only [storeCheckpoint]
    simp

/-- Witness for C19: the label `bad` on the small store. -/
theorem malformed_label_fails_pass_witness :
    (tryPropagateStatusesInventoryForDb sampleExternals (pagingStore [] recsSmall) okClient
        "deviceauth" "bad" false 1 []).2 = Outcome.done (some "failed to parse Version") ∧
    checkpointCalls (tryPropagateStatusesInventoryForDb sampleExternals
        (pagingStore [] recsSmall) okClient "deviceauth" "bad" false 1 []).1 = [] ∧
    (tryPropagateStatusesInventoryForDb sampleExternals (pagingStore [] recsSmall) okClient
        "deviceauth" "bad" true 1 []).2 = Outcome.done none :=
  ⟨by decide,
    ((malformed_label_fails_pass sampleExternals (pagingStore [] recsSmall) okClient
      "deviceauth" "bad" 1 []).1 none "failed to parse Version" (by decide) (by decide)
      (by decide)).2,
    by decide⟩

/-! ## API limits -/

/-- C18: `ApiLimits.MarshalJSON` always succeeds with a JSON object of the two keys
`bursts` and `quota`, in that order, in which `bursts` is an array, never `null`: the
output does not start with the text of an object whose `bursts` is `null`. A value with
nil `ApiBursts` gives the same bytes as the value with empty `ApiBursts` and the same
quota, and the zero value gives the object with an empty array and a zero quota. -/
theorem ApiLimits.MarshalJSON_bursts_array (jsonString : String → String) (al : ApiLimits) :
    ApiLimits.MarshalJSON jsonString al =
      Except.ok ("\x7b\"bursts\":" ++
        ("[" ++ ",".intercalate ((al.ApiBursts.getD []).map (jsonBurst jsonString)) ++ "]") ++
        ",\"quota\":" ++ jsonQuota al.ApiQuota ++ "\x7d") ∧
    (∀ out, ApiLimits.MarshalJSON jsonString al = Except.ok out →
      ¬ ("\x7b\"bursts\":null").toList <+: out.toList) ∧
    ApiLimits.MarshalJSON jsonString { al with ApiBursts := none } =
      ApiLimits.MarshalJSON jsonString { al with ApiBursts := some [] } ∧
    ApiLimits.MarshalJSON jsonString ⟨none, ⟨0, 0⟩⟩ =
      Except.ok "\x7b\"bursts\":[],\"quota\":\x7b\"max_calls\":0,\"interval_sec\":0\x7d\x7d" := by
  have hform : ApiLimits.MarshalJSON jsonString al =
      Except.ok ("\x7b\"bursts\":" ++
        ("[" ++ ",".intercalate ((al.ApiBursts.getD []).map (jsonBurst jsonString)) ++ "]") ++
        ",\"quota\":" ++ jsonQuota al.ApiQuota ++ "\x7d") := by
    obtain ⟨bursts, quota⟩ := al
    cases bursts <;> rfl
  refine ⟨hform, ?_, rfl, rfl⟩
  intro out hout
  rw [hform] at hout
  simp only [Except.ok.injEq] at hout
  subst hout
  intro hpre
  simp only [String.toList, String.data_append] at hpre
  simp [List.cons_prefix_cons] at hpre

/-- Witness for C18: one burst and a quota. -/
theorem ApiLimits.MarshalJSON_bursts_array_witness :
    ApiLimits.MarshalJSON sampleJsonString ⟨some [⟨"POST", "/auth_requests", 5⟩], ⟨10, 60⟩⟩ =
      Except.ok ("\x7b\"bursts\":[\x7b\"action\":\"POST\",\"uri\":\"/auth_requests\"," ++
        "\"min_interval_sec\":5\x7d],\"quota\":\x7b\"max_calls\":10,\"interval_sec\":60\x7d\x7d") :=
  (ApiLimits.MarshalJSON_bursts_array sampleJsonString
    ⟨some [⟨"POST", "/auth_requests", 5⟩], ⟨10, 60⟩⟩).1.trans (congrArg Except.ok (by decide))

/-! ## Decommissioning cleanup -/

/-- C20: `decommissioningCleanup` drops the result of `decommissioningCleanupWithDbs`. It
returns nil whenever a tenant is given, and whenever no tenant is given and
`GetTenantDbs` succeeds, whatever the cleanup of the databases returned; it returns an
error if and only if no tenant is given and `GetTenantDbs` fails. With the cleanup flag
set, `maintenanceWithDataStore` is `decommissioningCleanup`; without it, it does nothing
and returns nil. -/
theorem decommissioningCleanup_discards (dbName : String)
    (dbNameForTenant : String → String → String) (db : DataStoreMongo) (tenant : String)
    (dryRunFlag : Bool) (h : List CleanupEvent) :
    (tenant ≠ "" →
      decommissioningCleanup dbName dbNameForTenant db tenant dryRunFlag h =
        ((decommissioningCleanupWithDbs db dryRunFlag [dbNameForTenant tenant dbName] h).1,
          none)) ∧
    (tenant = "" → ∀ tdbs, db.GetTenantDbs h = Except.ok tdbs →
      decommissioningCleanup dbName dbNameForTenant db tenant dryRunFlag h =
        (CleanupEvent.getTenantDbs (Except.ok tdbs) ::
          (decommissioningCleanupWithDbs db dryRunFlag (tdbs ++ [dbName])
            (h ++ [CleanupEvent.getTenantDbs (Except.ok tdbs)])).1, none)) ∧
    ((∃ err, (decommissioningCleanup dbName dbNameForTenant db tenant dryRunFlag h).2 =
        some err) ↔ tenant = "" ∧ ∃ e, db.GetTenantDbs h = Except.error e) ∧
    maintenanceWithDataStore dbName dbNameForTenant true tenant dryRunFlag db h =
      decommissioningCleanup dbName dbNameForTenant db tenant dryRunFlag h ∧
    maintenanceWithDataStore dbName dbNameForTenant false tenant dryRunFlag db h = ([], none) := by
  refine ⟨?_, ?_, ?_, rfl, rfl⟩
  · intro ht
    unfold decommissioningCleanup
    rw [if_neg ht]
  · intro ht tdbs hres
    unfold decommissioningCleanup
    rw [if_pos ht]
    simp only [hres]
  · unfold decommissioningCleanup
    by_cases ht : tenant = ""
    · rw [if_pos ht]
      rcases hres : db.GetTenantDbs h with e | tdbs
      · simp only
        exact ⟨fun _ => ⟨ht, e, rfl⟩, fun _ => ⟨_, rfl⟩⟩
      · simp only
        constructor
        · rintro ⟨err, herr⟩
          cases herr
        · rintro ⟨-, e, he⟩
          cases he
    · rw [if_neg ht]
      simp only
      constructor
      · rintro ⟨err, herr⟩
        cases herr
      · rintro ⟨h0, -⟩
        exact absurd h0 ht

/-- Witness for C20: reading the devices being decommissioned fails, the cleanup of the
databases returns that error, and `decommissioningCleanup` returns nil, with a tenant
and without. -/
theorem decommissioningCleanup_discards_witness :
    (decommissioningCleanupWithDbs brokenCleanupStore false ["deviceauth-t1"] []).2 =
      some "connection lost" ∧
    decommissioningCleanup "deviceauth" (fun tenantId baseDb => baseDb ++ "-" ++ tenantId)
        brokenCleanupStore "t1" false [] =
      ((decommissioningCleanupWithDbs brokenCleanupStore false ["deviceauth-t1"] []).1, none) ∧
    (decommissioningCleanup "deviceauth" (fun tenantId baseDb => baseDb ++ "-" ++ tenantId)
        brokenCleanupStore "" false []).2 = none ∧
    (maintenanceWithDataStore "deviceauth" (fun tenantId baseDb => baseDb ++ "-" ++ tenantId)
        true "" false noDiscoveryCleanupStore []).2 =
      some "failed to retrieve tenant DBs: connection lost" :=
  ⟨by decide,
    (decommissioningCleanup_discards "deviceauth" (fun tenantId baseDb => baseDb ++ "-" ++ tenantId)
      brokenCleanupStore "t1" false []).1 (by decide),
    by decide, by decide⟩

/-! ## Pagination against a faithful store -/

theorem pageSizes_append (a b : List (Event V)) :
    pageSizes (a ++ b) = pageSizes a ++ pageSizes b := by
  simp [pageSizes, List.filterMap_append]

theorem pageSizes_eq_nil (evs : List (Event V))
    (hevs : ∀ e ∈ evs, Event.isRead e = false) : pageSizes evs = [] := by
  unfold pageSizes
  rw [List.filterMap_eq_nil_iff]
  intro e he
  have := hevs e he
  cases e <;> simp_all [Event.isRead]

theorem pageSizes_cons_ok (ctx : Ctx) (skip limit : Nat) (filter : Option String)
    (devs : List (Device V)) (evs : List (Event V)) :
    pageSizes (Event.getDevices ctx skip limit filter (Except.ok devs) :: evs) =
      devs.length :: pageSizes evs := by
  simp [pageSizes]

theorem statusSinkStep_ok (c : Client V) (ctx : Ctx) (tenant status : String) (dryRun : Bool)
    (h : List (Event V)) (ids : List String)
    (hsink : ∀ h ids, c.SetDeviceStatus h ctx tenant ids status = none) :
    (statusSinkStep c ctx tenant status dryRun h ids).2 = none ∧
    ∀ e ∈ (statusSinkStep c ctx tenant status dryRun h ids).1, Event.isRead e = false := by
  cases dryRun with
  | true => simp [statusSinkStep]
  | false => simp [statusSinkStep, hsink, Event.isRead]

theorem setDevicesIdentity_ok (c : Client V) (ctx : Ctx) (tenant : String)
    (hsink : ∀ h id idData, c.SetDeviceIdentity h ctx tenant id idData = none) :
    ∀ (devices : List (Device V)) (h : List (Event V)),
      (setDevicesIdentity c ctx tenant devices h).2 = none ∧
      ∀ e ∈ (setDevicesIdentity c ctx tenant devices h).1, Event.isRead e = false := by
  intro devices
  induction devices with
  | nil => intro h; simp [setDevicesIdentity]
  | cons d ds ih =>
    intro h
    rw [setDevicesIdentity]
    simp only [hsink]
    obtain ⟨i1, i2⟩ := ih (h ++ [Event.setDeviceIdentity ctx tenant d.Id d.IdDataStruct none])
    refine ⟨i1, ?_⟩
    intro e he
    rcases List.mem_cons.1 he with rfl | he
    · rfl
    · exact i2 e he

theorem idDataSinkStep_ok (c : Client V) (ctx : Ctx) (tenant : String) (dryRun : Bool)
    (h : List (Event V)) (devices : List (Device V))
    (hsink : ∀ h id idData, c.SetDeviceIdentity h ctx tenant id idData = none) :
    (idDataSinkStep c ctx tenant dryRun h devices).2 = none ∧
    ∀ e ∈ (idDataSinkStep c ctx tenant dryRun h devices).1, Event.isRead e = false := by
  cases dryRun with
  | true => simp [idDataSinkStep]
  | false => exact setDevicesIdentity_ok c ctx tenant hsink devices h

theorem propagateDevices_not_read (x : Externals V) (c : Client V) (tenant : String)
    (dryrun : Bool) :
    ∀ (ds : List (Device V)) (h : List (Event V)) (errs : Bool),
      ∀ e ∈ (propagateDevices x c tenant dryrun ds h errs).1, Event.isRead e = false := by
  intro ds
  induction ds with
  | nil => intro h errs e he; cases he
  | cons d ds ih =>
    intro h errs e he
    rw [propagateDevices] at he
    rcases List.mem_append.1 he with h1 | h1
    · unfold propagateSingleDevice at h1
      split at h1
      · cases h1
      · split at h1
        · rcases List.mem_singleton.1 h1 with rfl
          rfl
        · cases h1
    · exact ih _ _ e h1

theorem updateDevicesStatus_pages (db : DataStore V) (c : Client V) (ctx : Ctx)
    (tenant status : String) (dryRun : Bool) (recs : List (Device V))
    (hstore : ∀ h skip, db.GetDevices h ctx skip devicesBatchSize (some status) =
      Except.ok ((recs.drop skip).take devicesBatchSize))
    (hsink : ∀ h ids, c.SetDeviceStatus h ctx tenant ids status = none)
    (hsize : recs.length < uintMod) :
    ∀ (fuel k : Nat) (h : List (Event V)), 512 * k ≤ recs.length →
      recs.length / 512 < fuel + k →
      (updateDevicesStatus db c ctx tenant status dryRun fuel h (512 * k)).2 =
        Outcome.done none ∧
      pageRequests (updateDevicesStatus db c ctx tenant status dryRun fuel h (512 * k)).1 =
        ((List.range' k (recs.length / 512 + 1 - k)).map fun i =>
          (ctx, 512 * i, 512, some status)) ∧
      pageSizes (updateDevicesStatus db c ctx tenant status dryRun fuel h (512 * k)).1 =
        List.replicate (recs.length / 512 - k) 512 ++ [recs.length % 512] := by
  intro fuel
  induction fuel with
  | zero => intro k h h1 h2; omega
  | succ fuel ih =>
    intro k h h1 h2
    rw [updateDevicesStatus_ok db c ctx tenant status dryRun fuel h (512 * k) _ (hstore h _)]
    obtain ⟨s1, s2⟩ := statusSinkStep_ok c ctx tenant status dryRun
      (h ++ [Event.getDevices ctx (512 * k) devicesBatchSize (some status)
        (Except.ok (List.take devicesBatchSize (List.drop (512 * k) recs)))])
      ((List.take devicesBatchSize (List.drop (512 * k) recs)).map fun d => d.Id) hsink
    have p1 := pageRequests_eq_nil _ s2
    have p2 := pageSizes_eq_nil _ s2
    simp only [s1]
    simp only [devicesBatchSize] at p1 p2 ⊢
    have hlen : (List.take 512 (List.drop (512 * k) recs)).length =
        min 512 (recs.length - 512 * k) := by simp
    by_cases hempty : (List.take 512 (List.drop (512 * k) recs)).length < 1
    · rw [if_pos hempty]
      have e1 : recs.length / 512 + 1 - k = 1 := by omega
      have e2 : recs.length / 512 - k = 0 := by omega
      have e3 : (List.take 512 (List.drop (512 * k) recs)).length = recs.length % 512 := by omega
      simp [pageRequests_cons_getDevices, pageSizes_cons_ok, e1, e2, e3, pageRequests, pageSizes]
    · rw [if_neg hempty]
      by_cases hshort : (List.take 512 (List.drop (512 * k) recs)).length < 512
      · rw [if_pos hshort]
        have e1 : recs.length / 512 + 1 - k = 1 := by omega
        have e2 : recs.length / 512 - k = 0 := by omega
        have e3 : (List.take 512 (List.drop (512 * k) recs)).length = recs.length % 512 := by
          omega
        refine ⟨rfl, ?_, ?_⟩
        · rw [pageRequests_cons_getDevices, p1, e1]
          rfl
        · rw [pageSizes_cons_ok, p2, e2, e3]
          rfl
      · rw [if_neg hshort]
        have hmod : (512 * k + 512) % uintMod = 512 * (k + 1) := by
          simp only [uintMod] at *
          rw [Nat.mod_eq_of_lt (by omega)]; ring
        have e1 : recs.length / 512 + 1 - k = (recs.length / 512 + 1 - (k + 1)) + 1 := by omega
        have e2 : recs.length / 512 - k = (recs.length / 512 - (k + 1)) + 1 := by omega
        have e3 : (List.take 512 (List.drop (512 * k) recs)).length = 512 := by omega
        rw [hmod]
        obtain ⟨i1, i2, i3⟩ := ih (k + 1)
          (h ++ Event.getDevices ctx (512 * k) 512 (some status)
            (Except.ok (List.take 512 (List.drop (512 * k) recs))) ::
            (statusSinkStep c ctx tenant status dryRun
              (h ++ [Event.getDevices ctx (512 * k) 512 (some status)
                (Except.ok (List.take 512 (List.drop (512 * k) recs)))])
              ((List.take 512 (List.drop (512 * k) recs)).map fun d => d.Id)).1)
          (by omega) (by omega)
        refine ⟨i1, ?_, ?_⟩
        · rw [List.cons_append, pageRequests_cons_getDevices, pageRequests_append, p1, i2, e1,
            List.range'_succ]
          rfl
        · rw [List.cons_append, pageSizes_cons_ok, pageSizes_append, p2, i3, e2, e3,
            List.replicate_succ]
          rfl

theorem updateDevicesIdData_pages (db : DataStore V) (c : Client V) (ctx : Ctx)
    (tenant : String) (dryRun : Bool) (recs : List (Device V))
    (hstore : ∀ h skip, db.GetDevices h ctx skip devicesBatchSize none =
      Except.ok ((recs.drop skip).take devicesBatchSize))
    (hsink : ∀ h id idData, c.SetDeviceIdentity h ctx tenant id idData = none)
    (hsize : recs.length < uintMod) :
    ∀ (fuel k : Nat) (h : List (Event V)), 512 * k ≤ recs.length →
      recs.length / 512 < fuel + k →
      (updateDevicesIdData db c ctx tenant dryRun fuel h (512 * k)).2 = Outcome.done none ∧
      pageRequests (updateDevicesIdData db c ctx tenant dryRun fuel h (512 * k)).1 =
        ((List.range' k (recs.length / 512 + 1 - k)).map fun i =>
          (ctx, 512 * i, 512, none)) ∧
      pageSizes (updateDevicesIdData db c ctx tenant dryRun fuel h (512 * k)).1 =
        List.replicate (recs.length / 512 - k) 512 ++ [recs.length % 512] := by
  intro fuel
  induction fuel with
  | zero => intro k h h1 h2; omega
  | succ fuel ih =>
    intro k h h1 h2
    rw [updateDevicesIdData_ok db c ctx tenant dryRun fuel h (512 * k) _ (hstore h _)]
    obtain ⟨s1, s2⟩ := idDataSinkStep_ok c ctx tenant dryRun
      (h ++ [Event.getDevices ctx (512 * k) devicesBatchSize none
        (Except.ok (List.take devicesBatchSize (List.drop (512 * k) recs)))])
      (List.take devicesBatchSize (List.drop (512 * k) recs)) hsink
    have p1 := pageRequests_eq_nil _ s2
    have p2 := pageSizes_eq_nil _ s2
    simp only [s1]
    simp only [devicesBatchSize] at p1 p2 ⊢
    have hlen : (List.take 512 (List.drop (512 * k) recs)).length =
        min 512 (recs.length - 512 * k) := by simp
    by_cases hempty : (List.take 512 (List.drop (512 * k) recs)).length < 1
    · rw [if_pos hempty]
      have e1 : recs.length / 512 + 1 - k = 1 := by omega
      have e2 : recs.length / 512 - k = 0 := by omega
      have e3 : (List.take 512 (List.drop (512 * k) recs)).length = recs.length % 512 := by omega
      refine ⟨rfl, ?_, ?_⟩
      · rw [pageRequests_cons_getDevices, e1]
        rfl
      · rw [pageSizes_cons_ok, e2, e3]
        rfl
    · rw [if_neg hempty]
      by_cases hshort : (List.take 512 (List.drop (512 * k) recs)).length < 512
      · rw [if_pos hshort]
        have e1 : recs.length / 512 + 1 - k = 1 := by omega
        have e2 : recs.length / 512 - k = 0 := by omega
        have e3 : (List.take 512 (List.drop (512 * k) recs)).length = recs.length % 512 := by
          omega
        refine ⟨rfl, ?_, ?_⟩
        · rw [pageRequests_cons_getDevices, p1, e1]
          rfl
        · rw [pageSizes_cons_ok, p2, e2, e3]
          rfl
      · rw [if_neg hshort]
        have hmod : (512 * k + 512) % uintMod = 512 * (k + 1) := by
          simp only [uintMod] at *
          rw [Nat.mod_eq_of_lt (by omega)]; ring
        have e1 : recs.length / 512 + 1 - k = (recs.length / 512 + 1 - (k + 1)) + 1 := by omega
        have e2 : recs.length / 512 - k = (recs.length / 512 - (k + 1)) + 1 := by omega
        have e3 : (List.take 512 (List.drop (512 * k) recs)).length = 512 := by omega
        rw [hmod]
        obtain ⟨i1, i2, i3⟩ := ih (k + 1)
          (h ++ Event.getDevices ctx (512 * k) 512 none
            (Except.ok (List.take 512 (List.drop (512 * k) recs))) ::
            (idDataSinkStep c ctx tenant dryRun
              (h ++ [Event.getDevices ctx (512 * k) 512 none
                (Except.ok (List.take 512 (List.drop (512 * k) recs)))])
              (List.take 512 (List.drop (512 * k) recs))).1)
          (by omega) (by omega)
        refine ⟨i1, ?_, ?_⟩
        · rw [List.cons_append, pageRequests_cons_getDevices, pageRequests_append, p1, i2, e1,
            List.range'_succ]
          rfl
        · rw [List.cons_append, pageSizes_cons_ok, pageSizes_append, p2, i3, e2, e3,
            List.replicate_succ]
          rfl

theorem inventoryLoop_pages (x : Externals V) (db : DataStore V) (c : Client V) (ctx : Ctx)
    (tenant : String) (dryrun : Bool) (recs : List (Device V))
    (hstore : ∀ h skip, db.GetDevices h ctx skip 100 none =
      Except.ok ((recs.drop skip).take 100))
    (hsize : recs.length < uintMod) :
    ∀ (fuel k : Nat) (h : List (Event V)) (errs : Bool), 100 * k ≤ recs.length →
      recs.length / 100 < fuel + k →
      (∃ b, (inventoryLoop x db c ctx tenant dryrun fuel h (100 * k) errs).2 =
        some (Except.ok b)) ∧
      pageRequests (inventoryLoop x db c ctx tenant dryrun fuel h (100 * k) errs).1 =
        ((List.range' k (recs.length / 100 + 1 - k)).map fun i =>
          (ctx, 100 * i, 100, none)) ∧
      pageSizes (inventoryLoop x db c ctx tenant dryrun fuel h (100 * k) errs).1 =
        List.replicate (recs.length / 100 - k) 100 ++ [recs.length % 100] := by
  intro fuel
  induction fuel with
  | zero => intro k h errs h1 h2; omega
  | succ fuel ih =>
    intro k h errs h1 h2
    rw [inventoryLoop_ok x db c ctx tenant dryrun fuel h (100 * k) errs _ (hstore h _)]
    have s2 := propagateDevices_not_read x c tenant dryrun
      (List.take 100 (List.drop (100 * k) recs))
      (h ++ [Event.getDevices ctx (100 * k) 100 none
        (Except.ok (List.take 100 (List.drop (100 * k) recs)))]) errs
    have p1 := pageRequests_eq_nil _ s2
    have p2 := pageSizes_eq_nil _ s2
    simp only
    have hlen : (List.take 100 (List.drop (100 * k) recs)).length =
        min 100 (recs.length - 100 * k) := by simp
    by_cases hshort : (List.take 100 (List.drop (100 * k) recs)).length < 100
    · rw [if_pos hshort]
      have e1 : recs.length / 100 + 1 - k = 1 := by omega
      have e2 : recs.length / 100 - k = 0 := by omega
      have e3 : (List.take 100 (List.drop (100 * k) recs)).length = recs.length % 100 := by
        omega
      refine ⟨⟨_, rfl⟩, ?_, ?_⟩
      · rw [pageRequests_cons_getDevices, p1, e1]
        rfl
      · rw [pageSizes_cons_ok, p2, e2, e3]
        rfl
    · rw [if_neg hshort]
      have hmod : (100 * k + 100) % uintMod = 100 * (k + 1) := by
        simp only [uintMod] at *
        rw [Nat.mod_eq_of_lt (by omega)]; ring
      have e1 : recs.length / 100 + 1 - k = (recs.length / 100 + 1 - (k + 1)) + 1 := by omega
      have e2 : recs.length / 100 - k = (recs.length / 100 - (k + 1)) + 1 := by omega
      have e3 : (List.take 100 (List.drop (100 * k) recs)).length = 100 := by omega
      rw [hmod]
      obtain ⟨i1, i2, i3⟩ := ih (k + 1)
        (h ++ Event.getDevices ctx (100 * k) 100 none
          (Except.ok (List.take 100 (List.drop (100 * k) recs))) ::
          (propagateDevices x c tenant dryrun (List.take 100 (List.drop (100 * k) recs))
            (h ++ [Event.getDevices ctx (100 * k) 100 none
              (Except.ok (List.take 100 (List.drop (100 * k) recs)))]) errs).1)
        (propagateDevices x c tenant dryrun (List.take 100 (List.drop (100 * k) recs))
          (h ++ [Event.getDevices ctx (100 * k) 100 none
            (Except.ok (List.take 100 (List.drop (100 * k) recs)))]) errs).2
        (by omega) (by omega)
      refine ⟨i1, ?_, ?_⟩
      · rw [List.cons_append, pageRequests_cons_getDevices, pageRequests_append, p1, i2, e1,
          List.range'_succ]
        rfl
      · rw [List.cons_append, pageSizes_cons_ok, pageSizes_append, p2, i3, e2, e3,
          List.replicate_succ]
        rfl
/-- C12: against a store that pages faithfully the `N` records matching the filter, with a
sink that does not fail, each of the three paging loops returns without error once the
fuel exceeds `N / L`; its page requests are the offsets `0, L, 2L, ...`, all with the
limit `L`, exactly `N / L + 1` of them; the pages returned are `N / L` full pages followed
by one page of `N % L < L` records, after which the loop stops; and for `N = 0` the only
collaborator call is the fetch of the empty first page. Here `L` is 512 for
`updateDevicesStatus` and `updateDevicesIdData` and 100 for
`tryPropagateInventoryForDb`. -/
theorem pagination_terminates (x : Externals V) (db : DataStore V) (c : Client V)
    (dbname tenant status : String) (ctx : Ctx) (dryRun : Bool) (fuel : Nat)
    (h : List (Event V)) (recsAll recsSt : List (Device V))
    (hctx : ctx = mkCtx (x.TenantFromDbName dbname x.DbName))
    (hall : ∀ h skip limit, db.GetDevices h ctx skip limit none =
      Except.ok ((recsAll.drop skip).take limit))
    (hst : ∀ h skip limit, db.GetDevices h ctx skip limit (some status) =
      Except.ok ((recsSt.drop skip).take limit))
    (hsinkSt : ∀ h ids, c.SetDeviceStatus h ctx tenant ids status = none)
    (hsinkId : ∀ h id idData, c.SetDeviceIdentity h ctx tenant id idData = none)
    (hsizeAll : recsAll.length < uintMod) (hsizeSt : recsSt.length < uintMod)
    (hfuelAll : recsAll.length / 100 < fuel) (hfuelSt : recsSt.length / 512 < fuel) :
    ((updateDevicesStatus db c ctx tenant status dryRun fuel h 0).2 = Outcome.done none ∧
      pageRequests (updateDevicesStatus db c ctx tenant status dryRun fuel h 0).1 =
        ((List.range (recsSt.length / 512 + 1)).map fun i => (ctx, 512 * i, 512, some status)) ∧
      pageSizes (updateDevicesStatus db c ctx tenant status dryRun fuel h 0).1 =
        List.replicate (recsSt.length / 512) 512 ++ [recsSt.length % 512] ∧
      (recsSt = [] → (updateDevicesStatus db c ctx tenant status dryRun fuel h 0).1 =
        [Event.getDevices ctx 0 512 (some status) (Except.ok [])])) ∧
    ((updateDevicesIdData db c ctx tenant dryRun fuel h 0).2 = Outcome.done none ∧
      pageRequests (updateDevicesIdData db c ctx tenant dryRun fuel h 0).1 =
        ((List.range (recsAll.length / 512 + 1)).map fun i => (ctx, 512 * i, 512, none)) ∧
      pageSizes (updateDevicesIdData db c ctx tenant dryRun fuel h 0).1 =
        List.replicate (recsAll.length / 512) 512 ++ [recsAll.length % 512] ∧
      (recsAll = [] → (updateDevicesIdData db c ctx tenant dryRun fuel h 0).1 =
        [Event.getDevices ctx 0 512 none (Except.ok [])])) ∧
    ((tryPropagateInventoryForDb x db c dbname dryRun fuel h).2 = Outcome.done none ∧
      pageRequests (tryPropagateInventoryForDb x db c dbname dryRun fuel h).1 =
        ((List.range (recsAll.length / 100 + 1)).map fun i => (ctx, 100 * i, 100, none)) ∧
      pageSizes (tryPropagateInventoryForDb x db c dbname dryRun fuel h).1 =
        List.replicate (recsAll.length / 100) 100 ++ [recsAll.length % 100] ∧
      (recsAll = [] → (tryPropagateInventoryForDb x db c dbname dryRun fuel h).1 =
        [Event.getDevices ctx 0 100 none (Except.ok [])])) ∧
    recsSt.length % 512 < 512 ∧ recsAll.length % 512 < 512 ∧ recsAll.length % 100 < 100 := by
  obtain ⟨f, rfl⟩ : ∃ f, fuel = f + 1 := ⟨fuel - 1, by omega⟩
  subst hctx
  refine ⟨?_, ?_, ?_, by omega, by omega, by omega⟩
  · obtain ⟨i1, i2, i3⟩ := updateDevicesStatus_pages db c _ tenant status dryRun recsSt
      (fun h skip => hst h skip _) hsinkSt hsizeSt (f + 1) 0 h (by omega) (by omega)
    simp only [Nat.mul_zero, Nat.sub_zero] at i1 i2 i3
    refine ⟨i1, ?_, i3, ?_⟩
    · rw [i2, List.range_eq_range']
    · intro hnil
      subst hnil
      rw [updateDevicesStatus_ok db c _ tenant status dryRun f h 0 [] (by rw [hst]; rfl)]
      rfl
  · obtain ⟨i1, i2, i3⟩ := updateDevicesIdData_pages db c _ tenant dryRun recsAll
      (fun h skip => hall h skip _) hsinkId hsizeAll (f + 1) 0 h (by omega) (by omega)
    simp only [Nat.mul_zero, Nat.sub_zero] at i1 i2 i3
    refine ⟨i1, ?_, i3, ?_⟩
    · rw [i2, List.range_eq_range']
    · intro hnil
      subst hnil
      rw [updateDevicesIdData_ok db c _ tenant dryRun f h 0 [] (by rw [hall]; rfl)]
      rfl
  · obtain ⟨⟨b, i1⟩, i2, i3⟩ := inventoryLoop_pages x db c
      (mkCtx (x.TenantFromDbName dbname x.DbName)) (x.TenantFromDbName dbname x.DbName)
      dryRun recsAll (fun h skip => hall h skip _) hsizeAll (f + 1) 0 h false (by omega)
      (by omega)
    simp only [Nat.mul_zero, Nat.sub_zero] at i1 i2 i3
    have hev := tryPropagateInventoryForDb_events x db c dbname dryRun (f + 1) h
    refine ⟨?_, ?_, ?_, ?_⟩
    · unfold tryPropagateInventoryForDb
      simp only [i1]
    · rw [hev, i2, List.range_eq_range']
    · rw [hev, i3]
    · intro hnil
      subst hnil
      rw [hev, inventoryLoop_ok x db c _ _ dryRun f h 0 false [] (by rw [hall]; rfl)]
      rfl

set_option maxRecDepth 1000000 in
/-- Witness for C12: the store with 513 accepted devices. -/
theorem pagination_terminates_witness :
    pageRequests (updateDevicesStatus (pagingStore [] recs513) okClient none "" "accepted"
        false 6 [] 0).1 =
      ((List.range ((recs513 none (some "accepted")).length / 512 + 1)).map fun i =>
        (none, 512 * i, 512, some "accepted")) ∧
    pageRequests (updateDevicesStatus (pagingStore [] recs513) okClient none "" "accepted"
        false 6 [] 0).1 = [(none, 0, 512, some "accepted"), (none, 512, 512, some "accepted")] ∧
    pageSizes (updateDevicesStatus (pagingStore [] recs513) okClient none "" "accepted"
        false 6 [] 0).1 = [512, 1] ∧
    pageSizes (tryPropagateInventoryForDb sampleExternals (pagingStore [] recs513) okClient
        "deviceauth" false 6 []).1 = [100, 100, 100, 100, 100, 13] :=
  ⟨(pagination_terminates sampleExternals (pagingStore [] recs513) okClient "deviceauth" ""
      "accepted" none false 6 [] (recs513 none none) (recs513 none (some "accepted"))
      (by decide) (fun _ _ _ => rfl) (fun _ _ _ => rfl) (fun _ _ => rfl) (fun _ _ _ => rfl)
      (by decide) (by decide) (by decide) (by decide)).1.2.1,
    by decide, by decide, by decide⟩

/-! ## A failed page fetch -/

theorem last_of_append_singleton {α : Type} (p : α → Bool) (pre' : List α) (e' : α)
    (hpre : ∀ a ∈ pre', p a = false) :
    ∀ (pre : List α) (e : α) (post : List α), pre' ++ [e'] = pre ++ e :: post → p e = true →
      post = [] := by
  intro pre e post heq he
  by_contra hpost
  have h1 : (pre' ++ [e']).dropLast = pre' := List.dropLast_concat
  have h2 : (pre ++ e :: post).dropLast = pre ++ e :: post.dropLast := by
    rw [List.dropLast_append_of_ne_nil _ (by simp), List.dropLast_cons_of_ne_nil hpost]
  rw [heq, h2] at h1
  have hmem : e ∈ pre' := by
    rw [← h1]
    simp
  rw [hpre e hmem] at he
  cases he

theorem fetchFailed_failed (e : Event V) (he : Event.fetchFailed e = true) :
    Event.failed e = true := by
  cases e <;> simp_all [Event.fetchFailed, Event.failed]
  rename_i res
  cases res <;> simp_all

theorem FailStop.failure_last (evs : List (Event V)) (o : Outcome) (hs : FailStop evs o) :
    ∀ (pre : List (Event V)) (e : Event V) (post : List (Event V)), evs = pre ++ e :: post →
      Event.failed e = true → post = [] ∧ ∃ err, o = Outcome.done (some err) := by
  intro pre e post heq he
  have hmem : e ∈ evs := by rw [heq]; simp
  cases o with
  | outOfFuel =>
    have := hs e hmem
    rw [he] at this
    cases this
  | done err =>
    cases err with
    | none =>
      have := hs e hmem
      rw [he] at this
      cases this
    | some err =>
      obtain ⟨pre', e', rfl, -, -, hpre⟩ := hs
      exact ⟨last_of_append_singleton (fun e => Event.failed e) pre' e' hpre pre e post heq he,
        err, rfl⟩

theorem FetchStop.fetch_failure_last (evs : List (Event V)) (o : Outcome) (hs : FetchStop evs o) :
    ∀ (pre : List (Event V)) (e : Event V) (post : List (Event V)), evs = pre ++ e :: post →
      Event.fetchFailed e = true → post = [] ∧ ∃ err, o = Outcome.done (some err) := by
  intro pre e post heq he
  have hmem : e ∈ evs := by rw [heq]; simp
  cases o with
  | outOfFuel =>
    have := hs e hmem
    rw [he] at this
    cases this
  | done err =>
    cases err with
    | none =>
      have := hs e hmem
      rw [he] at this
      cases this
    | some err =>
      obtain ⟨pre', e', rfl, -, hpre⟩ := hs
      exact ⟨last_of_append_singleton (fun e => Event.fetchFailed e) pre' e' hpre pre e post
        heq he, err, rfl⟩

theorem propagateDevices_not_fetch (x : Externals V) (c : Client V) (tenant : String)
    (dryrun : Bool) (ds : List (Device V)) (h : List (Event V)) (errs : Bool) :
    ∀ e ∈ (propagateDevices x c tenant dryrun ds h errs).1, Event.fetchFailed e = false := by
  intro e he
  have := propagateDevices_not_read x c tenant dryrun ds h errs e he
  cases e <;> simp_all [Event.isRead, Event.fetchFailed]

theorem FetchStop.prepend_events (a b : List (Event V)) (o : Outcome)
    (ha : ∀ e ∈ a, Event.fetchFailed e = false) (hb : FetchStop b o) : FetchStop (a ++ b) o := by
  unfold FetchStop at *
  split
  · rename_i err
    simp only at hb
    obtain ⟨pre, e, rfl, he, hpre⟩ := hb
    refine ⟨a ++ pre, e, by simp, he, ?_⟩
    intro e' he'
    rcases List.mem_append.1 he' with h1 | h1
    · exact ha e' h1
    · exact hpre e' h1
  · rename_i hne
    have hb' : ∀ e ∈ b, Event.fetchFailed e = false := by
      cases o with
      | outOfFuel => exact hb
      | done err =>
        cases err with
        | none => exact hb
        | some err => exact absurd rfl (hne err)
    intro e he
    rcases List.mem_append.1 he with h1 | h1
    · exact ha e h1
    · exact hb' e h1

theorem inventoryLoop_fetchStop (x : Externals V) (db : DataStore V) (c : Client V)
    (ctx : Ctx) (tenant : String) (dryrun : Bool) :
    ∀ (fuel : Nat) (h : List (Event V)) (skip : Nat) (errs : Bool),
      FetchStop (inventoryLoop x db c ctx tenant dryrun fuel h skip errs).1
        (match (inventoryLoop x db c ctx tenant dryrun fuel h skip errs).2 with
          | none => Outcome.outOfFuel
          | some (Except.error err) => Outcome.done (some err)
          | some (Except.ok _) => Outcome.done none) := by
  intro fuel
  induction fuel with
  | zero => intro h skip errs; simp [inventoryLoop, FetchStop]
  | succ fuel ih =>
    intro h skip errs
    rcases hres : db.GetDevices h ctx skip 100 none with err | devs
    · rw [inventoryLoop_error x db c ctx tenant dryrun fuel h skip errs err hres]
      exact ⟨[], _, rfl, rfl, by simp⟩
    · rw [inventoryLoop_ok x db c ctx tenant dryrun fuel h skip errs devs hres]
      have hp := propagateDevices_not_fetch x c tenant dryrun devs
        (h ++ [Event.getDevices ctx skip 100 none (Except.ok devs)]) errs
      have hhead : ∀ e ∈ Event.getDevices ctx skip 100 none (Except.ok devs) ::
          (propagateDevices x c tenant dryrun devs
            (h ++ [Event.getDevices ctx skip 100 none (Except.ok devs)]) errs).1,
          Event.fetchFailed e = false := by
        intro e he
        rcases List.mem_cons.1 he with rfl | he
        · rfl
        · exact hp e he
      simp only
      by_cases hshort : devs.length < 100
      · rw [if_pos hshort]
        exact hhead
      · rw [if_neg hshort]
        exact FetchStop.prepend_events _ _ _ hhead (ih _ _ _)

theorem tryPropagateInventoryForDb_fetchStop (x : Externals V) (db : DataStore V)
    (c : Client V) (dbname : String) (dryrun : Bool) (fuel : Nat) (h : List (Event V)) :
    FetchStop (tryPropagateInventoryForDb x db c dbname dryrun fuel h).1
      (tryPropagateInventoryForDb x db c dbname dryrun fuel h).2 := by
  have hk := inventoryLoop_fetchStop x db c (mkCtx (x.TenantFromDbName dbname x.DbName))
    (x.TenantFromDbName dbname x.DbName) dryrun fuel h 0 false
  unfold tryPropagateInventoryForDb
  simp only
  rcases hr : (inventoryLoop x db c (mkCtx (x.TenantFromDbName dbname x.DbName))
    (x.TenantFromDbName dbname x.DbName) dryrun fuel h 0 false).2 with _ | res
  · rw [hr] at hk
    exact hk
  · cases res with
    | error err =>
      rw [hr] at hk
      exact hk
    | ok b =>
      rw [hr] at hk
      exact hk

theorem tryPropagateInventoryForDb_first (x : Externals V) (db : DataStore V) (c : Client V)
    (dbname : String) (dryrun : Bool) (fuel : Nat) (h : List (Event V)) (err : Option Err)
    (hdone : (tryPropagateInventoryForDb x db c dbname dryrun fuel h).2 = Outcome.done err) :
    ∃ res, Event.getDevices (mkCtx (x.TenantFromDbName dbname x.DbName)) 0 100 none res ∈
      (tryPropagateInventoryForDb x db c dbname dryrun fuel h).1 := by
  rw [tryPropagateInventoryForDb_events]
  cases fuel with
  | zero => simp [tryPropagateInventoryForDb, inventoryLoop] at hdone
  | succ fuel =>
    rcases hres : db.GetDevices h (mkCtx (x.TenantFromDbName dbname x.DbName)) 0 100 none
      with e | devs
    · rw [inventoryLoop_error x db c _ _ dryrun fuel h 0 false e hres]
      exact ⟨_, List.mem_cons_self _ _⟩
    · rw [inventoryLoop_ok x db c _ _ dryrun fuel h 0 false devs hres]
      refine ⟨Except.ok devs, ?_⟩
      simp only
      split
      · exact List.mem_cons_self _ _
      · exact List.mem_cons_self _ _

theorem updateDevicesIdData_first (db : DataStore V) (c : Client V) (ctx : Ctx)
    (tenant : String) (dryRun : Bool) (fuel : Nat) (h : List (Event V)) (skip : Nat)
    (err : Option Err)
    (hdone : (updateDevicesIdData db c ctx tenant dryRun fuel h skip).2 = Outcome.done err) :
    ∃ res, Event.getDevices ctx skip devicesBatchSize none res ∈
      (updateDevicesIdData db c ctx tenant dryRun fuel h skip).1 := by
  cases fuel with
  | zero => simp [updateDevicesIdData] at hdone
  | succ fuel =>
    rcases hres : db.GetDevices h ctx skip devicesBatchSize none with e | devices
    · rw [updateDevicesIdData_error db c ctx tenant dryRun fuel h skip e hres]
      exact ⟨_, List.mem_cons_self _ _⟩
    · rw [updateDevicesIdData_ok db c ctx tenant dryRun fuel h skip devices hres]
      refine ⟨Except.ok devices, ?_⟩
      simp only
      split
      · exact List.mem_cons_self _ _
      · split
        · exact List.mem_cons_self _ _
        · split
          · exact List.mem_cons_self _ _
          · exact List.mem_cons_self _ _

theorem propagateInventoryDbs_every_store (x : Externals V) (db : DataStore V) (c : Client V)
    (dryrun : Bool) (fuel : Nat) :
    ∀ (ds : List String) (h : List (Event V)) (err : Option Err),
      (propagateInventoryDbs x db c dryrun fuel ds h).2 = Outcome.done err →
      ∀ d ∈ ds, ∃ res, Event.getDevices (mkCtx (x.TenantFromDbName d x.DbName)) 0 100 none res ∈
        (propagateInventoryDbs x db c dryrun fuel ds h).1 := by
  intro ds
  induction ds with
  | nil => intro h err _ d hd; cases hd
  | cons d0 ds ih =>
    intro h err hdone d hd
    rw [propagateInventoryDbs] at hdone ⊢
    rcases ho : (tryPropagateInventoryForDb x db c d0 dryrun fuel h).2 with err1 | _
    · simp only [ho] at hdone ⊢
      rcases List.mem_cons.1 hd with rfl | hd
      · obtain ⟨res, hres⟩ := tryPropagateInventoryForDb_first x db c d dryrun fuel h err1 ho
        exact ⟨res, List.mem_append.2 (Or.inl hres)⟩
      · obtain ⟨res, hres⟩ := ih _ err hdone d hd
        exact ⟨res, List.mem_append.2 (Or.inr hres)⟩
    · simp only [ho] at hdone
      cases hdone

theorem propagateIdDataDbs_every_store (x : Externals V) (db : DataStore V) (c : Client V)
    (dryRun : Bool) (fuel : Nat) :
    ∀ (ds : List String) (h : List (Event V)) (e err : Option Err),
      (propagateIdDataDbs x db c dryRun fuel ds h e).2 = Outcome.done err →
      ∀ d ∈ ds, ∃ res, Event.getDevices (mkCtx (x.TenantFromDbName d x.DbName)) 0
          devicesBatchSize none res ∈ (propagateIdDataDbs x db c dryRun fuel ds h e).1 := by
  intro ds
  induction ds with
  | nil => intro h e err _ d hd; cases hd
  | cons d0 ds ih =>
    intro h e err hdone d hd
    rw [propagateIdDataDbs] at hdone ⊢
    rcases ho : (tryPropagateIdDataInventoryForDb x db c d0 dryRun fuel h).2 with err1 | _
    · simp only [ho] at hdone ⊢
      rcases List.mem_cons.1 hd with rfl | hd
      · obtain ⟨res, hres⟩ := updateDevicesIdData_first db c
          (mkCtx (x.TenantFromDbName d x.DbName)) (x.TenantFromDbName d x.DbName) dryRun fuel h 0
          err1 ho
        exact ⟨res, List.mem_append.2 (Or.inl hres)⟩
      · obtain ⟨res, hres⟩ := ih _ _ err hdone d hd
        exact ⟨res, List.mem_append.2 (Or.inr hres)⟩
    · simp only [ho] at hdone
      cases hdone

theorem propagateStatusesDbs_every_store (x : Externals V) (db : DataStore V) (c : Client V)
    (migrationVersion : String) (dryRun : Bool) (fuel : Nat) :
    ∀ (ds : List String) (h : List (Event V)) (e err : Option Err),
      (propagateStatusesDbs x db c migrationVersion dryRun fuel ds h e).2 = Outcome.done err →
      ∀ d ∈ ds, ∀ s ∈ statuses,
        ∃ res, Event.getDevices (mkCtx (x.TenantFromDbName d x.DbName)) 0 devicesBatchSize
          (some s) res ∈ (propagateStatusesDbs x db c migrationVersion dryRun fuel ds h e).1 := by
  intro ds
  induction ds with
  | nil => intro h e err _ d hd; cases hd
  | cons d0 ds ih =>
    intro h e err hdone d hd s hs
    rw [propagateStatusesDbs] at hdone ⊢
    rcases ho : (tryPropagateStatusesInventoryForDb x db c d0 migrationVersion dryRun fuel h).2
      with err1 | _
    · simp only [ho] at hdone ⊢
      rcases List.mem_cons.1 hd with rfl | hd
      · obtain ⟨errReturned, hsw, heq⟩ := tryPropagateStatusesInventoryForDb_done x db c d
          migrationVersion dryRun fuel h err1 ho
        obtain ⟨res, hres⟩ := sweepStatuses_first db c _ _ dryRun fuel statuses h none
          errReturned hsw s hs
        refine ⟨res, List.mem_append.2 (Or.inl ?_)⟩
        rw [heq]
        exact List.mem_append.2 (Or.inl hres)
      · obtain ⟨res, hres⟩ := ih _ _ err hdone d hd s hs
        exact ⟨res, List.mem_append.2 (Or.inr hres)⟩
    · simp only [ho] at hdone
      cases hdone
/-! ## The sink calls of the full-listing pass -/

theorem patchCalls_append (a b : List (Event V)) :
    patchCalls (a ++ b) = patchCalls a ++ patchCalls b := by
  simp [patchCalls, List.filterMap_append]

theorem patchCalls_cons_getDevices (ctx : Ctx) (skip limit : Nat) (filter : Option String)
    (res : Except Err (List (Device V))) (evs : List (Event V)) :
    patchCalls (Event.getDevices ctx skip limit filter res :: evs) = patchCalls evs := by
  simp [patchCalls]

theorem PatchesTimed.append (x : Externals V) (c : Client V) :
    ∀ (a b h : List (Event V)), PatchesTimed x c h a → PatchesTimed x c (h ++ a) b →
      PatchesTimed x c h (a ++ b) := by
  intro a
  induction a with
  | nil => intro b h _ hb; simpa using hb
  | cons e a ih =>
    intro b h ha hb
    obtain ⟨h1, h2⟩ := ha
    refine ⟨h1, ih b (h ++ [e]) h2 ?_⟩
    simpa using hb

theorem propagateSingleDevice_patch (x : Externals V) (c : Client V) (d : Device V)
    (tenant : String) (h : List (Event V)) :
    patchCalls (propagateSingleDevice x c d tenant false h).1 = specPatchCalls x tenant [d] ∧
    PatchesTimed x c h (propagateSingleDevice x c d tenant false h).1 := by
  unfold propagateSingleDevice specPatchCalls
  rcases hm : idDataToInventoryAttrs x d.IdDataStruct with err | attrs
  · simp [patchCalls, PatchesTimed, hm]
  · simp [patchCalls, PatchesTimed, hm]

theorem specPatchCalls_append (x : Externals V) (tenant : String) (a b : List (Device V)) :
    specPatchCalls x tenant (a ++ b) = specPatchCalls x tenant a ++ specPatchCalls x tenant b := by
  simp [specPatchCalls, List.filterMap_append]

theorem propagateDevices_patch (x : Externals V) (c : Client V) (tenant : String) :
    ∀ (ds : List (Device V)) (h : List (Event V)) (errs : Bool),
      patchCalls (propagateDevices x c tenant false ds h errs).1 = specPatchCalls x tenant ds ∧
      PatchesTimed x c h (propagateDevices x c tenant false ds h errs).1 := by
  intro ds
  induction ds with
  | nil => intro h errs; simp [propagateDevices, patchCalls, specPatchCalls, PatchesTimed]
  | cons d ds ih =>
    intro h errs
    rw [propagateDevices]
    obtain ⟨s1, s2⟩ := propagateSingleDevice_patch x c d tenant h
    obtain ⟨i1, i2⟩ := ih (h ++ (propagateSingleDevice x c d tenant false h).1)
      (if (propagateSingleDevice x c d tenant false h).2 ≠ none then true else errs)
    refine ⟨?_, PatchesTimed.append x c _ _ h s2 i2⟩
    rw [patchCalls_append, s1, i1, ← specPatchCalls_append]
    rfl

theorem inventoryLoop_timed (x : Externals V) (db : DataStore V) (c : Client V) (ctx : Ctx)
    (tenant : String) :
    ∀ (fuel : Nat) (h : List (Event V)) (skip : Nat) (errs : Bool),
      PatchesTimed x c h (inventoryLoop x db c ctx tenant false fuel h skip errs).1 := by
  intro fuel
  induction fuel with
  | zero => intro h skip errs; simp [inventoryLoop, PatchesTimed]
  | succ fuel ih =>
    intro h skip errs
    rcases hres : db.GetDevices h ctx skip 100 none with err | devs
    · rw [inventoryLoop_error x db c ctx tenant false fuel h skip errs err hres]
      simp [PatchesTimed]
    · rw [inventoryLoop_ok x db c ctx tenant false fuel h skip errs devs hres]
      have hp := (propagateDevices_patch x c tenant devs
        (h ++ [Event.getDevices ctx skip 100 none (Except.ok devs)]) errs).2
      simp only
      by_cases hshort : devs.length < 100
      · rw [if_pos hshort]
        exact ⟨trivial, hp⟩
      · rw [if_neg hshort]
        refine ⟨trivial, ?_⟩
        refine PatchesTimed.append x c _ _ _ hp ?_
        have := ih (h ++ Event.getDevices ctx skip 100 none (Except.ok devs) ::
            (propagateDevices x c tenant false devs
              (h ++ [Event.getDevices ctx skip 100 none (Except.ok devs)]) errs).1)
          ((skip + 100) % uintMod)
          (propagateDevices x c tenant false devs
            (h ++ [Event.getDevices ctx skip 100 none (Except.ok devs)]) errs).2
        simpa using this

theorem inventoryLoop_patchCalls (x : Externals V) (db : DataStore V) (c : Client V)
    (ctx : Ctx) (tenant : String) (recs : List (Device V))
    (hstore : ∀ h skip, db.GetDevices h ctx skip 100 none =
      Except.ok ((recs.drop skip).take 100))
    (hsize : recs.length < uintMod) :
    ∀ (fuel k : Nat) (h : List (Event V)) (errs : Bool), 100 * k ≤ recs.length →
      recs.length / 100 < fuel + k →
      patchCalls (inventoryLoop x db c ctx tenant false fuel h (100 * k) errs).1 =
        specPatchCalls x tenant (recs.drop (100 * k)) := by
  intro fuel
  induction fuel with
  | zero => intro k h errs h1 h2; omega
  | succ fuel ih =>
    intro k h errs h1 h2
    rw [inventoryLoop_ok x db c ctx tenant false fuel h (100 * k) errs _ (hstore h _)]
    have hp := (propagateDevices_patch x c tenant (List.take 100 (List.drop (100 * k) recs))
      (h ++ [Event.getDevices ctx (100 * k) 100 none
        (Except.ok (List.take 100 (List.drop (100 * k) recs)))]) errs).1
    simp only
    have hlen : (List.take 100 (List.drop (100 * k) recs)).length =
        min 100 (recs.length - 100 * k) := by simp
    by_cases hshort : (List.take 100 (List.drop (100 * k) recs)).length < 100
    · rw [if_pos hshort]
      rw [patchCalls_cons_getDevices, hp, List.take_of_length_le]
      rw [List.length_drop]
      omega
    · rw [if_neg hshort]
      have hmod : (100 * k + 100) % uintMod = 100 * (k + 1) := by
        simp only [uintMod] at *
        rw [Nat.mod_eq_of_lt (by omega)]; ring
      rw [hmod, List.cons_append, patchCalls_cons_getDevices, patchCalls_append, hp,
        ih (k + 1) _ _ (by omega) (by omega), ← specPatchCalls_append]
      have : 100 * (k + 1) = 100 * k + 100 := by ring
      rw [this, ← List.drop_drop, List.take_append_drop]

theorem specPatchCalls_ids (x : Externals V) (tenant : String) :
    ∀ (recs : List (Device V)),
      (specPatchCalls x tenant recs).map (fun call => call.1) =
        (recs.filter fun d => (idDataToInventoryAttrs x d.IdDataStruct).toOption.isSome).map
          fun d => d.Id := by
  intro recs
  induction recs with
  | nil => rfl
  | cons d recs ih =>
    have hcons : specPatchCalls x tenant (d :: recs) =
        specPatchCalls x tenant [d] ++ specPatchCalls x tenant recs := by
      rw [← specPatchCalls_append]
      rfl
    rw [hcons, List.map_append, ih]
    rcases hm : idDataToInventoryAttrs x d.IdDataStruct with err | attrs
    · simp [specPatchCalls, hm, List.filter_cons, Except.toOption]
    · simp [specPatchCalls, hm, List.filter_cons, Except.toOption]

/-- C16: against a store that pages its records faithfully, for every mapper and sink and
whatever they return, the `PatchDeviceV2` calls of a non-dry-run
`tryPropagateInventoryForDb` are, in store order, exactly one call for each record whose
payload maps, with the record's id, the tenant, the source label `deviceauth` and the
mapped attributes; each call carries the reading of `NowUnixMilis` taken when it is
made; the ids called are those of the records whose payload maps, so a record whose
mapping fails gets no call; and the pass returns nil. -/
theorem tryPropagateInventoryForDb_patches (x : Externals V) (db : DataStore V) (c : Client V)
    (dbname : String) (fuel : Nat) (h : List (Event V)) (recs : List (Device V))
    (hstore : ∀ h skip limit,
      db.GetDevices h (mkCtx (x.TenantFromDbName dbname x.DbName)) skip limit none =
        Except.ok ((recs.drop skip).take limit))
    (hsize : recs.length < uintMod) (hfuel : recs.length / 100 < fuel) :
    (tryPropagateInventoryForDb x db c dbname false fuel h).2 = Outcome.done none ∧
    patchCalls (tryPropagateInventoryForDb x db c dbname false fuel h).1 =
      specPatchCalls x (x.TenantFromDbName dbname x.DbName) recs ∧
    PatchesTimed x c h (tryPropagateInventoryForDb x db c dbname false fuel h).1 ∧
    (patchCalls (tryPropagateInventoryForDb x db c dbname false fuel h).1).map
        (fun call => call.1) =
      (recs.filter fun d => (idDataToInventoryAttrs x d.IdDataStruct).toOption.isSome).map
        fun d => d.Id := by
  have hcalls : patchCalls (tryPropagateInventoryForDb x db c dbname false fuel h).1 =
      specPatchCalls x (x.TenantFromDbName dbname x.DbName) recs := by
    rw [tryPropagateInventoryForDb_events]
    have := inventoryLoop_patchCalls x db c _ (x.TenantFromDbName dbname x.DbName) recs
      (fun h skip => hstore h skip 100) hsize fuel 0 h false (by omega) (by omega)
    simpa using this
  refine ⟨?_, hcalls, ?_, ?_⟩
  · obtain ⟨⟨b, i1⟩, -, -⟩ := inventoryLoop_pages x db c
      (mkCtx (x.TenantFromDbName dbname x.DbName)) (x.TenantFromDbName dbname x.DbName)
      false recs (fun h skip => hstore h skip 100) hsize fuel 0 h false (by omega) (by omega)
    simp only [Nat.mul_zero] at i1
    unfold tryPropagateInventoryForDb
    simp only [i1]
  · rw [tryPropagateInventoryForDb_events]
    exact inventoryLoop_timed x db c _ _ fuel h 0 false
  · rw [hcalls, specPatchCalls_ids]

/-- Witness for C16: three devices, the second with a payload that does not map, and a
sink on which every call fails; the first and the third device are sent. -/
theorem tryPropagateInventoryForDb_patches_witness :
    (patchCalls (tryPropagateInventoryForDb sampleExternals (pagingStore [] recsMixed)
        failingClient "deviceauth" false 1 []).1).map (fun call => call.1) =
      ((recsMixed none none).filter fun d =>
        (idDataToInventoryAttrs sampleExternals d.IdDataStruct).toOption.isSome).map
        (fun d => d.Id) ∧
    (patchCalls (tryPropagateInventoryForDb sampleExternals (pagingStore [] recsMixed)
        failingClient "deviceauth" false 1 []).1).map (fun call => call.1) =
      ["dev-a", "dev-c"] :=
  ⟨(tryPropagateInventoryForDb_patches sampleExternals (pagingStore [] recsMixed) failingClient
      "deviceauth" 1 [] (recsMixed none none) (fun _ _ _ => rfl) (by decide) (by decide)).2.2.2,
    by decide⟩

/-! ## Running the status propagation again -/

theorem updateDevicesStatus_rerun (db : DataStore V) (c : Client V) (ctx : Ctx)
    (tenant status : String) (hdb : Unchanged db)
    (hsink : ∀ h ctx tenant ids s, c.SetDeviceStatus h ctx tenant ids s = none) :
    ∀ (fuel : Nat) (h h' : List (Event V)) (skip : Nat),
      setStatusCalls (updateDevicesStatus db c ctx tenant status false fuel h skip).1 =
        setStatusCalls (updateDevicesStatus db c ctx tenant status false fuel h' skip).1 ∧
      (updateDevicesStatus db c ctx tenant status false fuel h skip).2 =
        (updateDevicesStatus db c ctx tenant status false fuel h' skip).2 := by
  intro fuel
  induction fuel with
  | zero => intro h h' skip; simp [updateDevicesStatus]
  | succ fuel ih =>
    intro h h' skip
    have hsame := hdb.2 h h' ctx skip devicesBatchSize (some status)
    rcases hres : db.GetDevices h' ctx skip devicesBatchSize (some status) with err | devices
    · rw [updateDevicesStatus_error db c ctx tenant status false fuel h skip err
          (hsame.trans hres),
        updateDevicesStatus_error db c ctx tenant status false fuel h' skip err hres]
      exact ⟨rfl, rfl⟩
    · rw [updateDevicesStatus_ok db c ctx tenant status false fuel h skip devices
          (hsame.trans hres),
        updateDevicesStatus_ok db c ctx tenant status false fuel h' skip devices hres]
      simp only [statusSinkStep_false, hsink]
      by_cases hempty : devices.length < 1
      · simp only [if_pos hempty]
        constructor <;> first | rfl | trivial
      · simp only [if_neg hempty]
        by_cases hshort : devices.length < devicesBatchSize
        · simp only [if_pos hshort]
          exact ⟨by simp [setStatusCalls], by first | rfl | trivial⟩
        · simp only [if_neg hshort]
          obtain ⟨i1, i2⟩ := ih
            (h ++ [Event.getDevices ctx skip devicesBatchSize (some status) (Except.ok devices),
              Event.setDeviceStatus ctx tenant (devices.map fun d => d.Id) status none])
            (h' ++ [Event.getDevices ctx skip devicesBatchSize (some status) (Except.ok devices),
              Event.setDeviceStatus ctx tenant (devices.map fun d => d.Id) status none])
            ((skip + devicesBatchSize) % uintMod)
          refine ⟨?_, i2⟩
          rw [setStatusCalls_append, setStatusCalls_append, i1]

theorem sweepStatuses_rerun (db : DataStore V) (c : Client V) (ctx : Ctx) (tenant : String)
    (fuel : Nat) (hdb : Unchanged db)
    (hsink : ∀ h ctx tenant ids s, c.SetDeviceStatus h ctx tenant ids s = none) :
    ∀ (ss : List String) (h h' : List (Event V)) (e : Option Err),
      setStatusCalls (sweepStatuses db c ctx tenant false fuel ss h e).1 =
        setStatusCalls (sweepStatuses db c ctx tenant false fuel ss h' e).1 ∧
      (sweepStatuses db c ctx tenant false fuel ss h e).2 =
        (sweepStatuses db c ctx tenant false fuel ss h' e).2 := by
  intro ss
  induction ss with
  | nil => intro h h' e; simp [sweepStatuses]
  | cons s ss ih =>
    intro h h' e
    obtain ⟨u1, u2⟩ := updateDevicesStatus_rerun db c ctx tenant s hdb hsink fuel h h' 0
    rw [sweepStatuses, sweepStatuses]
    rcases ho : (updateDevicesStatus db c ctx tenant s false fuel h' 0).2 with err | _
    · rw [ho] at u2
      simp only [ho, u2]
      obtain ⟨i1, i2⟩ := ih (h ++ (updateDevicesStatus db c ctx tenant s false fuel h 0).1)
        (h' ++ (updateDevicesStatus db c ctx tenant s false fuel h' 0).1)
        (if err ≠ none then err else e)
      exact ⟨by rw [setStatusCalls_append, setStatusCalls_append, u1, i1], i2⟩
    · rw [ho] at u2
      simp only [ho, u2]
      exact ⟨u1, by first | rfl | trivial⟩

theorem tryPropagateStatusesInventoryForDb_rerun (x : Externals V) (db : DataStore V)
    (c : Client V) (dbname migrationVersion : String) (fuel : Nat) (h h' : List (Event V))
    (hdb : Unchanged db)
    (hsink : ∀ h ctx tenant ids s, c.SetDeviceStatus h ctx tenant ids s = none) :
    setStatusCalls (tryPropagateStatusesInventoryForDb x db c dbname migrationVersion false
        fuel h).1 =
      setStatusCalls (tryPropagateStatusesInventoryForDb x db c dbname migrationVersion false
        fuel h').1 ∧
    (tryPropagateStatusesInventoryForDb x db c dbname migrationVersion false fuel h).2 =
      (tryPropagateStatusesInventoryForDb x db c dbname migrationVersion false fuel h').2 := by
  obtain ⟨i1, i2⟩ := sweepStatuses_rerun db c (mkCtx (x.TenantFromDbName dbname x.DbName))
    (x.TenantFromDbName dbname x.DbName) fuel hdb hsink statuses h h' none
  have hres : ∀ hh hh' ee, (storeCheckpoint x db (mkCtx (x.TenantFromDbName dbname x.DbName))
      migrationVersion false hh ee).2 = (storeCheckpoint x db
      (mkCtx (x.TenantFromDbName dbname x.DbName)) migrationVersion false hh' ee).2 := by
    intro hh hh' ee
    unfold storeCheckpoint
    split
    · split
      · rfl
      · split <;> rfl
    · rfl
  unfold tryPropagateStatusesInventoryForDb
  simp only
  rcases hsw : (sweepStatuses db c (mkCtx (x.TenantFromDbName dbname x.DbName))
    (x.TenantFromDbName dbname x.DbName) false fuel statuses h' none).2 with _ | e
  · rw [hsw] at i2
    simp only [hsw, i2]
    exact ⟨i1, by first | rfl | trivial⟩
  · rw [hsw] at i2
    simp only [hsw, i2, setStatusCalls_append, setStatusCalls_storeCheckpoint, List.append_nil]
    exact ⟨i1, congrArg Outcome.done (hres _ _ e)⟩

theorem propagateStatusesDbs_rerun (x : Externals V) (db : DataStore V) (c : Client V)
    (migrationVersion : String) (fuel : Nat) (hdb : Unchanged db)
    (hsink : ∀ h ctx tenant ids s, c.SetDeviceStatus h ctx tenant ids s = none) :
    ∀ (ds : List String) (h h' : List (Event V)) (e : Option Err),
      setStatusCalls (propagateStatusesDbs x db c migrationVersion false fuel ds h e).1 =
        setStatusCalls (propagateStatusesDbs x db c migrationVersion false fuel ds h' e).1 ∧
      (propagateStatusesDbs x db c migrationVersion false fuel ds h e).2 =
        (propagateStatusesDbs x db c migrationVersion false fuel ds h' e).2 := by
  intro ds
  induction ds with
  | nil => intro h h' e; simp [propagateStatusesDbs]
  | cons d ds ih =>
    intro h h' e
    obtain ⟨u1, u2⟩ := tryPropagateStatusesInventoryForDb_rerun x db c d migrationVersion fuel
      h h' hdb hsink
    rw [propagateStatusesDbs, propagateStatusesDbs]
    rcases ho : (tryPropagateStatusesInventoryForDb x db c d migrationVersion false fuel h').2
      with err | _
    · rw [ho] at u2
      simp only [ho, u2]
      obtain ⟨i1, i2⟩ := ih
        (h ++ (tryPropagateStatusesInventoryForDb x db c d migrationVersion false fuel h).1)
        (h' ++ (tryPropagateStatusesInventoryForDb x db c d migrationVersion false fuel h').1)
        (if err ≠ none then err else e)
      exact ⟨by rw [setStatusCalls_append, setStatusCalls_append, u1, i1], i2⟩
    · rw [ho] at u2
      simp only [ho, u2]
      exact ⟨u1, by first | rfl | trivial⟩

theorem setStatusCalls_selectDbs (x : Externals V) (db : DataStore V) (tenant : String)
    (h : List (Event V)) : setStatusCalls (selectDbs x db tenant h).1 = [] := by
  unfold selectDbs
  by_cases ht : tenant ≠ ""
  · rw [if_pos ht]; rfl
  · rw [if_neg ht]
    rcases hres : db.GetTenantDbs h with err | tdbs
    · rfl
    · simp only
      split <;> rfl

/-- C17: over an unchanged store and with a sink whose `SetDeviceStatus` calls do not fail,
a non-dry-run `PropagateStatusesInventory` makes the same sequence of `SetDeviceStatus`
calls, with the same id lists and statuses in the same order, and returns the same
result, whatever the history it starts from; in particular when it is run a second time
right after a first run, whose events, checkpoint writes included, are then part of the
history. -/
theorem PropagateStatusesInventory_rerun (x : Externals V) (db : DataStore V) (c : Client V)
    (tenant migrationVersion : String) (fuel : Nat) (h : List (Event V))
    (hdb : Unchanged db)
    (hsink : ∀ h ctx tenant ids s, c.SetDeviceStatus h ctx tenant ids s = none) :
    setStatusCalls (PropagateStatusesInventory x db c tenant migrationVersion false fuel
        (h ++ (PropagateStatusesInventory x db c tenant migrationVersion false fuel h).1)).1 =
      setStatusCalls (PropagateStatusesInventory x db c tenant migrationVersion false fuel h).1 ∧
    (PropagateStatusesInventory x db c tenant migrationVersion false fuel
        (h ++ (PropagateStatusesInventory x db c tenant migrationVersion false fuel h).1)).2 =
      (PropagateStatusesInventory x db c tenant migrationVersion false fuel h).2 ∧
    ∀ h', setStatusCalls (PropagateStatusesInventory x db c tenant migrationVersion false fuel
        h').1 =
      setStatusCalls (PropagateStatusesInventory x db c tenant migrationVersion false fuel h).1 := by
  have key : ∀ h', setStatusCalls (PropagateStatusesInventory x db c tenant migrationVersion
        false fuel h').1 =
      setStatusCalls (PropagateStatusesInventory x db c tenant migrationVersion false fuel h).1 ∧
      (PropagateStatusesInventory x db c tenant migrationVersion false fuel h').2 =
      (PropagateStatusesInventory x db c tenant migrationVersion false fuel h).2 := by
    intro h'
    have hsel := selectDbs_unchanged x db tenant hdb h' h
    unfold PropagateStatusesInventory
    simp only [hsel]
    rcases (selectDbs x db tenant h).2 with err | dbs
    · exact ⟨rfl, rfl⟩
    · simp only [setStatusCalls_append]
      obtain ⟨i1, i2⟩ := propagateStatusesDbs_rerun x db c migrationVersion fuel hdb hsink dbs
        (h' ++ (selectDbs x db tenant h).1) (h ++ (selectDbs x db tenant h).1) none
      exact ⟨by rw [i1], i2⟩
  exact ⟨(key _).1, (key _).2, fun h' => (key h').1⟩

/-- Witness for C17: the three-tenant store, run twice in a row with a label, so that the
first run writes three checkpoints. -/
theorem PropagateStatusesInventory_rerun_witness :
    checkpointCalls (PropagateStatusesInventory sampleExternals
        (pagingStore threeTenantDbs recsThree) okClient "" "1.2.0" false 1 []).1 =
      [(some "t1", ⟨1, 2, 0⟩), (some "t2", ⟨1, 2, 0⟩), (some "t3", ⟨1, 2, 0⟩)] ∧
    setStatusCalls (PropagateStatusesInventory sampleExternals
        (pagingStore threeTenantDbs recsThree) okClient "" "1.2.0" false 1
        ([] ++ (PropagateStatusesInventory sampleExternals
          (pagingStore threeTenantDbs recsThree) okClient "" "1.2.0" false 1 []).1)).1 =
      setStatusCalls (PropagateStatusesInventory sampleExternals
        (pagingStore threeTenantDbs recsThree) okClient "" "1.2.0" false 1 []).1 ∧
    setStatusCalls (PropagateStatusesInventory sampleExternals
        (pagingStore threeTenantDbs recsThree) okClient "" "1.2.0" false 1 []).1 =
      [(some "t1", "t1", ["t1-dev-a"], "accepted"), (some "t1", "t1", ["t1-dev-p"], "pending"),
        (some "t2", "t2", ["t2-dev-a"], "accepted"), (some "t2", "t2", ["t2-dev-p"], "pending"),
        (some "t3", "t3", ["t3-dev-a"], "accepted"),
        (some "t3", "t3", ["t3-dev-p"], "pending")] :=
  ⟨by decide,
    (PropagateStatusesInventory_rerun sampleExternals (pagingStore threeTenantDbs recsThree)
      okClient "" "1.2.0" 1 [] ⟨fun _ _ => rfl, fun _ _ _ _ _ _ => rfl⟩
      (fun _ _ _ _ _ => rfl)).1,
    by decide⟩

/-! ## Runs that return -/

theorem updateDevicesStatus_returns (db : DataStore V) (c : Client V) (ctx : Ctx)
    (tenant status : String) (dryRun : Bool) (n : Nat) (hend : PagesEnd db n)
    (hn : n < uintMod) :
    ∀ (fuel : Nat) (h : List (Event V)) (skip : Nat), 0 < fuel →
      n < skip + devicesBatchSize * fuel →
      ∃ err, (updateDevicesStatus db c ctx tenant status dryRun fuel h skip).2 =
        Outcome.done err := by
  intro fuel
  induction fuel with
  | zero => intro h skip h0; omega
  | succ fuel ih =>
    intro h skip _ hfuel
    rcases hres : db.GetDevices h ctx skip devicesBatchSize (some status) with e | devices
    · rw [updateDevicesStatus_error db c ctx tenant status dryRun fuel h skip e hres]
      exact ⟨_, rfl⟩
    · rw [updateDevicesStatus_ok db c ctx tenant status dryRun fuel h skip devices hres]
      simp only
      split
      · exact ⟨_, rfl⟩
      · split
        · exact ⟨_, rfl⟩
        · split
          · exact ⟨_, rfl⟩
          · rename_i hfull
            have hskip : skip + devicesBatchSize ≤ n := by
              by_contra hlt
              exact hfull (hend h ctx skip devicesBatchSize (some status) devices (by decide)
                (by omega) hres)
            have hmod : (skip + devicesBatchSize) % uintMod = skip + devicesBatchSize :=
              Nat.mod_eq_of_lt (by omega)
            rw [hmod]
            have hpos : 0 < fuel := by
              rcases Nat.eq_zero_or_pos fuel with h0 | h0
              · subst h0; omega
              · exact h0
            exact ih _ _ hpos (by rw [Nat.mul_succ] at hfuel; omega)

theorem updateDevicesIdData_returns (db : DataStore V) (c : Client V) (ctx : Ctx)
    (tenant : String) (dryRun : Bool) (n : Nat) (hend : PagesEnd db n) (hn : n < uintMod) :
    ∀ (fuel : Nat) (h : List (Event V)) (skip : Nat), 0 < fuel →
      n < skip + devicesBatchSize * fuel →
      ∃ err, (updateDevicesIdData db c ctx tenant dryRun fuel h skip).2 = Outcome.done err := by
  intro fuel
  induction fuel with
  | zero => intro h skip h0; omega
  | succ fuel ih =>
    intro h skip _ hfuel
    rcases hres : db.GetDevices h ctx skip devicesBatchSize none with e | devices
    · rw [updateDevicesIdData_error db c ctx tenant dryRun fuel h skip e hres]
      exact ⟨_, rfl⟩
    · rw [updateDevicesIdData_ok db c ctx tenant dryRun fuel h skip devices hres]
      simp only
      split
      · exact ⟨_, rfl⟩
      · split
        · exact ⟨_, rfl⟩
        · split
          · exact ⟨_, rfl⟩
          · rename_i hfull
            have hskip : skip + devicesBatchSize ≤ n := by
              by_contra hlt
              exact hfull (hend h ctx skip devicesBatchSize none devices (by decide)
                (by omega) hres)
            have hmod : (skip + devicesBatchSize) % uintMod = skip + devicesBatchSize :=
              Nat.mod_eq_of_lt (by omega)
            rw [hmod]
            have hpos : 0 < fuel := by
              rcases Nat.eq_zero_or_pos fuel with h0 | h0
              · subst h0; omega
              · exact h0
            exact ih _ _ hpos (by rw [Nat.mul_succ] at hfuel; omega)

theorem inventoryLoop_returns (x : Externals V) (db : DataStore V) (c : Client V) (ctx : Ctx)
    (tenant : String) (dryrun : Bool) (n : Nat) (hend : PagesEnd db n) (hn : n < uintMod) :
    ∀ (fuel : Nat) (h : List (Event V)) (skip : Nat) (errs : Bool), 0 < fuel →
      n < skip + 100 * fuel →
      ∃ r, (inventoryLoop x db c ctx tenant dryrun fuel h skip errs).2 = some r := by
  intro fuel
  induction fuel with
  | zero => intro h skip errs h0; omega
  | succ fuel ih =>
    intro h skip errs _ hfuel
    rcases hres : db.GetDevices h ctx skip 100 none with e | devs
    · rw [inventoryLoop_error x db c ctx tenant dryrun fuel h skip errs e hres]
      exact ⟨_, rfl⟩
    · rw [inventoryLoop_ok x db c ctx tenant dryrun fuel h skip errs devs hres]
      simp only
      split
      · exact ⟨_, rfl⟩
      · rename_i hfull
        have hskip : skip + 100 ≤ n := by
          by_contra hlt
          exact hfull (hend h ctx skip 100 none devs (by decide) (by omega) hres)
        have hmod : (skip + 100) % uintMod = skip + 100 := Nat.mod_eq_of_lt (by omega)
        rw [hmod]
        have hpos : 0 < fuel := by
          rcases Nat.eq_zero_or_pos fuel with h0 | h0
          · subst h0; omega
          · exact h0
        exact ih _ _ _ hpos (by rw [Nat.mul_succ] at hfuel; omega)

/-! ## The sweeps of a status pass and the passes of a run -/

theorem fuel_covers (n fuel : Nat) (hfuel : n / devicesBatchSize < fuel) :
    0 < fuel ∧ n < 0 + devicesBatchSize * fuel := by
  have h1 : n < fuel * devicesBatchSize :=
    (Nat.div_lt_iff_lt_mul (by decide : 0 < devicesBatchSize)).1 hfuel
  refine ⟨lt_of_le_of_lt (Nat.zero_le _) hfuel, ?_⟩
  rw [Nat.zero_add, Nat.mul_comm]
  exact h1

theorem fuel_covers_listing (n fuel : Nat) (hfuel : n / 100 < fuel) :
    0 < fuel ∧ n < 0 + 100 * fuel ∧ n / devicesBatchSize < fuel := by
  have h1 : n < fuel * 100 := (Nat.div_lt_iff_lt_mul (by decide : 0 < 100)).1 hfuel
  refine ⟨lt_of_le_of_lt (Nat.zero_le _) hfuel, by omega, ?_⟩
  exact lt_of_le_of_lt (Nat.div_le_div_left (by decide : 100 ≤ devicesBatchSize) (by decide))
    hfuel

theorem specPasses_names (pass : String → List (Event V) → List (Event V) × Outcome) :
    ∀ (ds : List String) (h : List (Event V)),
      (specPasses pass ds h).map (fun p => p.1) = ds := by
  intro ds
  induction ds with
  | nil => intro h; rfl
  | cons d ds ih => intro h; simp [specPasses, ih]

theorem specPasses_mem (pass : String → List (Event V) → List (Event V) × Outcome) :
    ∀ (ds : List String) (h : List (Event V)),
      ∀ p ∈ specPasses pass ds h, p.1 ∈ ds ∧ ∃ h', p.2 = pass p.1 h' := by
  intro ds
  induction ds with
  | nil => intro h p hp; cases hp
  | cons d ds ih =>
    intro h p hp
    simp only [specPasses, List.mem_cons] at hp
    rcases hp with rfl | hp
    · exact ⟨List.mem_cons_self _ _, h, rfl⟩
    · exact ⟨List.mem_cons_of_mem _ (ih _ p hp).1, (ih _ p hp).2⟩

theorem specPasses_covers (pass : String → List (Event V) → List (Event V) × Outcome) :
    ∀ (ds : List String) (h : List (Event V)), ∀ d ∈ ds,
      ∃ h', ∀ e ∈ (pass d h').1, e ∈ ((specPasses pass ds h).map fun p => p.2.1).flatten := by
  intro ds
  induction ds with
  | nil => intro h d hd; cases hd
  | cons d0 ds ih =>
    intro h d hd
    rcases List.mem_cons.1 hd with rfl | hd
    · refine ⟨h, fun e he => ?_⟩
      simp only [specPasses, List.map_cons, List.flatten_cons]
      exact List.mem_append.2 (Or.inl he)
    · obtain ⟨h', hh'⟩ := ih (h ++ (pass d0 h).1) d hd
      refine ⟨h', fun e he => ?_⟩
      simp only [specPasses, List.map_cons, List.flatten_cons]
      exact List.mem_append.2 (Or.inr (hh' e he))

theorem sweepStatuses_sweeps (db : DataStore V) (c : Client V) (ctx : Ctx) (tenant : String)
    (dryRun : Bool) (fuel : Nat)
    (hret : ∀ s h, ∃ err,
      (updateDevicesStatus db c ctx tenant s dryRun fuel h 0).2 = Outcome.done err) :
    ∀ (ss : List String) (h : List (Event V)) (e : Option Err),
      (∃ e', (sweepStatuses db c ctx tenant dryRun fuel ss h e).2 = some e') ∧
      (sweepStatuses db c ctx tenant dryRun fuel ss h e).1 =
        ((specPasses (fun s h' => updateDevicesStatus db c ctx tenant s dryRun fuel h' 0)
          ss h).map fun p => p.2.1).flatten := by
  intro ss
  induction ss with
  | nil => intro h e; exact ⟨⟨e, rfl⟩, rfl⟩
  | cons s ss ih =>
    intro h e
    obtain ⟨err, herr⟩ := hret s h
    rw [sweepStatuses]
    simp only [herr, specPasses, List.map_cons, List.flatten_cons]
    obtain ⟨i1, i2⟩ := ih (h ++ (updateDevicesStatus db c ctx tenant s dryRun fuel h 0).1)
      (if err ≠ none then err else e)
    exact ⟨i1, by rw [i2]⟩

theorem updateDevicesStatus_first_sent (db : DataStore V) (c : Client V) (ctx : Ctx)
    (tenant status : String) (dryRun : Bool) (fuel : Nat) (h : List (Event V)) (skip : Nat)
    (err : Option Err)
    (hdone : (updateDevicesStatus db c ctx tenant status dryRun fuel h skip).2 = Outcome.done err) :
    ∃ res, Event.getDevices ctx skip devicesBatchSize (some status) res ∈
        (updateDevicesStatus db c ctx tenant status dryRun fuel h skip).1 ∧
      ∀ devs, res = Except.ok devs → devs ≠ [] → dryRun = false →
        ∃ r, Event.setDeviceStatus ctx tenant (devs.map fun d => d.Id) status r ∈
          (updateDevicesStatus db c ctx tenant status dryRun fuel h skip).1 := by
  cases fuel with
  | zero => simp [updateDevicesStatus] at hdone
  | succ fuel =>
    rcases hres : db.GetDevices h ctx skip devicesBatchSize (some status) with e | devices
    · rw [updateDevicesStatus_error db c ctx tenant status dryRun fuel h skip e hres]
      refine ⟨_, List.mem_cons_self _ _, ?_⟩
      intro devs hd
      cases hd
    · rw [updateDevicesStatus_ok db c ctx tenant status dryRun fuel h skip devices hres]
      refine ⟨Except.ok devices, ?_, ?_⟩
      · simp only
        split
        · exact List.mem_cons_self _ _
        · split
          · exact List.mem_cons_self _ _
          · split
            · exact List.mem_cons_self _ _
            · exact List.mem_cons_self _ _
      · intro devs hd hne hdry
        simp only [Except.ok.injEq] at hd
        subst hd
        subst hdry
        have hlen : ¬ devices.length < 1 := by
          intro hl
          apply hne
          apply List.eq_nil_of_length_eq_zero
          omega
        refine ⟨c.SetDeviceStatus
          (h ++ [Event.getDevices ctx skip devicesBatchSize (some status) (Except.ok devices)])
          ctx tenant (devices.map fun d => d.Id) status, ?_⟩
        simp only [if_neg hlen, statusSinkStep_false]
        split
        · exact List.mem_cons_of_mem _ (List.mem_cons_self _ _)
        · split
          · exact List.mem_cons_of_mem _ (List.mem_cons_self _ _)
          · exact List.mem_cons_of_mem _ (List.mem_append.2 (Or.inl (List.mem_cons_self _ _)))

theorem storeCheckpoint_isCheckpoint (x : Externals V) (db : DataStore V) (ctx : Ctx)
    (migrationVersion : String) (dryRun : Bool) (h : List (Event V)) (errReturned : Option Err) :
    ∀ e ∈ (storeCheckpoint x db ctx migrationVersion dryRun h errReturned).1,
      Event.isCheckpoint e = true := by
  intro e he
  rcases storeCheckpoint_events x db ctx migrationVersion dryRun h errReturned with
    h0 | ⟨v, -, -, -, -, h1⟩
  · rw [h0] at he; cases he
  · rw [h1] at he
    rcases List.mem_singleton.1 he with rfl
    rfl

theorem tryPropagateStatusesInventoryForDb_sweeps (x : Externals V) (db : DataStore V)
    (c : Client V) (dbname migrationVersion : String) (dryRun : Bool) (fuel : Nat)
    (h : List (Event V)) (n : Nat) (hend : PagesEnd db n) (hn : n < uintMod)
    (hfuel : n / devicesBatchSize < fuel) :
    (∃ err, (tryPropagateStatusesInventoryForDb x db c dbname migrationVersion dryRun fuel h).2 =
      Outcome.done err) ∧
    (∃ cp, (tryPropagateStatusesInventoryForDb x db c dbname migrationVersion dryRun fuel h).1 =
        ((specPasses (fun s h' => updateDevicesStatus db c
            (mkCtx (x.TenantFromDbName dbname x.DbName)) (x.TenantFromDbName dbname x.DbName)
            s dryRun fuel h' 0) statuses h).map fun p => p.2.1).flatten ++ cp ∧
      ∀ e ∈ cp, Event.isCheckpoint e = true) ∧
    (∀ p ∈ specPasses (fun s h' => updateDevicesStatus db c
          (mkCtx (x.TenantFromDbName dbname x.DbName)) (x.TenantFromDbName dbname x.DbName)
          s dryRun fuel h' 0) statuses h,
      ∃ err, p.2.2 = Outcome.done err) ∧
    (∀ s ∈ statuses, ∃ res,
      Event.getDevices (mkCtx (x.TenantFromDbName dbname x.DbName)) 0 devicesBatchSize (some s)
          res ∈
        (tryPropagateStatusesInventoryForDb x db c dbname migrationVersion dryRun fuel h).1 ∧
      ∀ devs, res = Except.ok devs → devs ≠ [] → dryRun = false →
        ∃ r, Event.setDeviceStatus (mkCtx (x.TenantFromDbName dbname x.DbName))
            (x.TenantFromDbName dbname x.DbName) (devs.map fun d => d.Id) s r ∈
          (tryPropagateStatusesInventoryForDb x db c dbname migrationVersion dryRun fuel h).1) := by
  obtain ⟨f1, f2⟩ := fuel_covers n fuel hfuel
  have hret : ∀ s h', ∃ err, (updateDevicesStatus db c
      (mkCtx (x.TenantFromDbName dbname x.DbName)) (x.TenantFromDbName dbname x.DbName)
      s dryRun fuel h' 0).2 = Outcome.done err := fun s h' =>
    updateDevicesStatus_returns db c _ _ s dryRun n hend hn fuel h' 0 f1 f2
  obtain ⟨⟨e', he'⟩, hev⟩ := sweepStatuses_sweeps db c
    (mkCtx (x.TenantFromDbName dbname x.DbName)) (x.TenantFromDbName dbname x.DbName) dryRun fuel
    hret statuses h none
  have hpass : tryPropagateStatusesInventoryForDb x db c dbname migrationVersion dryRun fuel h =
      ((sweepStatuses db c (mkCtx (x.TenantFromDbName dbname x.DbName))
          (x.TenantFromDbName dbname x.DbName) dryRun fuel statuses h none).1 ++
        (storeCheckpoint x db (mkCtx (x.TenantFromDbName dbname x.DbName)) migrationVersion
          dryRun (h ++ (sweepStatuses db c (mkCtx (x.TenantFromDbName dbname x.DbName))
            (x.TenantFromDbName dbname x.DbName) dryRun fuel statuses h none).1) e').1,
        Outcome.done (storeCheckpoint x db (mkCtx (x.TenantFromDbName dbname x.DbName))
          migrationVersion dryRun
          (h ++ (sweepStatuses db c (mkCtx (x.TenantFromDbName dbname x.DbName))
            (x.TenantFromDbName dbname x.DbName) dryRun fuel statuses h none).1) e').2) := by
    unfold tryPropagateStatusesInventoryForDb
    simp only [he']
  refine ⟨⟨_, by rw [hpass]⟩, ⟨_, by rw [hpass, hev], storeCheckpoint_isCheckpoint x db _ _ _ _ _⟩,
    ?_, ?_⟩
  · intro p hp
    obtain ⟨-, h', hp'⟩ := specPasses_mem _ statuses h p hp
    obtain ⟨err, herr⟩ := hret p.1 h'
    exact ⟨err, by rw [hp']; exact herr⟩
  · intro s hs
    obtain ⟨h', hcov⟩ := specPasses_covers (fun s h' => updateDevicesStatus db c
      (mkCtx (x.TenantFromDbName dbname x.DbName)) (x.TenantFromDbName dbname x.DbName)
      s dryRun fuel h' 0) statuses h s hs
    obtain ⟨err, herr⟩ := hret s h'
    obtain ⟨res, hres, hsent⟩ := updateDevicesStatus_first_sent db c _ _ s dryRun fuel h' 0 err herr
    have hin : ∀ e ∈ (updateDevicesStatus db c (mkCtx (x.TenantFromDbName dbname x.DbName))
        (x.TenantFromDbName dbname x.DbName) s dryRun fuel h' 0).1,
        e ∈ (tryPropagateStatusesInventoryForDb x db c dbname migrationVersion dryRun fuel h).1 := by
      intro e he
      rw [hpass, hev]
      exact List.mem_append.2 (Or.inl (hcov e he))
    refine ⟨res, hin _ hres, fun devs hd hne hdry => ?_⟩
    obtain ⟨r, hr⟩ := hsent devs hd hne hdry
    exact ⟨r, hin _ hr⟩

theorem tryPropagateStatusesInventoryForDb_returns (x : Externals V) (db : DataStore V)
    (c : Client V) (migrationVersion : String) (dryRun : Bool) (fuel : Nat) (n : Nat)
    (hend : PagesEnd db n) (hn : n < uintMod) (hfuel : n / devicesBatchSize < fuel)
    (dbname : String) (h : List (Event V)) :
    ∃ err, (tryPropagateStatusesInventoryForDb x db c dbname migrationVersion dryRun fuel h).2 =
      Outcome.done err :=
  (tryPropagateStatusesInventoryForDb_sweeps x db c dbname migrationVersion dryRun fuel h n hend
    hn hfuel).1

theorem tryPropagateIdDataInventoryForDb_returns (x : Externals V) (db : DataStore V)
    (c : Client V) (dryRun : Bool) (fuel : Nat) (n : Nat)
    (hend : PagesEnd db n) (hn : n < uintMod) (hfuel : n / devicesBatchSize < fuel)
    (dbname : String) (h : List (Event V)) :
    ∃ err, (tryPropagateIdDataInventoryForDb x db c dbname dryRun fuel h).2 =
      Outcome.done err := by
  obtain ⟨f1, f2⟩ := fuel_covers n fuel hfuel
  exact updateDevicesIdData_returns db c _ _ dryRun n hend hn fuel h 0 f1 f2

theorem tryPropagateInventoryForDb_returns (x : Externals V) (db : DataStore V)
    (c : Client V) (dryrun : Bool) (fuel : Nat) (n : Nat)
    (hend : PagesEnd db n) (hn : n < uintMod) (hfuel : n / 100 < fuel)
    (dbname : String) (h : List (Event V)) :
    ∃ err, (tryPropagateInventoryForDb x db c dbname dryrun fuel h).2 = Outcome.done err := by
  obtain ⟨f1, f2, -⟩ := fuel_covers_listing n fuel hfuel
  obtain ⟨r, hr⟩ := inventoryLoop_returns x db c (mkCtx (x.TenantFromDbName dbname x.DbName))
    (x.TenantFromDbName dbname x.DbName) dryrun n hend hn fuel h 0 false f1 f2
  unfold tryPropagateInventoryForDb
  simp only [hr]
  cases r with
  | error err => exact ⟨_, rfl⟩
  | ok b => exact ⟨_, rfl⟩

theorem propagateStatusesDbs_total (x : Externals V) (db : DataStore V) (c : Client V)
    (migrationVersion : String) (dryRun : Bool) (fuel : Nat)
    (hret : ∀ d h, ∃ err,
      (tryPropagateStatusesInventoryForDb x db c d migrationVersion dryRun fuel h).2 =
        Outcome.done err) :
    ∀ (ds : List String) (h : List (Event V)) (e : Option Err),
      (∃ err, (propagateStatusesDbs x db c migrationVersion dryRun fuel ds h e).2 =
        Outcome.done err) ∧
      (propagateStatusesDbs x db c migrationVersion dryRun fuel ds h e).1 =
        ((specPasses (fun d h' =>
          tryPropagateStatusesInventoryForDb x db c d migrationVersion dryRun fuel h')
          ds h).map fun p => p.2.1).flatten := by
  intro ds
  induction ds with
  | nil => intro h e; exact ⟨⟨e, rfl⟩, rfl⟩
  | cons d ds ih =>
    intro h e
    obtain ⟨err, herr⟩ := hret d h
    rw [propagateStatusesDbs]
    simp only [herr, specPasses, List.map_cons, List.flatten_cons]
    obtain ⟨i1, i2⟩ := ih
      (h ++ (tryPropagateStatusesInventoryForDb x db c d migrationVersion dryRun fuel h).1)
      (if err ≠ none then err else e)
    exact ⟨i1, by rw [i2]⟩

theorem propagateIdDataDbs_total (x : Externals V) (db : DataStore V) (c : Client V)
    (dryRun : Bool) (fuel : Nat)
    (hret : ∀ d h, ∃ err,
      (tryPropagateIdDataInventoryForDb x db c d dryRun fuel h).2 = Outcome.done err) :
    ∀ (ds : List String) (h : List (Event V)) (e : Option Err),
      (∃ err, (propagateIdDataDbs x db c dryRun fuel ds h e).2 = Outcome.done err) ∧
      (propagateIdDataDbs x db c dryRun fuel ds h e).1 =
        ((specPasses (fun d h' => tryPropagateIdDataInventoryForDb x db c d dryRun fuel h')
          ds h).map fun p => p.2.1).flatten := by
  intro ds
  induction ds with
  | nil => intro h e; exact ⟨⟨e, rfl⟩, rfl⟩
  | cons d ds ih =>
    intro h e
    obtain ⟨err, herr⟩ := hret d h
    rw [propagateIdDataDbs]
    simp only [herr, specPasses, List.map_cons, List.flatten_cons]
    obtain ⟨i1, i2⟩ := ih (h ++ (tryPropagateIdDataInventoryForDb x db c d dryRun fuel h).1)
      (if err ≠ none then err else e)
    exact ⟨i1, by rw [i2]⟩

theorem propagateInventoryDbs_total (x : Externals V) (db : DataStore V) (c : Client V)
    (dryrun : Bool) (fuel : Nat)
    (hret : ∀ d h, ∃ err,
      (tryPropagateInventoryForDb x db c d dryrun fuel h).2 = Outcome.done err) :
    ∀ (ds : List String) (h : List (Event V)),
      (propagateInventoryDbs x db c dryrun fuel ds h).2 = Outcome.done none ∧
      (propagateInventoryDbs x db c dryrun fuel ds h).1 =
        ((specPasses (fun d h' => tryPropagateInventoryForDb x db c d dryrun fuel h')
          ds h).map fun p => p.2.1).flatten := by
  intro ds
  induction ds with
  | nil => intro h; exact ⟨rfl, rfl⟩
  | cons d ds ih =>
    intro h
    obtain ⟨err, herr⟩ := hret d h
    rw [propagateInventoryDbs]
    simp only [herr, specPasses, List.map_cons, List.flatten_cons]
    obtain ⟨i1, i2⟩ := ih (h ++ (tryPropagateInventoryForDb x db c d dryrun fuel h).1)
    exact ⟨i1, by rw [i2]⟩

theorem pagingStore_pagesEnd (tdbs : List String)
    (recs : Ctx → Option String → List (Device SampleValue)) (n : Nat)
    (hrecs : ∀ ctx filter, (recs ctx filter).length ≤ n) : PagesEnd (pagingStore tdbs recs) n := by
  intro h ctx skip limit filter devs hpos hlim hres
  simp only [pagingStore, Except.ok.injEq] at hres
  subst hres
  have := hrecs ctx filter
  simp only [List.length_take, List.length_drop]
  omega

theorem failingStore_pagesEnd (n : Nat) : PagesEnd failingStore n := by
  intro h ctx skip limit filter devs _ _ hres
  simp [failingStore] at hres

theorem recsSmall_length (ctx : Ctx) (filter : Option String) :
    (recsSmall ctx filter).length ≤ 3 := by
  unfold recsSmall
  split
  · simp
  · split
    · simp
    · split <;> simp

theorem recsThree_length (ctx : Ctx) (filter : Option String) :
    (recsThree ctx filter).length ≤ 2 := by
  unfold recsThree
  cases ctx with
  | none => simp
  | some t =>
    simp only
    split
    · simp
    · split
      · simp
      · split <;> simp

theorem acceptedFailingStore_pagesEnd : PagesEnd acceptedFailingStore 3 := by
  intro h ctx skip limit filter devs hpos hlim hres
  simp only [acceptedFailingStore] at hres
  split at hres
  · cases hres
  · simp only [Except.ok.injEq] at hres
    subst hres
    have := recsSmall_length ctx filter
    simp only [List.length_take, List.length_drop]
    omega

/-! ## The calls sent for one status -/

theorem updateDevicesStatus_prefix (db : DataStore V) (c : Client V) (ctx : Ctx)
    (tenant status : String) (recs : List (Device V))
    (hstore : ∀ h skip, db.GetDevices h ctx skip devicesBatchSize (some status) =
      Except.ok ((recs.drop skip).take devicesBatchSize))
    (hsize : recs.length < uintMod) :
    ∀ (fuel k : Nat) (h : List (Event V)), 512 * k ≤ recs.length →
      recs.length / 512 < fuel + k →
      ∃ m, m ≤ (recs.length + 511) / 512 - k ∧
        setStatusCalls (updateDevicesStatus db c ctx tenant status false fuel h (512 * k)).1 =
          ((List.range' k m).map fun i =>
            (ctx, tenant, ((recs.map fun d => d.Id).drop (512 * i)).take 512, status)) ∧
        ((∀ ids err, Event.setDeviceStatus ctx tenant ids status (some err) ∉
            (updateDevicesStatus db c ctx tenant status false fuel h (512 * k)).1) →
          m = (recs.length + 511) / 512 - k) ∧
        (512 * k < recs.length → 0 < m) := by
  intro fuel
  induction fuel with
  | zero => intro k h h1 h2; omega
  | succ fuel ih =>
    intro k h h1 h2
    rw [updateDevicesStatus_ok db c ctx tenant status false fuel h (512 * k) _ (hstore h _)]
    simp only [statusSinkStep_false, devicesBatchSize]
    have hlen : (List.take 512 (List.drop (512 * k) recs)).length =
        min 512 (recs.length - 512 * k) := by simp
    by_cases hempty : (List.take 512 (List.drop (512 * k) recs)).length < 1
    · rw [if_pos hempty]
      refine ⟨0, Nat.zero_le _, by simp [setStatusCalls], fun _ => by omega, fun _ => by omega⟩
    · rw [if_neg hempty]
      rcases hs : c.SetDeviceStatus
          (h ++ [Event.getDevices ctx (512 * k) 512 (some status)
            (Except.ok (List.take 512 (List.drop (512 * k) recs)))]) ctx tenant
          (List.map (fun d => d.Id) (List.take 512 (List.drop (512 * k) recs))) status
        with _ | err
      · simp only [hs]
        by_cases hshort : (List.take 512 (List.drop (512 * k) recs)).length < 512
        · rw [if_pos hshort]
          refine ⟨1, by omega, by simp [setStatusCalls, List.map_take, List.map_drop],
            fun _ => by omega, fun _ => by omega⟩
        · rw [if_neg hshort]
          have hmod : (512 * k + 512) % uintMod = 512 * (k + 1) := by
            simp only [uintMod] at *
            rw [Nat.mod_eq_of_lt (by omega)]; ring
          rw [hmod]
          obtain ⟨m, m1, m2, m3, m4⟩ := ih (k + 1)
            (h ++ Event.getDevices ctx (512 * k) 512 (some status)
              (Except.ok (List.take 512 (List.drop (512 * k) recs))) ::
              [Event.setDeviceStatus ctx tenant
                (List.map (fun d => d.Id) (List.take 512 (List.drop (512 * k) recs)))
                status none])
            (by omega) (by omega)
          refine ⟨m + 1, by omega, ?_, ?_, fun _ => by omega⟩
          · rw [List.range'_succ]
            simp only [List.map_cons, List.cons_append, List.nil_append]
            rw [← m2]
            simp [setStatusCalls, List.map_take, List.map_drop]
          · intro hno
            have := m3 fun ids err hmem => hno ids err (by
              simp only [List.cons_append, List.nil_append]
              exact List.mem_cons_of_mem _ (List.mem_cons_of_mem _ hmem))
            omega
      · simp only [hs]
        refine ⟨1, by omega, by simp [setStatusCalls, List.map_take, List.map_drop], ?_,
          fun _ => by omega⟩
        intro hno
        exact absurd (List.mem_cons_of_mem _ (List.mem_cons_self _ _)) (hno _ err)

theorem statusSinkStep_calls (c : Client V) (ctx : Ctx) (tenant status : String)
    (dryRun : Bool) (h : List (Event V)) (ids : List String) :
    ∀ call ∈ setStatusCalls (statusSinkStep c ctx tenant status dryRun h ids).1,
      call.2.2.2 = status := by
  intro call hcall
  cases dryRun with
  | true => simp [statusSinkStep, setStatusCalls] at hcall
  | false =>
    simp only [statusSinkStep_false, setStatusCalls, List.filterMap_cons, List.filterMap_nil,
      List.mem_singleton] at hcall
    rw [hcall]

theorem updateDevicesStatus_calls_status (db : DataStore V) (c : Client V) (ctx : Ctx)
    (tenant status : String) (dryRun : Bool) :
    ∀ (fuel : Nat) (h : List (Event V)) (skip : Nat),
      ∀ call ∈ setStatusCalls (updateDevicesStatus db c ctx tenant status dryRun fuel h skip).1,
        call.2.2.2 = status := by
  intro fuel
  induction fuel with
  | zero => intro h skip call hcall; simp [updateDevicesStatus, setStatusCalls] at hcall
  | succ fuel ih =>
    intro h skip call hcall
    rcases hres : db.GetDevices h ctx skip devicesBatchSize (some status) with e | devices
    · rw [updateDevicesStatus_error db c ctx tenant status dryRun fuel h skip e hres] at hcall
      simp [setStatusCalls] at hcall
    · rw [updateDevicesStatus_ok db c ctx tenant status dryRun fuel h skip devices hres] at hcall
      simp only at hcall
      have hstep := statusSinkStep_calls c ctx tenant status dryRun
        (h ++ [Event.getDevices ctx skip devicesBatchSize (some status) (Except.ok devices)])
        (devices.map fun d => d.Id)
      have hcons : ∀ evs : List (Event V),
          setStatusCalls (Event.getDevices ctx skip devicesBatchSize (some status)
            (Except.ok devices) :: evs) = setStatusCalls evs := fun evs => rfl
      split at hcall
      · simp [setStatusCalls] at hcall
      · split at hcall
        · rw [hcons] at hcall
          exact hstep call hcall
        · split at hcall
          · rw [hcons] at hcall
            exact hstep call hcall
          · rw [List.cons_append, hcons, setStatusCalls_append] at hcall
            rcases List.mem_append.1 hcall with h1 | h1
            · exact hstep call h1
            · exact ih _ _ call h1

theorem specPasses_calls_other (db : DataStore V) (c : Client V) (ctx : Ctx) (tenant : String)
    (dryRun : Bool) (fuel : Nat) (s : String) :
    ∀ (ss : List String) (h : List (Event V)), s ∉ ss →
      (setStatusCalls ((specPasses
        (fun s' h' => updateDevicesStatus db c ctx tenant s' dryRun fuel h' 0) ss h).map
          fun p => p.2.1).flatten).filter (fun call => decide (call.2.2.2 = s)) = [] := by
  intro ss
  induction ss with
  | nil => intro h _; rfl
  | cons s0 ss ih =>
    intro h hs
    simp only [specPasses, List.map_cons, List.flatten_cons, setStatusCalls_append,
      List.filter_append]
    rw [ih _ fun hmem => hs (List.mem_cons_of_mem _ hmem), List.append_nil]
    rw [List.filter_eq_nil_iff]
    intro call hcall
    have := updateDevicesStatus_calls_status db c ctx tenant s0 dryRun fuel h 0 call hcall
    simp only [decide_eq_true_eq]
    intro heq
    exact hs (by rw [← heq, this]; exact List.mem_cons_self _ _)

theorem specPasses_calls_of (db : DataStore V) (c : Client V) (ctx : Ctx) (tenant : String)
    (dryRun : Bool) (fuel : Nat) (s : String) :
    ∀ (ss : List String) (h : List (Event V)), ss.Nodup → s ∈ ss → ∃ h',
      (setStatusCalls ((specPasses
        (fun s' h' => updateDevicesStatus db c ctx tenant s' dryRun fuel h' 0) ss h).map
          fun p => p.2.1).flatten).filter (fun call => decide (call.2.2.2 = s)) =
        setStatusCalls (updateDevicesStatus db c ctx tenant s dryRun fuel h' 0).1 ∧
      ∀ e ∈ (updateDevicesStatus db c ctx tenant s dryRun fuel h' 0).1,
        e ∈ ((specPasses (fun s' h' => updateDevicesStatus db c ctx tenant s' dryRun fuel h' 0)
          ss h).map fun p => p.2.1).flatten := by
  intro ss
  induction ss with
  | nil => intro h _ hs; cases hs
  | cons s0 ss ih =>
    intro h hnd hs
    rw [List.nodup_cons] at hnd
    simp only [specPasses, List.map_cons, List.flatten_cons, setStatusCalls_append,
      List.filter_append]
    by_cases h0 : s = s0
    · subst h0
      refine ⟨h, ?_, fun e he => List.mem_append.2 (Or.inl he)⟩
      rw [specPasses_calls_other db c ctx tenant dryRun fuel s ss _ hnd.1, List.append_nil]
      rw [List.filter_eq_self]
      intro call hcall
      simp only [decide_eq_true_eq]
      exact updateDevicesStatus_calls_status db c ctx tenant s dryRun fuel h 0 call hcall
    · have hs' : s ∈ ss := by
        rcases List.mem_cons.1 hs with h1 | h1
        · exact absurd h1 h0
        · exact h1
      obtain ⟨h', i1, i2⟩ := ih (h ++ (updateDevicesStatus db c ctx tenant s0 dryRun fuel h 0).1)
        hnd.2 hs'
      refine ⟨h', ?_, fun e he => List.mem_append.2 (Or.inr (i2 e he))⟩
      rw [i1]
      have : (setStatusCalls (updateDevicesStatus db c ctx tenant s0 dryRun fuel h 0).1).filter
          (fun call => decide (call.2.2.2 = s)) = [] := by
        rw [List.filter_eq_nil_iff]
        intro call hcall
        have := updateDevicesStatus_calls_status db c ctx tenant s0 dryRun fuel h 0 call hcall
        simp only [decide_eq_true_eq]
        intro heq
        exact h0 (by rw [← heq, this])
      rw [this, List.nil_append]

theorem faithful_length (db : DataStore V) (n : Nat) (hend : PagesEnd db n) (ctx : Ctx)
    (filter : Option String) (recs : List (Device V))
    (hstore : ∀ h skip, db.GetDevices h ctx skip devicesBatchSize filter =
      Except.ok ((recs.drop skip).take devicesBatchSize)) :
    recs.length / 512 ≤ n / 512 ∧ (n < uintMod → recs.length < uintMod) := by
  have h1 := hend [] ctx (n - 511) devicesBatchSize filter _ (by decide)
    (by simp only [devicesBatchSize]; omega) (hstore [] (n - 511))
  simp only [devicesBatchSize, List.length_take, List.length_drop] at h1
  refine ⟨by omega, fun hn => ?_⟩
  simp only [uintMod] at *
  omega

theorem setStatusCalls_checkpoints (cp : List (Event V))
    (hcp : ∀ e ∈ cp, Event.isCheckpoint e = true) : setStatusCalls cp = [] := by
  unfold setStatusCalls
  rw [List.filterMap_eq_nil_iff]
  intro e he
  have := hcp e he
  cases e <;> simp_all [Event.isCheckpoint]

theorem tryPropagateStatusesInventoryForDb_sent (x : Externals V) (db : DataStore V)
    (c : Client V) (dbname migrationVersion : String) (fuel : Nat)
    (h : List (Event V)) (n : Nat) (hend : PagesEnd db n) (hn : n < uintMod)
    (hfuel : n / devicesBatchSize < fuel) (s : String) (hs : s ∈ statuses)
    (recs : List (Device V))
    (hstore : ∀ h' skip,
      db.GetDevices h' (mkCtx (x.TenantFromDbName dbname x.DbName)) skip devicesBatchSize (some s) =
        Except.ok ((recs.drop skip).take devicesBatchSize)) :
    ((setStatusCalls
        (tryPropagateStatusesInventoryForDb x db c dbname migrationVersion false fuel h).1).filter
        (fun call => decide (call.2.2.2 = s)) <+:
      (specChunks devicesBatchSize (recs.map fun d => d.Id)).map fun ids =>
        (mkCtx (x.TenantFromDbName dbname x.DbName), x.TenantFromDbName dbname x.DbName, ids, s)) ∧
    ((∀ ids err, Event.setDeviceStatus (mkCtx (x.TenantFromDbName dbname x.DbName))
        (x.TenantFromDbName dbname x.DbName) ids s (some err) ∉
        (tryPropagateStatusesInventoryForDb x db c dbname migrationVersion false fuel h).1) →
      (setStatusCalls
        (tryPropagateStatusesInventoryForDb x db c dbname migrationVersion false fuel h).1).filter
        (fun call => decide (call.2.2.2 = s)) =
      (specChunks devicesBatchSize (recs.map fun d => d.Id)).map fun ids =>
        (mkCtx (x.TenantFromDbName dbname x.DbName), x.TenantFromDbName dbname x.DbName, ids, s)) ∧
    (recs ≠ [] →
      (setStatusCalls
        (tryPropagateStatusesInventoryForDb x db c dbname migrationVersion false fuel h).1).filter
        (fun call => decide (call.2.2.2 = s)) ≠ []) := by
  obtain ⟨-, ⟨cp, hev, hcp⟩, -, -⟩ := tryPropagateStatusesInventoryForDb_sweeps x db c dbname
    migrationVersion false fuel h n hend hn hfuel
  obtain ⟨h', hflt, hsub⟩ := specPasses_calls_of db c
    (mkCtx (x.TenantFromDbName dbname x.DbName)) (x.TenantFromDbName dbname x.DbName) false fuel s
    statuses h (by decide) hs
  obtain ⟨l1, l2⟩ := faithful_length db n hend _ _ recs hstore
  obtain ⟨m, m1, m2, m3, m4⟩ := updateDevicesStatus_prefix db c
    (mkCtx (x.TenantFromDbName dbname x.DbName)) (x.TenantFromDbName dbname x.DbName) s recs
    hstore (l2 hn) fuel 0 h' (by omega)
    (by simp only [devicesBatchSize] at hfuel; omega)
  simp only [Nat.mul_zero, Nat.sub_zero] at m1 m2 m3 m4
  have hsent : (setStatusCalls
      (tryPropagateStatusesInventoryForDb x db c dbname migrationVersion false fuel h).1).filter
      (fun call => decide (call.2.2.2 = s)) =
      (List.range' 0 m).map fun i => (mkCtx (x.TenantFromDbName dbname x.DbName),
        x.TenantFromDbName dbname x.DbName,
        ((recs.map fun d => d.Id).drop (512 * i)).take 512, s) := by
    rw [hev, setStatusCalls_append, setStatusCalls_checkpoints cp hcp, List.append_nil, hflt, m2]
  have hexp : ((specChunks devicesBatchSize (recs.map fun d => d.Id)).map fun ids =>
      (mkCtx (x.TenantFromDbName dbname x.DbName), x.TenantFromDbName dbname x.DbName, ids, s)) =
      (List.range' 0 ((recs.length + 511) / 512)).map fun i =>
        (mkCtx (x.TenantFromDbName dbname x.DbName), x.TenantFromDbName dbname x.DbName,
          ((recs.map fun d => d.Id).drop (512 * i)).take 512, s) := by
    simp [specChunks, devicesBatchSize, List.range_eq_range']
  rw [hsent, hexp]
  refine ⟨?_, ?_, ?_⟩
  · have hsplit : List.range' 0 ((recs.length + 511) / 512) =
        List.range' 0 m ++ List.range' (0 + m) ((recs.length + 511) / 512 - m) := by
      rw [List.range'_append_1]
      congr 1
      omega
    rw [hsplit, List.map_append]
    exact List.prefix_append _ _
  · intro hno
    have := m3 fun ids err hmem => hno ids err (by
      rw [hev]
      exact List.mem_append.2 (Or.inl (hsub _ hmem)))
    rw [this]
  · intro hne
    have hpos : 0 < recs.length := List.length_pos.2 hne
    have := m4 hpos
    intro hnil
    have hl := congrArg List.length hnil
    simp only [List.length_map, List.length_range', List.length_nil] at hl
    omega

/-! ## A failed sink call -/

/-- C3, amended: in status mode and in identity-data mode a failed sink call ends the
current sweep at once. Whenever `updateDevicesStatus` or `updateDevicesIdData` has a failed
event, it is the last event of that call, and the call returns the error of that event; so
the later pages of that status, and in identity-data mode the later records and pages of
the store, are neither fetched nor sent. In status mode the failure ends nothing else.
Against a store whose pages end within `n` records and with fuel above `n / 512`, the pass
returns, and its events are the four sweeps, one `updateDevicesStatus` from offset 0 for
each status in the order accepted, pending, rejected, preauthorized, each started on the
history left by the sweeps before it, whatever they returned, followed by checkpoint
calls only; every status has its first page fetched and, when that page is not empty and
the pass is not a dry run, sent to the sink. For a status whose records the store pages
faithfully, the `SetDeviceStatus` calls of a non-dry-run pass for that status are an
initial part of the chunks of its ids: all the chunks when no call for that status failed,
and at least one when the status has a record, whatever happened to the other statuses. -/
theorem sink_failure_ends_sweep (x : Externals V) (db : DataStore V) (c : Client V) :
    (∀ ctx tenant status dryRun fuel h skip,
      FailStop (updateDevicesStatus db c ctx tenant status dryRun fuel h skip).1
        (updateDevicesStatus db c ctx tenant status dryRun fuel h skip).2) ∧
    (∀ ctx tenant dryRun fuel h skip,
      FailStop (updateDevicesIdData db c ctx tenant dryRun fuel h skip).1
        (updateDevicesIdData db c ctx tenant dryRun fuel h skip).2) ∧
    (∀ dbname migrationVersion dryRun fuel h n, PagesEnd db n → n < uintMod →
      n / devicesBatchSize < fuel →
      (∃ err, (tryPropagateStatusesInventoryForDb x db c dbname migrationVersion dryRun fuel h).2 =
        Outcome.done err) ∧
      (∃ cp, (tryPropagateStatusesInventoryForDb x db c dbname migrationVersion dryRun fuel h).1 =
          ((specPasses (fun s h' => updateDevicesStatus db c
              (mkCtx (x.TenantFromDbName dbname x.DbName)) (x.TenantFromDbName dbname x.DbName)
              s dryRun fuel h' 0) statuses h).map fun p => p.2.1).flatten ++ cp ∧
        ∀ e ∈ cp, Event.isCheckpoint e = true) ∧
      (∀ s ∈ statuses, ∃ res,
        Event.getDevices (mkCtx (x.TenantFromDbName dbname x.DbName)) 0 devicesBatchSize (some s)
            res ∈
          (tryPropagateStatusesInventoryForDb x db c dbname migrationVersion dryRun fuel h).1 ∧
        ∀ devs, res = Except.ok devs → devs ≠ [] → dryRun = false →
          ∃ r, Event.setDeviceStatus (mkCtx (x.TenantFromDbName dbname x.DbName))
              (x.TenantFromDbName dbname x.DbName) (devs.map fun d => d.Id) s r ∈
            (tryPropagateStatusesInventoryForDb x db c dbname migrationVersion dryRun fuel h).1)) ∧
    (∀ dbname migrationVersion fuel h n, PagesEnd db n → n < uintMod →
      n / devicesBatchSize < fuel →
      ∀ s ∈ statuses, ∀ recs : List (Device V),
        (∀ h' skip, db.GetDevices h' (mkCtx (x.TenantFromDbName dbname x.DbName)) skip
            devicesBatchSize (some s) = Except.ok ((recs.drop skip).take devicesBatchSize)) →
        ((setStatusCalls (tryPropagateStatusesInventoryForDb x db c dbname migrationVersion false
              fuel h).1).filter (fun call => decide (call.2.2.2 = s)) <+:
          (specChunks devicesBatchSize (recs.map fun d => d.Id)).map fun ids =>
            (mkCtx (x.TenantFromDbName dbname x.DbName), x.TenantFromDbName dbname x.DbName,
              ids, s)) ∧
        ((∀ ids err, Event.setDeviceStatus (mkCtx (x.TenantFromDbName dbname x.DbName))
            (x.TenantFromDbName dbname x.DbName) ids s (some err) ∉
            (tryPropagateStatusesInventoryForDb x db c dbname migrationVersion false fuel h).1) →
          (setStatusCalls (tryPropagateStatusesInventoryForDb x db c dbname migrationVersion false
              fuel h).1).filter (fun call => decide (call.2.2.2 = s)) =
          (specChunks devicesBatchSize (recs.map fun d => d.Id)).map fun ids =>
            (mkCtx (x.TenantFromDbName dbname x.DbName), x.TenantFromDbName dbname x.DbName,
              ids, s)) ∧
        (recs ≠ [] →
          (setStatusCalls (tryPropagateStatusesInventoryForDb x db c dbname migrationVersion false
              fuel h).1).filter (fun call => decide (call.2.2.2 = s)) ≠ [])) := by
  refine ⟨?_, ?_, ?_, ?_⟩
  · intro ctx tenant status dryRun fuel h skip
    exact (updateDevicesStatus_shape db c ctx tenant status dryRun fuel h skip).2
  · intro ctx tenant dryRun fuel h skip
    exact (updateDevicesIdData_shape db c ctx tenant dryRun fuel h skip).2
  · intro dbname migrationVersion dryRun fuel h n hend hn hfuel
    obtain ⟨s1, s2, -, s4⟩ := tryPropagateStatusesInventoryForDb_sweeps x db c dbname
      migrationVersion dryRun fuel h n hend hn hfuel
    exact ⟨s1, s2, s4⟩
  · intro dbname migrationVersion fuel h n hend hn hfuel s hs recs hstore
    exact tryPropagateStatusesInventoryForDb_sent x db c dbname migrationVersion fuel h n hend hn
      hfuel s hs recs hstore

/-- Witness for C3: the small store with a sink on which every call fails. The pass
returns; the failed call for the accepted devices does not keep the pending device from
being sent; and the calls for the status `pending` are an initial part of its chunks. -/
theorem sink_failure_ends_sweep_witness :
    (∃ err, (tryPropagateStatusesInventoryForDb sampleExternals (pagingStore [] recsSmall)
        failingClient "deviceauth" "" false 1 []).2 = Outcome.done err) ∧
    setStatusCalls (tryPropagateStatusesInventoryForDb sampleExternals (pagingStore [] recsSmall)
        failingClient "deviceauth" "" false 1 []).1 =
      [(none, "", ["dev-a", "dev-b"], "accepted"), (none, "", ["dev-c"], "pending")] ∧
    ((setStatusCalls (tryPropagateStatusesInventoryForDb sampleExternals
          (pagingStore [] recsSmall) failingClient "deviceauth" "" false 1 []).1).filter
        (fun call => decide (call.2.2.2 = "pending")) <+:
      (specChunks devicesBatchSize ((recsSmall none (some "pending")).map fun d => d.Id)).map
        fun ids => (mkCtx (sampleExternals.TenantFromDbName "deviceauth" sampleExternals.DbName),
          sampleExternals.TenantFromDbName "deviceauth" sampleExternals.DbName, ids, "pending")) :=
  ⟨((sink_failure_ends_sweep sampleExternals (pagingStore [] recsSmall) failingClient).2.2.1
      "deviceauth" "" false 1 [] 3 (pagingStore_pagesEnd [] recsSmall 3 recsSmall_length)
      (by decide) (by decide)).1,
    by decide,
    ((sink_failure_ends_sweep sampleExternals (pagingStore [] recsSmall) failingClient).2.2.2
      "deviceauth" "" 1 [] 3 (pagingStore_pagesEnd [] recsSmall 3 recsSmall_length)
      (by decide) (by decide) "pending" (by decide) (recsSmall none (some "pending"))
      (fun _ _ => rfl)).1⟩

set_option maxRecDepth 1000000 in
/-- C3, as stated, fails. Status mode, 513 accepted devices: when `SetDeviceStatus` fails,
the page at offset 512 is never fetched, while it is fetched when the call succeeds.
Identity-data mode, three devices: when `SetDeviceIdentity` fails on the first record,
the other two records are never sent. -/
theorem sink_failure_ends_sweep_counterexample :
    (pageRequests (tryPropagateStatusesInventoryForDb sampleExternals (pagingStore [] recs513)
        failingClient "deviceauth" "" false 2 []).1 =
      [(none, 0, 512, some "accepted"), (none, 0, 512, some "pending"),
        (none, 0, 512, some "rejected"), (none, 0, 512, some "preauthorized")] ∧
      pageRequests (tryPropagateStatusesInventoryForDb sampleExternals (pagingStore [] recs513)
        okClient "deviceauth" "" false 2 []).1 =
      [(none, 0, 512, some "accepted"), (none, 512, 512, some "accepted"),
        (none, 0, 512, some "pending"), (none, 0, 512, some "rejected"),
        (none, 0, 512, some "preauthorized")]) ∧
    ((identityCalls (tryPropagateIdDataInventoryForDb sampleExternals (pagingStore [] recsSmall)
        failingClient "deviceauth" false 1 []).1).map (fun call => call.2.2.1) = ["dev-a"] ∧
      (identityCalls (tryPropagateIdDataInventoryForDb sampleExternals (pagingStore [] recsSmall)
        okClient "deviceauth" false 1 []).1).map (fun call => call.2.2.1) =
        ["dev-a", "dev-b", "dev-c"]) := by
  decide

/-! ## A failed page fetch ends one sweep -/

/-- C13, amended: in full-listing mode and in identity-data mode a failed page fetch is the
last collaborator call of the tenant store's pass, which returns an error. In status
mode a failed page fetch is the last call of the sweep of the status being swept, which
returns an error, and it ends nothing else. Against a store whose pages end within `n`
records and with enough fuel, the status pass returns and its events are the four
sweeps, one `updateDevicesStatus` from offset 0 for each status in order, each started on
the history left by the sweeps before it, whatever they returned, followed by checkpoint
calls only; and for a status whose records the store pages faithfully, the
`SetDeviceStatus` calls of a non-dry-run pass for that status are an initial part of the
chunks of its ids, all of them when no call for that status failed and at least one when
the status has a record, whatever failed for the other statuses. In every mode the run
returns and its events are those of tenant discovery followed by one pass for every
tenant store of the list, in list order, each started on the history left by the passes
before it, whatever they returned; in particular the first page of every store (in status
mode of every status of every store) is fetched. -/
theorem fetch_failure_ends_pass (x : Externals V) (db : DataStore V) (c : Client V)
    (tenant migrationVersion : String) (dryRun : Bool) (fuel : Nat) (h : List (Event V)) :
    (∀ dbname h' pre e post,
      (tryPropagateInventoryForDb x db c dbname dryRun fuel h').1 = pre ++ e :: post →
      Event.fetchFailed e = true →
      post = [] ∧ ∃ err,
        (tryPropagateInventoryForDb x db c dbname dryRun fuel h').2 = Outcome.done (some err)) ∧
    (∀ dbname h' pre e post,
      (tryPropagateIdDataInventoryForDb x db c dbname dryRun fuel h').1 = pre ++ e :: post →
      Event.fetchFailed e = true →
      post = [] ∧ ∃ err,
        (tryPropagateIdDataInventoryForDb x db c dbname dryRun fuel h').2 =
          Outcome.done (some err)) ∧
    (∀ ctx tenant' status h' skip pre e post,
      (updateDevicesStatus db c ctx tenant' status dryRun fuel h' skip).1 = pre ++ e :: post →
      Event.fetchFailed e = true →
      post = [] ∧ ∃ err,
        (updateDevicesStatus db c ctx tenant' status dryRun fuel h' skip).2 =
          Outcome.done (some err)) ∧
    (∀ dbname h' n, PagesEnd db n → n < uintMod → n / devicesBatchSize < fuel →
      (∃ err, (tryPropagateStatusesInventoryForDb x db c dbname migrationVersion dryRun fuel h').2 =
        Outcome.done err) ∧
      (∃ cp, (tryPropagateStatusesInventoryForDb x db c dbname migrationVersion dryRun fuel h').1 =
          ((specPasses (fun s hs => updateDevicesStatus db c
              (mkCtx (x.TenantFromDbName dbname x.DbName)) (x.TenantFromDbName dbname x.DbName)
              s dryRun fuel hs 0) statuses h').map fun p => p.2.1).flatten ++ cp ∧
        ∀ e ∈ cp, Event.isCheckpoint e = true) ∧
      (∀ s ∈ statuses, ∀ recs : List (Device V),
        (∀ hs skip, db.GetDevices hs (mkCtx (x.TenantFromDbName dbname x.DbName)) skip
            devicesBatchSize (some s) = Except.ok ((recs.drop skip).take devicesBatchSize)) →
        ((setStatusCalls (tryPropagateStatusesInventoryForDb x db c dbname migrationVersion false
              fuel h').1).filter (fun call => decide (call.2.2.2 = s)) <+:
          (specChunks devicesBatchSize (recs.map fun d => d.Id)).map fun ids =>
            (mkCtx (x.TenantFromDbName dbname x.DbName), x.TenantFromDbName dbname x.DbName,
              ids, s)) ∧
        ((∀ ids err, Event.setDeviceStatus (mkCtx (x.TenantFromDbName dbname x.DbName))
            (x.TenantFromDbName dbname x.DbName) ids s (some err) ∉
            (tryPropagateStatusesInventoryForDb x db c dbname migrationVersion false fuel h').1) →
          (setStatusCalls (tryPropagateStatusesInventoryForDb x db c dbname migrationVersion false
              fuel h').1).filter (fun call => decide (call.2.2.2 = s)) =
          (specChunks devicesBatchSize (recs.map fun d => d.Id)).map fun ids =>
            (mkCtx (x.TenantFromDbName dbname x.DbName), x.TenantFromDbName dbname x.DbName,
              ids, s)) ∧
        (recs ≠ [] →
          (setStatusCalls (tryPropagateStatusesInventoryForDb x db c dbname migrationVersion false
              fuel h').1).filter (fun call => decide (call.2.2.2 = s)) ≠ []))) ∧
    (∀ dbs n, (selectDbs x db tenant h).2 = Except.ok dbs → PagesEnd db n → n < uintMod →
      n / 100 < fuel →
      ((∃ err, (PropagateInventory x db c tenant dryRun fuel h).2 = Outcome.done err) ∧
        (PropagateInventory x db c tenant dryRun fuel h).1 =
          (selectDbs x db tenant h).1 ++
            ((specPasses (fun d hd => tryPropagateInventoryForDb x db c d dryRun fuel hd) dbs
              (h ++ (selectDbs x db tenant h).1)).map fun p => p.2.1).flatten ∧
        ∀ d ∈ dbs, ∃ res,
          Event.getDevices (mkCtx (x.TenantFromDbName d x.DbName)) 0 100 none res ∈
            (PropagateInventory x db c tenant dryRun fuel h).1) ∧
      ((∃ err, (PropagateIdDataInventory x db c tenant dryRun fuel h).2 = Outcome.done err) ∧
        (PropagateIdDataInventory x db c tenant dryRun fuel h).1 =
          (selectDbs x db tenant h).1 ++
            ((specPasses (fun d hd => tryPropagateIdDataInventoryForDb x db c d dryRun fuel hd)
              dbs (h ++ (selectDbs x db tenant h).1)).map fun p => p.2.1).flatten ∧
        ∀ d ∈ dbs, ∃ res,
          Event.getDevices (mkCtx (x.TenantFromDbName d x.DbName)) 0 devicesBatchSize none res ∈
            (PropagateIdDataInventory x db c tenant dryRun fuel h).1) ∧
      ((∃ err, (PropagateStatusesInventory x db c tenant migrationVersion dryRun fuel h).2 =
          Outcome.done err) ∧
        (PropagateStatusesInventory x db c tenant migrationVersion dryRun fuel h).1 =
          (selectDbs x db tenant h).1 ++
            ((specPasses (fun d hd =>
                tryPropagateStatusesInventoryForDb x db c d migrationVersion dryRun fuel hd)
              dbs (h ++ (selectDbs x db tenant h).1)).map fun p => p.2.1).flatten ∧
        ∀ d ∈ dbs, ∀ s ∈ statuses, ∃ res,
          Event.getDevices (mkCtx (x.TenantFromDbName d x.DbName)) 0 devicesBatchSize (some s)
            res ∈
            (PropagateStatusesInventory x db c tenant migrationVersion dryRun fuel h).1)) := by
  refine ⟨?_, ?_, ?_, ?_, ?_⟩
  · intro dbname h' pre e post heq he
    exact FetchStop.fetch_failure_last _ _ (tryPropagateInventoryForDb_fetchStop x db c dbname dryRun
      fuel h') pre e post heq he
  · intro dbname h' pre e post heq he
    exact FailStop.failure_last _ _
      (updateDevicesIdData_shape db c _ _ dryRun fuel h' 0).2 pre e post heq
      (fetchFailed_failed e he)
  · intro ctx tenant' status h' skip pre e post heq he
    exact FailStop.failure_last _ _
      (updateDevicesStatus_shape db c ctx tenant' status dryRun fuel h' skip).2 pre e post heq
      (fetchFailed_failed e he)
  · intro dbname h' n hend hn hfuel
    obtain ⟨s1, s2, -, -⟩ := tryPropagateStatusesInventoryForDb_sweeps x db c dbname
      migrationVersion dryRun fuel h' n hend hn hfuel
    exact ⟨s1, s2, fun s hs recs hstore =>
      tryPropagateStatusesInventoryForDb_sent x db c dbname migrationVersion fuel h' n hend hn
        hfuel s hs recs hstore⟩
  · intro dbs n hsel hend hn hfuel
    obtain ⟨-, -, hfuel'⟩ := fuel_covers_listing n fuel hfuel
    refine ⟨?_, ?_, ?_⟩
    · obtain ⟨t1, t2⟩ := propagateInventoryDbs_total x db c dryRun fuel
        (fun d hd => tryPropagateInventoryForDb_returns x db c dryRun fuel n hend hn hfuel d hd)
        dbs (h ++ (selectDbs x db tenant h).1)
      have hrun : PropagateInventory x db c tenant dryRun fuel h =
          ((selectDbs x db tenant h).1 ++
            (propagateInventoryDbs x db c dryRun fuel dbs (h ++ (selectDbs x db tenant h).1)).1,
            (propagateInventoryDbs x db c dryRun fuel dbs (h ++ (selectDbs x db tenant h).1)).2) := by
        unfold PropagateInventory
        simp only [hsel]
      refine ⟨⟨none, by rw [hrun]; exact t1⟩, by rw [hrun, t2], fun d hd => ?_⟩
      obtain ⟨res, hres⟩ := propagateInventoryDbs_every_store x db c dryRun fuel dbs _ none t1
        d hd
      exact ⟨res, by rw [hrun]; exact List.mem_append.2 (Or.inr hres)⟩
    · obtain ⟨⟨err, t1⟩, t2⟩ := propagateIdDataDbs_total x db c dryRun fuel
        (fun d hd => tryPropagateIdDataInventoryForDb_returns x db c dryRun fuel n hend hn hfuel'
          d hd)
        dbs (h ++ (selectDbs x db tenant h).1) none
      have hrun : PropagateIdDataInventory x db c tenant dryRun fuel h =
          ((selectDbs x db tenant h).1 ++
            (propagateIdDataDbs x db c dryRun fuel dbs (h ++ (selectDbs x db tenant h).1) none).1,
            (propagateIdDataDbs x db c dryRun fuel dbs (h ++ (selectDbs x db tenant h).1)
              none).2) := by
        unfold PropagateIdDataInventory
        simp only [hsel]
      refine ⟨⟨err, by rw [hrun]; exact t1⟩, by rw [hrun, t2], fun d hd => ?_⟩
      obtain ⟨res, hres⟩ := propagateIdDataDbs_every_store x db c dryRun fuel dbs _ none err t1
        d hd
      exact ⟨res, by rw [hrun]; exact List.mem_append.2 (Or.inr hres)⟩
    · obtain ⟨⟨err, t1⟩, t2⟩ := propagateStatusesDbs_total x db c migrationVersion dryRun fuel
        (fun d hd => tryPropagateStatusesInventoryForDb_returns x db c migrationVersion dryRun
          fuel n hend hn hfuel' d hd)
        dbs (h ++ (selectDbs x db tenant h).1) none
      have hrun : PropagateStatusesInventory x db c tenant migrationVersion dryRun fuel h =
          ((selectDbs x db tenant h).1 ++
            (propagateStatusesDbs x db c migrationVersion dryRun fuel dbs
              (h ++ (selectDbs x db tenant h).1) none).1,
            (propagateStatusesDbs x db c migrationVersion dryRun fuel dbs
              (h ++ (selectDbs x db tenant h).1) none).2) := by
        unfold PropagateStatusesInventory
        simp only [hsel]
      refine ⟨⟨err, by rw [hrun]; exact t1⟩, by rw [hrun, t2], fun d hd s hs => ?_⟩
      obtain ⟨res, hres⟩ := propagateStatusesDbs_every_store x db c migrationVersion dryRun fuel
        dbs _ none err t1 d hd s hs
      exact ⟨res, by rw [hrun]; exact List.mem_append.2 (Or.inr hres)⟩

/-- Witness for C13: the store whose page fetch fails for the status `accepted`. The pass
returns, and the calls made for the status `pending`, whose records the store pages
faithfully, are all the chunks of its ids. -/
theorem fetch_failure_ends_pass_witness :
    (∃ err, (tryPropagateStatusesInventoryForDb sampleExternals acceptedFailingStore okClient
        "deviceauth" "" false 1 []).2 = Outcome.done err) ∧
    ((setStatusCalls (tryPropagateStatusesInventoryForDb sampleExternals acceptedFailingStore
          okClient "deviceauth" "" false 1 []).1).filter
        (fun call => decide (call.2.2.2 = "pending")) <+:
      (specChunks devicesBatchSize ((recsSmall none (some "pending")).map fun d => d.Id)).map
        fun ids => (mkCtx (sampleExternals.TenantFromDbName "deviceauth" sampleExternals.DbName),
          sampleExternals.TenantFromDbName "deviceauth" sampleExternals.DbName, ids, "pending")) ∧
    setStatusCalls (tryPropagateStatusesInventoryForDb sampleExternals acceptedFailingStore
        okClient "deviceauth" "" false 1 []).1 = [(none, "", ["dev-c"], "pending")] :=
  ⟨((fetch_failure_ends_pass sampleExternals acceptedFailingStore okClient "" "" false 1
      []).2.2.2.1 "deviceauth" [] 3 acceptedFailingStore_pagesEnd (by decide) (by decide)).1,
    (((fetch_failure_ends_pass sampleExternals acceptedFailingStore okClient "" "" false 1
      []).2.2.2.1 "deviceauth" [] 3 acceptedFailingStore_pagesEnd (by decide) (by decide)).2.2
      "pending" (by decide) (recsSmall none (some "pending")) (fun _ _ => rfl)).1,
    by decide⟩

/-- C13, as stated, fails in status mode: on a store whose page fetch fails for the status
`accepted`, the pass goes on after the failed fetch, fetches the pages of the other three
statuses and sends the pending device to the sink. -/
theorem fetch_failure_ends_pass_counterexample :
    (tryPropagateStatusesInventoryForDb sampleExternals acceptedFailingStore okClient
        "deviceauth" "" false 1 []).1 =
      [Event.getDevices none 0 512 (some "accepted") (Except.error "connection lost"),
        Event.getDevices none 0 512 (some "pending")
          (Except.ok [⟨"dev-c", [("sn", SampleValue.num 9)]⟩]),
        Event.setDeviceStatus none "" ["dev-c"] "pending" none,
        Event.getDevices none 0 512 (some "rejected") (Except.ok []),
        Event.getDevices none 0 512 (some "preauthorized") (Except.ok [])] ∧
    ¬ (∀ pre e post,
        (tryPropagateStatusesInventoryForDb sampleExternals acceptedFailingStore okClient
          "deviceauth" "" false 1 []).1 = pre ++ e :: post →
        Event.fetchFailed e = true →
        ∀ e' ∈ post, Event.isRead e' = false ∧ Event.isSinkCall e' = false) := by
  refine ⟨rfl, ?_⟩
  intro hc
  have := (hc [] (Event.getDevices none 0 512 (some "accepted") (Except.error "connection lost"))
    [Event.getDevices none 0 512 (some "pending")
        (Except.ok [⟨"dev-c", [("sn", SampleValue.num 9)]⟩]),
      Event.setDeviceStatus none "" ["dev-c"] "pending" none,
      Event.getDevices none 0 512 (some "rejected") (Except.ok []),
      Event.getDevices none 0 512 (some "preauthorized") (Except.ok [])]
    rfl rfl (Event.setDeviceStatus none "" ["dev-c"] "pending" none)
    (List.mem_cons_of_mem _ (List.mem_cons_self _ _))).2
  simp [Event.isSinkCall] at this

/-! ## The result of the status and identity-data runs, with termination -/

theorem PropagateStatusesInventory_returns (x : Externals V) (db : DataStore V) (c : Client V)
    (tenant migrationVersion : String) (dryRun : Bool) (fuel : Nat) (h : List (Event V))
    (n : Nat) (hend : PagesEnd db n) (hn : n < uintMod) (hfuel : n / devicesBatchSize < fuel) :
    ∃ err, (PropagateStatusesInventory x db c tenant migrationVersion dryRun fuel h).2 =
      Outcome.done err := by
  unfold PropagateStatusesInventory
  rcases hsel : (selectDbs x db tenant h).2 with e0 | dbs
  · simp only [hsel]
    exact ⟨_, rfl⟩
  · simp only [hsel]
    exact (propagateStatusesDbs_total x db c migrationVersion dryRun fuel
      (fun d hd => tryPropagateStatusesInventoryForDb_returns x db c migrationVersion dryRun fuel
        n hend hn hfuel d hd) dbs _ none).1

theorem PropagateIdDataInventory_returns (x : Externals V) (db : DataStore V) (c : Client V)
    (tenant : String) (dryRun : Bool) (fuel : Nat) (h : List (Event V))
    (n : Nat) (hend : PagesEnd db n) (hn : n < uintMod) (hfuel : n / devicesBatchSize < fuel) :
    ∃ err, (PropagateIdDataInventory x db c tenant dryRun fuel h).2 = Outcome.done err := by
  unfold PropagateIdDataInventory
  rcases hsel : (selectDbs x db tenant h).2 with e0 | dbs
  · simp only [hsel]
    exact ⟨_, rfl⟩
  · simp only [hsel]
    exact (propagateIdDataDbs_total x db c dryRun fuel
      (fun d hd => tryPropagateIdDataInventoryForDb_returns x db c dryRun fuel n hend hn hfuel
        d hd) dbs _ none).1

theorem PropagateInventory_returns (x : Externals V) (db : DataStore V) (c : Client V)
    (tenant : String) (dryrun : Bool) (fuel : Nat) (h : List (Event V))
    (n : Nat) (hend : PagesEnd db n) (hn : n < uintMod) (hfuel : n / 100 < fuel) :
    ∃ err, (PropagateInventory x db c tenant dryrun fuel h).2 = Outcome.done err := by
  unfold PropagateInventory
  rcases hsel : (selectDbs x db tenant h).2 with e0 | dbs
  · simp only [hsel]
    exact ⟨_, rfl⟩
  · simp only [hsel]
    exact ⟨none, (propagateInventoryDbs_total x db c dryrun fuel
      (fun d hd => tryPropagateInventoryForDb_returns x db c dryrun fuel n hend hn hfuel d hd)
      dbs _).1⟩

/-- C4: with an empty checkpoint label, or one that `migrate.NewVersion` parses, against a
store whose pages end within `n` records and with fuel above `n / 512`, a run of
`PropagateStatusesInventory`, and likewise a run of `PropagateIdDataInventory`, returns,
and it returns nil if and only if tenant discovery succeeded and no event of the run is
a failed page fetch or a failed sink call. Once the loop over the tenant stores holds an
error, it returns an error whatever the later passes do. Against any store at all, a
run that returns has returned nil if and only if the same condition holds. -/
theorem Propagate_returns_nil_iff (x : Externals V) (db : DataStore V) (c : Client V)
    (tenant migrationVersion : String) (dryRun : Bool) (fuel : Nat) (h : List (Event V))
    (hlabel : migrationVersion = "" ∨ ∃ v, x.NewVersion migrationVersion = (some v, none)) :
    (∀ n, PagesEnd db n → n < uintMod → n / devicesBatchSize < fuel →
      (∃ err, (PropagateStatusesInventory x db c tenant migrationVersion dryRun fuel h).2 =
          Outcome.done err ∧
        (err = none ↔ (∃ dbs, (selectDbs x db tenant h).2 = Except.ok dbs) ∧
          ∀ e ∈ (PropagateStatusesInventory x db c tenant migrationVersion dryRun fuel h).1,
            Event.failed e = false)) ∧
      (∃ err, (PropagateIdDataInventory x db c tenant dryRun fuel h).2 = Outcome.done err ∧
        (err = none ↔ (∃ dbs, (selectDbs x db tenant h).2 = Except.ok dbs) ∧
          ∀ e ∈ (PropagateIdDataInventory x db c tenant dryRun fuel h).1,
            Event.failed e = false)) ∧
      (∀ ds h' e, e ≠ none → ∃ err,
        (propagateStatusesDbs x db c migrationVersion dryRun fuel ds h' e).2 =
          Outcome.done (some err)) ∧
      (∀ ds h' e, e ≠ none → ∃ err,
        (propagateIdDataDbs x db c dryRun fuel ds h' e).2 = Outcome.done (some err))) ∧
    (∀ err, (PropagateStatusesInventory x db c tenant migrationVersion dryRun fuel h).2 =
        Outcome.done err →
      (err = none ↔ (∃ dbs, (selectDbs x db tenant h).2 = Except.ok dbs) ∧
        ∀ e ∈ (PropagateStatusesInventory x db c tenant migrationVersion dryRun fuel h).1,
          Event.failed e = false)) ∧
    (∀ err, (PropagateIdDataInventory x db c tenant dryRun fuel h).2 = Outcome.done err →
      (err = none ↔ (∃ dbs, (selectDbs x db tenant h).2 = Except.ok dbs) ∧
        ∀ e ∈ (PropagateIdDataInventory x db c tenant dryRun fuel h).1,
          Event.failed e = false)) := by
  refine ⟨?_, ?_, ?_⟩
  · intro n hend hn hfuel
    refine ⟨?_, ?_, ?_, ?_⟩
    · obtain ⟨err, hdone⟩ := PropagateStatusesInventory_returns x db c tenant migrationVersion
        dryRun fuel h n hend hn hfuel
      exact ⟨err, hdone, PropagateStatusesInventory_result x db c tenant migrationVersion dryRun
        fuel h hlabel err hdone⟩
    · obtain ⟨err, hdone⟩ := PropagateIdDataInventory_returns x db c tenant dryRun fuel h n hend
        hn hfuel
      exact ⟨err, hdone, PropagateIdDataInventory_result x db c tenant dryRun fuel h err hdone⟩
    · intro ds h' e he
      obtain ⟨err, hdone⟩ := (propagateStatusesDbs_total x db c migrationVersion dryRun fuel
        (fun d hd => tryPropagateStatusesInventoryForDb_returns x db c migrationVersion dryRun
          fuel n hend hn hfuel d hd) ds h' e).1
      cases err with
      | none =>
        exact absurd ((propagateStatusesDbs_result x db c migrationVersion dryRun fuel hlabel ds
          h' e none hdone).1 rfl).1 he
      | some err => exact ⟨err, hdone⟩
    · intro ds h' e he
      obtain ⟨err, hdone⟩ := (propagateIdDataDbs_total x db c dryRun fuel
        (fun d hd => tryPropagateIdDataInventoryForDb_returns x db c dryRun fuel n hend hn hfuel
          d hd) ds h' e).1
      cases err with
      | none =>
        exact absurd ((propagateIdDataDbs_result x db c dryRun fuel ds h' e none hdone).1 rfl).1 he
      | some err => exact ⟨err, hdone⟩
  · intro err hdone
    exact PropagateStatusesInventory_result x db c tenant migrationVersion dryRun fuel h hlabel
      err hdone
  · intro err hdone
    exact PropagateIdDataInventory_result x db c tenant dryRun fuel h err hdone

/-- Witness for C4: three tenants, the sink failing for the first one only; the run
returns, and what it returns is the sink's error, the later passes having succeeded. -/
theorem Propagate_returns_nil_iff_witness :
    (∃ err, (PropagateStatusesInventory sampleExternals (pagingStore threeTenantDbs recsThree)
          (tenantFailingClient "t1") "" "1.2.0" false 1 []).2 = Outcome.done err ∧
      (err = none ↔
        (∃ dbs, (selectDbs sampleExternals (pagingStore threeTenantDbs recsThree) "" []).2 =
          Except.ok dbs) ∧
        ∀ e ∈ (PropagateStatusesInventory sampleExternals (pagingStore threeTenantDbs recsThree)
          (tenantFailingClient "t1") "" "1.2.0" false 1 []).1, Event.failed e = false)) ∧
    (PropagateStatusesInventory sampleExternals (pagingStore threeTenantDbs recsThree)
        (tenantFailingClient "t1") "" "1.2.0" false 1 []).2 =
      Outcome.done (some "inventory unavailable") :=
  ⟨((Propagate_returns_nil_iff sampleExternals (pagingStore threeTenantDbs recsThree)
      (tenantFailingClient "t1") "" "1.2.0" false 1 []
      (Or.inr ⟨⟨1, 2, 0⟩, by decide⟩)).1 2
      (pagingStore_pagesEnd threeTenantDbs recsThree 2 recsThree_length) (by decide)
      (by decide)).1,
    by decide⟩

/-! ## The result of the full-listing run, whatever failed -/

/-- C5, amended: in full-listing mode the run-level result does not report the failures of
the tenant stores' passes. When tenant discovery fails, `PropagateInventory` returns the
wrapped discovery error at once. When it succeeds, against a store whose pages end
within `n` records and with fuel above `n / 100`, the run returns nil, whatever mapping,
sink or page-fetch failures occurred in the passes; so the run returns, and it returns an
error if and only if no tenant was given and `GetTenantDbs` failed. Against any store at
all, a run that returns has returned an error if and only if that is the case. -/
theorem PropagateInventory_result (x : Externals V) (db : DataStore V) (c : Client V)
    (tenant : String) (dryrun : Bool) (fuel : Nat) (h : List (Event V)) :
    (∀ e, (selectDbs x db tenant h).2 = Except.error e →
      PropagateInventory x db c tenant dryrun fuel h =
        ((selectDbs x db tenant h).1, Outcome.done (some (wrap e "aborting")))) ∧
    (∀ dbs n, (selectDbs x db tenant h).2 = Except.ok dbs → PagesEnd db n → n < uintMod →
      n / 100 < fuel → (PropagateInventory x db c tenant dryrun fuel h).2 = Outcome.done none) ∧
    (∀ n, PagesEnd db n → n < uintMod → n / 100 < fuel →
      ∃ err, (PropagateInventory x db c tenant dryrun fuel h).2 = Outcome.done err ∧
        (err = none ↔ ∃ dbs, (selectDbs x db tenant h).2 = Except.ok dbs) ∧
        (err ≠ none ↔ tenant = "" ∧ ∃ e, db.GetTenantDbs h = Except.error e)) ∧
    (∀ err, (PropagateInventory x db c tenant dryrun fuel h).2 = Outcome.done err →
      (err = none ↔ ∃ dbs, (selectDbs x db tenant h).2 = Except.ok dbs) ∧
      (err ≠ none ↔ tenant = "" ∧ ∃ e, db.GetTenantDbs h = Except.error e)) := by
  have key : ∀ err, (PropagateInventory x db c tenant dryrun fuel h).2 = Outcome.done err →
      (err = none ↔ ∃ dbs, (selectDbs x db tenant h).2 = Except.ok dbs) ∧
      (err ≠ none ↔ tenant = "" ∧ ∃ e, db.GetTenantDbs h = Except.error e) := by
    intro err hdone
    have k1 : err = none ↔ ∃ dbs, (selectDbs x db tenant h).2 = Except.ok dbs := by
      unfold PropagateInventory at hdone
      rcases hsel : (selectDbs x db tenant h).2 with e0 | dbs
      · simp only [hsel, Outcome.done.injEq] at hdone
        subst hdone
        simp
      · simp only [hsel] at hdone
        have := propagateInventoryDbs_result x db c dryrun fuel dbs _ err hdone
        simp [this]
    refine ⟨k1, ?_⟩
    rw [← selectDbs_error_iff x db tenant h]
    exact not_congr k1
  refine ⟨?_, ?_, ?_, key⟩
  · intro e hsel
    unfold PropagateInventory
    simp only [hsel]
  · intro dbs n hsel hend hn hfuel
    obtain ⟨err, hdone⟩ := PropagateInventory_returns x db c tenant dryrun fuel h n hend hn hfuel
    have := ((key err hdone).1).2 ⟨dbs, hsel⟩
    rw [hdone, this]
  · intro n hend hn hfuel
    obtain ⟨err, hdone⟩ := PropagateInventory_returns x db c tenant dryrun fuel h n hend hn hfuel
    exact ⟨err, hdone, key err hdone⟩

/-- Witness for C5: on the store whose every page fetch fails, tenant discovery succeeds,
the only pass fails, and the run returns nil. -/
theorem PropagateInventory_result_witness :
    (PropagateInventory sampleExternals failingStore okClient "" false 1 []).2 =
      Outcome.done none ∧
    (PropagateInventory sampleExternals failingStore okClient "" false 1 []).1 =
      [Event.getTenantDbs (Except.ok []),
        Event.getDevices none 0 100 none (Except.error "connection lost")] :=
  ⟨(PropagateInventory_result sampleExternals failingStore okClient "" false 1 []).2.1
      ["deviceauth"] 0 rfl (failingStore_pagesEnd 0) (by decide) (by decide),
    rfl⟩

/-- C5, as stated, fails: a failing sink upsert, a payload that cannot be mapped, and a
failing page fetch each leave the result of `PropagateInventory` nil. -/
theorem PropagateInventory_result_counterexample :
    ¬ ((∃ e ∈ (PropagateInventory sampleExternals (pagingStore [] recsSmall) failingClient ""
          false 1 []).1, Event.failed e = true) →
        ∃ err, (PropagateInventory sampleExternals (pagingStore [] recsSmall) failingClient ""
          false 1 []).2 = Outcome.done (some err)) ∧
    ¬ ((∃ d ∈ recsChan none none, ∃ err,
          idDataToInventoryAttrs sampleExternals d.IdDataStruct = Except.error err) →
        ∃ err, (PropagateInventory sampleExternals (pagingStore [] recsChan) okClient ""
          false 1 []).2 = Outcome.done (some err)) ∧
    ¬ ((∃ e ∈ (PropagateInventory sampleExternals failingStore okClient "" false 1 []).1,
          Event.failed e = true) →
        ∃ err, (PropagateInventory sampleExternals failingStore okClient "" false 1 []).2 =
          Outcome.done (some err)) := by
  have h1 : (PropagateInventory sampleExternals (pagingStore [] recsSmall) failingClient ""
      false 1 []).2 = Outcome.done none := by decide
  have h2 : (PropagateInventory sampleExternals (pagingStore [] recsChan) okClient ""
      false 1 []).2 = Outcome.done none := by decide
  have h3 : (PropagateInventory sampleExternals failingStore okClient "" false 1 []).2 =
      Outcome.done none := by decide
  refine ⟨fun hc => ?_, fun hc => ?_, fun hc => ?_⟩
  · obtain ⟨err, herr⟩ := hc (by decide)
    rw [h1] at herr
    cases herr
  · obtain ⟨err, herr⟩ := hc ⟨_, List.mem_singleton.2 rfl, _, rfl⟩
    rw [h2] at herr
    cases herr
  · obtain ⟨err, herr⟩ := hc (by decide)
    rw [h3] at herr
    cases herr

/-! ## Every tenant store gets its pass -/

/-- C6: when tenant discovery gives the list `dbs`, against a store whose pages end within
`n` records and with fuel above `n / 512`, a run of `PropagateStatusesInventory` returns,
and it has run one pass for every tenant store of the list, in list order, each on the
history left by the passes before it, whatever they returned, and every pass returned;
the run returns an error if and only if some pass returned an error. With a non-empty
label that `migrate.NewVersion` parses and no dry-run, the checkpoint calls of the run
are exactly one call for each store whose pass had no failed page fetch and no failed
sink call, in list order, and a pass returned an error exactly when it had such a
failure. -/
theorem PropagateStatusesInventory_containment (x : Externals V) (db : DataStore V)
    (c : Client V) (tenant migrationVersion : String) (dryRun : Bool) (fuel : Nat)
    (h : List (Event V)) (dbs : List String) (n : Nat)
    (hsel : (selectDbs x db tenant h).2 = Except.ok dbs)
    (hend : PagesEnd db n) (hn : n < uintMod) (hfuel : n / devicesBatchSize < fuel) :
    ∃ err,
      (PropagateStatusesInventory x db c tenant migrationVersion dryRun fuel h).2 =
        Outcome.done err ∧
      (specStatusPasses x db c migrationVersion dryRun fuel dbs
          (h ++ (selectDbs x db tenant h).1)).map (fun p => p.1) = dbs ∧
      (PropagateStatusesInventory x db c tenant migrationVersion dryRun fuel h).1 =
        (selectDbs x db tenant h).1 ++
          ((specStatusPasses x db c migrationVersion dryRun fuel dbs
            (h ++ (selectDbs x db tenant h).1)).map fun p => p.2.1).flatten ∧
      (∀ p ∈ specStatusPasses x db c migrationVersion dryRun fuel dbs
          (h ++ (selectDbs x db tenant h).1), ∃ e', p.2.2 = Outcome.done e') ∧
      (err ≠ none ↔
        ∃ p ∈ specStatusPasses x db c migrationVersion dryRun fuel dbs
          (h ++ (selectDbs x db tenant h).1), p.2.2 ≠ Outcome.done none) ∧
      (∀ v, migrationVersion ≠ "" → dryRun = false →
        x.NewVersion migrationVersion = (some v, none) →
        checkpointCalls
            (PropagateStatusesInventory x db c tenant migrationVersion dryRun fuel h).1 =
          ((specStatusPasses x db c migrationVersion dryRun fuel dbs
            (h ++ (selectDbs x db tenant h).1)).filter fun p => noFailure p.2.1).map
            (fun p => (mkCtx (x.TenantFromDbName p.1 x.DbName), v)) ∧
        ∀ p ∈ specStatusPasses x db c migrationVersion dryRun fuel dbs
            (h ++ (selectDbs x db tenant h).1),
          (p.2.2 = Outcome.done none ↔ noFailure p.2.1 = true)) := by
  have hrun : PropagateStatusesInventory x db c tenant migrationVersion dryRun fuel h =
      ((selectDbs x db tenant h).1 ++
        (propagateStatusesDbs x db c migrationVersion dryRun fuel dbs
          (h ++ (selectDbs x db tenant h).1) none).1,
        (propagateStatusesDbs x db c migrationVersion dryRun fuel dbs
          (h ++ (selectDbs x db tenant h).1) none).2) := by
    unfold PropagateStatusesInventory
    simp only [hsel]
  obtain ⟨err, hdone⟩ := (propagateStatusesDbs_total x db c migrationVersion dryRun fuel
    (fun d hd => tryPropagateStatusesInventoryForDb_returns x db c migrationVersion dryRun fuel
      n hend hn hfuel d hd) dbs (h ++ (selectDbs x db tenant h).1) none).1
  obtain ⟨i1, i2, i3⟩ := propagateStatusesDbs_passes x db c migrationVersion dryRun fuel dbs
    (h ++ (selectDbs x db tenant h).1) none err hdone
  refine ⟨err, by rw [hrun]; exact hdone,
    specStatusPasses_names x db c migrationVersion dryRun fuel dbs _, ?_, i2, ?_, ?_⟩
  · rw [hrun, i1]
  · rw [i3]
    simp
  · intro v hmv hdry hv
    subst hdry
    refine ⟨?_, ?_⟩
    · rw [hrun, i1, checkpointCalls_append,
        specStatusPasses_checkpointCalls x db c migrationVersion fuel v hmv hv dbs _ i2]
      have : checkpointCalls (selectDbs x db tenant h).1 = [] :=
        checkpointCalls_eq_nil _ fun e he => by
          have := (selectDbs_events x db tenant h e he).2
          cases e <;> simp_all [Event.isRead, Event.isCheckpoint]
      rw [this, List.nil_append]
    · intro p hp
      obtain ⟨e', he'⟩ := i2 p hp
      obtain ⟨h', hp'⟩ := specStatusPasses_mem x db c migrationVersion false fuel dbs _ p hp
      have hres := tryPropagateStatusesInventoryForDb_result x db c p.1 migrationVersion false
        fuel h' e' (Or.inr ⟨v, hv⟩) (by rw [hp'] at he'; exact he')
      rw [noFailure_iff, he']
      have hev : p.2.1 =
          (tryPropagateStatusesInventoryForDb x db c p.1 migrationVersion false fuel h').1 := by
        conv_lhs => rw [hp']
      rw [hev, ← hres]
      simp

set_option maxRecDepth 100000 in
/-- Witness for C6: three tenants, the sink failing for tenant `t2` only. Tenants `t1` and
`t3` are propagated and checkpointed, tenant `t2` is not checkpointed, and the run
returns the error. -/
theorem PropagateStatusesInventory_containment_witness :
    (PropagateStatusesInventory sampleExternals (pagingStore threeTenantDbs recsThree)
        (tenantFailingClient "t2") "" "1.2.0" false 1 []).2 =
      Outcome.done (some "inventory unavailable") ∧
    checkpointCalls (PropagateStatusesInventory sampleExternals
        (pagingStore threeTenantDbs recsThree) (tenantFailingClient "t2") "" "1.2.0" false 1 []).1 =
      [(some "t1", ⟨1, 2, 0⟩), (some "t3", ⟨1, 2, 0⟩)] ∧
    (PropagateStatusesInventory sampleExternals (pagingStore threeTenantDbs recsThree)
        (tenantFailingClient "t2") "" "1.2.0" false 1 []).1.filter (fun e => e.isSinkCall) =
      [Event.setDeviceStatus (some "t1") "t1" ["t1-dev-a"] "accepted" none,
        Event.setDeviceStatus (some "t1") "t1" ["t1-dev-p"] "pending" none,
        Event.setDeviceStatus (some "t2") "t2" ["t2-dev-a"] "accepted"
          (some "inventory unavailable"),
        Event.setDeviceStatus (some "t2") "t2" ["t2-dev-p"] "pending"
          (some "inventory unavailable"),
        Event.setDeviceStatus (some "t3") "t3" ["t3-dev-a"] "accepted" none,
        Event.setDeviceStatus (some "t3") "t3" ["t3-dev-p"] "pending" none] ∧
    (∃ err, (PropagateStatusesInventory sampleExternals (pagingStore threeTenantDbs recsThree)
          (tenantFailingClient "t2") "" "1.2.0" false 1 []).2 = Outcome.done err ∧
      checkpointCalls (PropagateStatusesInventory sampleExternals
          (pagingStore threeTenantDbs recsThree) (tenantFailingClient "t2") "" "1.2.0" false 1
          []).1 =
        ((specStatusPasses sampleExternals (pagingStore threeTenantDbs recsThree)
            (tenantFailingClient "t2") "1.2.0" false 1 threeTenantDbs
            ([] ++ (selectDbs sampleExternals (pagingStore threeTenantDbs recsThree) ""
              []).1)).filter
          fun p => noFailure p.2.1).map
          (fun p => (mkCtx (sampleExternals.TenantFromDbName p.1 sampleExternals.DbName),
            (⟨1, 2, 0⟩ : Version)))) :=
  ⟨by decide, by decide, rfl,
    match PropagateStatusesInventory_containment sampleExternals
      (pagingStore threeTenantDbs recsThree) (tenantFailingClient "t2") "" "1.2.0" false 1 []
      threeTenantDbs 2 rfl (pagingStore_pagesEnd threeTenantDbs recsThree 2 recsThree_length)
      (by decide) (by decide) with
    | ⟨err, h1, _, _, _, _, h6⟩ => ⟨err, h1, (h6 ⟨1, 2, 0⟩ (by decide) rfl (by decide)).1⟩⟩

end Deviceauth
